import Mathlib

/-!
# SimpleOrderbook: the Python binding layer

A shallow embedding of the two revisions of the CPython extension module of
SimpleOrderbook:

* `Old` : `src/python/simpleorderbook_py.cpp`      (2015 revision)
* `New` : `src/python/src/simpleorderbook_py.cpp`  (2017 revision)

The native engine (`sob::FullInterface`, the factory proxies) and CPython itself
are not part of these files.  Calls into them appear as parameters of the
handlers, and every call a handler makes is recorded in the trace it returns.
-/

namespace SimpleOrderbook

/-! ## Shared vocabulary -/

/-- Python exception classes the bindings raise. -/
inductive PyExc
  | ValueError
  | TypeError
  | MemoryError
  | RuntimeError
  | Exception
  deriving DecidableEq, Repr

/-- What a binding function hands back to the interpreter: an object, or `NULL`
with an exception of class `exc` and text `msg` set. -/
inductive PyResult (α : Type)
  | ok (v : α)
  | error (exc : PyExc) (msg : String)
  deriving DecidableEq, Repr

/-- A `std::tuple<time_point, double, size_t>`: one row of the time-and-sales
journal.  `T` stands for the clock's time points and `P` for prices. -/
abbrev timesale_entry_type (T P : Type) : Type := T × P × Nat

/-- The Python 3-tuple `(str, float, int)` built with `Py_BuildValue` from one
journal row; `to_string` is `sob::to_string` on time points. -/
def build_timesale {T P : Type} (to_string : T → String)
    (e : timesale_entry_type T P) : String × P × Nat :=
  (to_string e.1, e.2.1, e.2.2)

/-- The conversion `(size_t)arg` of a C `long` on an LP64 target. -/
def to_size_t (arg : Int) : Nat := (arg % 2 ^ 64).toNat

/-- The values a C `long` can hold. -/
def is_long (arg : Int) : Prop := -(2 ^ 63) ≤ arg ∧ arg < 2 ^ 63

instance (arg : Int) : Decidable (is_long arg) := by
  unfold is_long; infer_instance

/-- A Python object as far as the bindings inspect it: its identity and whether
`PyCallable_Check` succeeds on it. -/
structure PyObject where
  ident : Nat
  callable : Bool
  deriving DecidableEq, Repr

/-- CPython's `PyCallable_Check`. -/
def PyCallable_Check (o : PyObject) : Bool := o.callable

/-- The enumeration `sob::order_type`. -/
inductive order_type
  | limit
  | market
  | stop
  | stop_limit
  deriving DecidableEq, Repr

/-- An out-parameter passed to the argument parser, tagged by its C type and
carrying the value stored in it: `sob::id_type*` (`unsigned long*`), `double*`,
`long*`, `PyObject**`. -/
inductive CArg (P : Type)
  | ulong_ptr (v : Nat)
  | double_ptr (v : P)
  | long_ptr (v : Int)
  | object_ptr (o : PyObject)
  deriving DecidableEq, Repr

/-- The locals of an order handler once the argument tuple has been parsed.  A
handler reads only the fields its order kind has. -/
structure OrderValues (P : Type) where
  id : Nat
  stop : P
  limit : P
  size : Int
  cb : PyObject
  deriving DecidableEq, Repr

/-- A call on `sob::FullInterface` that changes the book, with its arguments.
The two overloads of `insert_stop_order` / `replace_with_stop_order` that take
both a stop and a limit price are listed as the `_stop_limit` calls. -/
inductive BookCall (P : Type)
  | insert_limit_order (buy : Bool) (limit : P) (size : Nat) (cb : PyObject)
  | replace_with_limit_order (id : Nat) (buy : Bool) (limit : P) (size : Nat) (cb : PyObject)
  | insert_market_order (buy : Bool) (size : Nat) (cb : PyObject)
  | replace_with_market_order (id : Nat) (buy : Bool) (size : Nat) (cb : PyObject)
  | insert_stop_order (buy : Bool) (stop : P) (size : Nat) (cb : PyObject)
  | replace_with_stop_order (id : Nat) (buy : Bool) (stop : P) (size : Nat) (cb : PyObject)
  | insert_stop_limit_order (buy : Bool) (stop limit : P) (size : Nat) (cb : PyObject)
  | replace_with_stop_limit_order (id : Nat) (buy : Bool) (stop limit : P) (size : Nat)
      (cb : PyObject)
  | pull_order (id : Nat)
  deriving DecidableEq, Repr

/-- A `std::exception` thrown by the native engine: `typeid(e).name()` and
`e.what()`. -/
structure NativeException where
  type_name : String
  what : String
  deriving DecidableEq, Repr

/-- How a call into the native engine ends: it returns a value or throws. -/
inductive NativeResult (α : Type)
  | returned (v : α)
  | thrown (e : NativeException)
  deriving DecidableEq, Repr

/-- The engine seen from an order handler: each order call either returns the
new order id or throws. -/
abbrev OrderInterface (P : Type) : Type := BookCall P → NativeResult Nat

/-- What a binding function did: the value handed back to the interpreter and
the calls into native code (of type `C`) it made, in order. -/
structure Outcome (C α : Type) where
  result : PyResult α
  calls : List C

/-- A C `double` by its value: NaN, an infinity, or a number.  The two signed
zeros are both `fin 0`. -/
inductive Double
  | nan
  | neg_inf
  | fin (q : ℚ)
  | pos_inf
  deriving DecidableEq

/-- The comparison `a < b` on doubles; it is false when either side is NaN. -/
def Double.lt : Double → Double → Bool
  | .nan, _ => false
  | _, .nan => false
  | .neg_inf, .neg_inf => false
  | .neg_inf, _ => true
  | .fin _, .neg_inf => false
  | .fin a, .fin b => decide (a < b)
  | .fin _, .pos_inf => true
  | .pos_inf, _ => false

/-- The comparison `a > b` on doubles. -/
def Double.gt (a b : Double) : Bool := Double.lt b a

/-- The comparison `a == b` on doubles; NaN equals nothing. -/
def Double.eq : Double → Double → Bool
  | .nan, _ => false
  | _, .nan => false
  | a, b => decide (a = b)

/-- The comparison `a <= b` on doubles. -/
def Double.le (a b : Double) : Bool := Double.lt a b || Double.eq a b

/-- The tick-size types named in `SOB_TYPES` (declared in `common.hpp`). -/
inductive TickKind
  | quarter_tick
  | tenth_tick
  | thirty_secondth_tick
  | hundredth_tick
  | thousandth_tick
  | ten_thousandth_tick
  deriving DecidableEq, Repr

/-- Modelled from the spec: `common.hpp`, which declares the tick-size types as
ratios, is not among the sources.  The spec lists the tick sizes 1/4, 1/10,
1/32, 1/100, 1/1000 and 1/10000 of the quote unit; this is the denominator the
name of each type stands for. -/
def TickKind.ticks_per_unit : TickKind → Nat
  | .quarter_tick => 4
  | .tenth_tick => 10
  | .thirty_secondth_tick => 32
  | .hundredth_tick => 100
  | .thousandth_tick => 1000
  | .ten_thousandth_tick => 10000

/-- How `FactoryProxy::create(low, high)` ends: it returns a book pointer
(`none` for `nullptr`), or throws a `std::runtime_error`, or throws another
`std::exception`. -/
inductive CreateResult
  | returned (ob : Option Nat)
  | runtime_error (what : String)
  | exception (what : String)
  deriving DecidableEq

/-- A call on a factory proxy. -/
inductive FactoryCall
  | create (kind : TickKind) (low high : Double)
  | destroy (kind : TickKind) (ob : Nat)
  deriving DecidableEq

/-- The struct `pySOBBundle`: the book pointer and the proxy that made it. -/
structure pySOBBundle where
  interface : Option Nat
  proxy : TickKind
  deriving DecidableEq

/-- The struct `pySOB`; `sob_bndl` is `none` for a null pointer. -/
structure pySOB where
  sob_bndl : Option pySOBBundle
  deriving DecidableEq

/-- The host side of `SOB_New`: whether `tp_alloc` and `new pySOBBundle`
succeed, and what the factory of each tick kind does on `create`. -/
structure NewHost where
  tp_alloc_ok : Bool
  bundle_alloc_ok : Bool
  create : TickKind → Double → Double → CreateResult

/-- The enumeration `sob::side_of_market`. -/
inductive side_of_market
  | bid
  | ask
  | both
  deriving DecidableEq, Repr

/-- A call of a tick-arithmetic routine of a factory proxy. -/
inductive TickCall
  | tick_size (kind : TickKind)
  | price_to_tick (kind : TickKind) (price : Double)
  | ticks_in_range (kind : TickKind) (lower upper : Double)
  | tick_memory_required (kind : TickKind) (lower upper : Double)
  deriving DecidableEq

/-- The tick-arithmetic routines of the factory proxies (native code);
`tick_size` is `noexcept`, the others may throw. -/
structure TickRoutines where
  tick_size : TickKind → Double
  price_to_tick : TickKind → Double → NativeResult Double
  ticks_in_range : TickKind → Double → Double → NativeResult Int
  tick_memory_required : TickKind → Double → Double → NativeResult Nat

/-- The macro `CONVERT_AND_THROW_NATIVE_EXCEPTION` of `common_py.hpp` sets a
Python error for a native exception and returns `NULL`.  The header is not among
the sources, so the error it chooses is a parameter of this type. -/
abbrev ExceptionConverter : Type := NativeException → PyExc × String

/-- A depth query on the book. -/
inductive DepthCall
  | bid_depth (depth : Nat)
  | ask_depth (depth : Nat)
  | market_depth (depth : Nat)
  deriving DecidableEq, Repr

/-- The depth queries of `sob::FullInterface`.  A `std::map<double, T>` is
given as the list of its `(key, value)` pairs in iteration order. -/
structure DepthInterface (P : Type) where
  bid_depth : Nat → NativeResult (List (P × Nat))
  ask_depth : Nat → NativeResult (List (P × Nat))
  market_depth : Nat → NativeResult (List (P × (Nat × side_of_market)))

/-- The Python value stored under a price by the depth queries: an `int`, or
the tuple `(size, side)` built with `Py_BuildValue("(K,i)", ...)`. -/
inductive DepthValue
  | size (sz : Nat)
  | size_side (sz : Nat) (side : side_of_market)
  deriving DecidableEq, Repr

/-- CPython's `PyDict_SetItem` on a dictionary kept as the list of its items in
insertion order: an existing key gets the new value, a new key is appended. -/
def PyDict_SetItem {K V : Type} [DecidableEq K] (dict : List (K × V)) (key : K) (val : V) :
    List (K × V) :=
  match dict with
  | [] => [(key, val)]
  | (k, v) :: rest =>
    if k = key then (k, val) :: rest else (k, v) :: PyDict_SetItem rest key val

/-- Looking a key up in a dictionary: `dict[key]`. -/
def PyDict_GetItem {K V : Type} [DecidableEq K] (dict : List (K × V)) (key : K) : Option V :=
  (dict.find? (fun item => item.1 = key)).map Prod.snd

/-- `SOB_TYPES.find(sobty)` on a table listed in key order. -/
def sob_types_find (table : List (Int × String × TickKind)) (sobty : Int) :
    Option (String × TickKind) :=
  (table.find? (fun entry => entry.1 = sobty)).map Prod.snd


/-- The order in which `res` lists rows of `journal`: whenever `i < j` are slots
of `res`, slot `i` holds a row that was appended to `journal` before the row in
slot `j`. -/
def in_chronological_order {α : Type} (journal res : List α) : Prop :=
  ∀ i j : Nat, i < j → j < res.length →
    ∃ a b : Nat, a < b ∧ journal[a]? = res[i]? ∧ journal[b]? = res[j]?

/-- A journal of three trades, oldest first, used to exercise the handlers. -/
def sample_journal : List (timesale_entry_type Nat Nat) :=
  [(0, 10, 1), (1, 11, 2), (2, 12, 3)]

/-- A stand-in for `sob::to_string` on the time points of `sample_journal`. -/
def sample_to_string (t : Nat) : String :=
  if t = 0 then "t0" else if t = 1 then "t1" else "t2"

/-- An engine stub that accepts every order and hands out id 1. -/
def sample_engine : OrderInterface Nat := fun _ => .returned 1

/-- A parsed order: id 0, stop 49, limit 50, size 10, a callable callback. -/
def sample_order : OrderValues Nat := ⟨0, 49, 50, 10, ⟨7, true⟩⟩

/-- A host on which allocation succeeds and whose factories refuse a minimum
price that is not above zero, as the constructor preconditions ask. -/
def sample_host : NewHost :=
  { tp_alloc_ok := true
    bundle_alloc_ok := true
    create := fun _ low _ =>
      if Double.gt low (.fin 0) then .returned (some 1)
      else .exception "invalid price range" }

/-- A book stub with two bid levels, two ask levels and no failing query. -/
def sample_depth_book : DepthInterface Nat :=
  { bid_depth := fun n => .returned ([(98, 5), (99, 7)].drop (2 - n))
    ask_depth := fun n => .returned ([(101, 4), (102, 6)].take n)
    market_depth := fun n =>
      .returned (([(98, (5, side_of_market.bid)), (99, (7, side_of_market.bid))].drop (2 - n))
        ++ [(101, (4, side_of_market.ask)), (102, (6, side_of_market.ask))].take n) }

/-- Tick routines that answer every query with a fixed value. -/
def sample_ticks : TickRoutines :=
  { tick_size := fun _ => .fin 1
    price_to_tick := fun _ price => .returned price
    ticks_in_range := fun _ _ _ => .returned 0
    tick_memory_required := fun _ _ _ => .returned 0 }

/-- A converter that reports every native exception as a `RuntimeError`. -/
def sample_convert : ExceptionConverter := fun e => (PyExc.RuntimeError, e.what)

/-! ## `src/python/src/simpleorderbook_py.cpp` -/

namespace New

/-- The `for` loop of `timesales_to_list`.  `k` is the number of slots still to
fill (`n - i`) and `eiter` the position the iterator points at.  Each round
writes the next slot from `*eiter` and then steps `++i, --eiter`.  Dereferencing
a position outside the vector is undefined behaviour, rendered as `none`. -/
def timesales_loop {T P : Type} (to_string : T → String)
    (vec : List (timesale_entry_type T P)) : Nat → Int → Option (List (String × P × Nat))
  | 0, _ => some []
  | k + 1, eiter =>
    if eiter < 0 then none
    else
      match vec[eiter.toNat]? with
      | none => none
      | some e =>
        match timesales_loop to_string vec k (eiter - 1) with
        | none => none
        | some rest => some (build_timesale to_string e :: rest)

/-- `timesales_to_list(vec, n)`: a list of `n` slots, slot `i` holding the row
the iterator reaches after `i` decrements from `vec.cend() - 1`. -/
def timesales_to_list {T P : Type} (to_string : T → String)
    (vec : List (timesale_entry_type T P)) (n : Nat) : Option (List (String × P × Nat)) :=
  if n = 0 then some []
  else timesales_loop to_string vec n ((vec.length : Int) - 1)

/-- `SOB_time_and_sales(self, args)`.  `vec` is what `ob->time_and_sales()`
returned.  `parsed` is the outcome of `MethodArgs::parse(args, "|l", &arg)`: the
error it left set, or the optional integer (`none` when the caller gave no
argument, in which case `arg` keeps its initial value `-1`). -/
def SOB_time_and_sales {T P : Type} (to_string : T → String)
    (vec : List (timesale_entry_type T P)) (parsed : PyResult (Option Int)) :
    Option (PyResult (List (String × P × Nat))) :=
  match parsed with
  | .error exc msg => some (.error exc msg)
  | .ok given =>
    let arg : Int := given.getD (-1)
    let vsz := vec.length
    let n := if arg ≤ 0 then vsz else min vsz (to_size_t arg)
    match timesales_to_list to_string vec n with
    | none => none
    | some list => some (.ok list)

end New

/-! ## `src/python/simpleorderbook_py.cpp` -/

namespace Old

/-- The `for` loop of `SOB_time_and_sales`: `biter` is the part of the vector
from the iterator to `cend()`; the loop runs while `i < num && biter != eiter`
and writes slot `i` from `*biter`. -/
def time_and_sales_loop {T P : Type} (to_string : T → String) (num : Nat) :
    Nat → List (timesale_entry_type T P) → List (String × P × Nat)
  | _, [] => []
  | i, e :: biter =>
    if i < num then build_timesale to_string e :: time_and_sales_loop to_string num (i + 1) biter
    else []

/-- `MethodArgs::extract`: a failed `PyArg_ParseTuple[AndKeywords]` (`none`) is
reported as `ValueError("error parsing args")`. -/
def MethodArgs.extract {α : Type} (parsed : Option α) : PyResult α :=
  match parsed with
  | none => .error PyExc.ValueError "error parsing args"
  | some v => .ok v

/-- `SOB_time_and_sales(self, args)`; the argument is mandatory (`"l"`). -/
def SOB_time_and_sales {T P : Type} (to_string : T → String)
    (vec : List (timesale_entry_type T P)) (parsed : Option Int) :
    PyResult (List (String × P × Nat)) :=
  match MethodArgs.extract parsed with
  | .error exc msg => .error exc msg
  | .ok arg =>
    let num := if arg ≤ 0 then vec.length else to_size_t arg
    .ok (time_and_sales_loop to_string num 0 vec)

end Old

namespace Old

/-- `THROW_PY_EXCEPTION_FROM_NATIVE(e)`: a native exception becomes a Python
`Exception` whose text is the type name, `": "`, and `what()`. -/
def THROW_PY_EXCEPTION_FROM_NATIVE {α : Type} (e : NativeException) : PyResult α :=
  .error PyExc.Exception (e.type_name ++ ": " ++ e.what)

/-- The two-argument overload `check_args(long *size, PyObject **cb)`: the
callback is tested first, then the size. -/
def OrderMethodArgs.check_size_cb (size : Int) (cb : PyObject) : PyResult Unit :=
  if !PyCallable_Check cb then .error PyExc.TypeError "callback must be callable"
  else if size ≤ 0 then .error PyExc.ValueError "size must be > 0"
  else .ok ()

/-- `OrderMethodArgs::check_args`.  The variadic overload drops its first
argument until only `(long *size, PyObject **cb)` remain; `lead` is the list of
arguments in front of those two. -/
def OrderMethodArgs.check_args {P : Type} (lead : List (CArg P)) (size : Int) (cb : PyObject) :
    PyResult Unit :=
  match lead with
  | [] => OrderMethodArgs.check_size_cb size cb
  | _ :: args => OrderMethodArgs.check_args args size cb

/-- The out-parameters in front of `&size, &py_cb` that `SOB_trade_<kind>` hands
to `extract` after `&id`. -/
def targs_lead {P : Type} (ot : order_type) (v : OrderValues P) : List (CArg P) :=
  match ot with
  | .limit => [.double_ptr v.limit]
  | .market => []
  | .stop => [.double_ptr v.stop]
  | .stop_limit => [.double_ptr v.stop, .double_ptr v.limit]

/-- `OrderMethodArgs<Replace>::extract`.  `parsed` is `none` when
`PyArg_ParseTupleAndKeywords` rejected the Python arguments, and otherwise holds
the values it stored.  The replace form validates `(id_arg, targs...)`, the
insert form `(targs...)`. -/
def OrderMethodArgs.extract {P : Type} (Replace : Bool) (ot : order_type)
    (parsed : Option (OrderValues P)) : PyResult (OrderValues P) :=
  match MethodArgs.extract parsed with
  | .error exc msg => .error exc msg
  | .ok v =>
    let checked :=
      if Replace then
        OrderMethodArgs.check_args (CArg.ulong_ptr v.id :: targs_lead ot v) v.size v.cb
      else
        OrderMethodArgs.check_args (targs_lead ot v) v.size v.cb
    match checked with
    | .error exc msg => .error exc msg
    | .ok _ => .ok v

/-- The tail shared by the four order handlers: make the one book call inside
`try`, and turn a native exception into a Python one. -/
def call_book {P : Type} (sob : OrderInterface P) (call : BookCall P) : Outcome (BookCall P) Nat :=
  match sob call with
  | .returned id => ⟨.ok id, [call]⟩
  | .thrown e => ⟨THROW_PY_EXCEPTION_FROM_NATIVE e, [call]⟩

/-- `SOB_trade_limit<BuyNotSell, Replace>`. -/
def SOB_trade_limit {P : Type} (BuyNotSell Replace : Bool) (sob : OrderInterface P)
    (parsed : Option (OrderValues P)) : Outcome (BookCall P) Nat :=
  match OrderMethodArgs.extract Replace order_type.limit parsed with
  | .error exc msg => ⟨.error exc msg, []⟩
  | .ok v =>
    call_book sob
      (if Replace then
        .replace_with_limit_order v.id BuyNotSell v.limit (to_size_t v.size) v.cb
      else .insert_limit_order BuyNotSell v.limit (to_size_t v.size) v.cb)

/-- `SOB_trade_market<BuyNotSell, Replace>`. -/
def SOB_trade_market {P : Type} (BuyNotSell Replace : Bool) (sob : OrderInterface P)
    (parsed : Option (OrderValues P)) : Outcome (BookCall P) Nat :=
  match OrderMethodArgs.extract Replace order_type.market parsed with
  | .error exc msg => ⟨.error exc msg, []⟩
  | .ok v =>
    call_book sob
      (if Replace then .replace_with_market_order v.id BuyNotSell (to_size_t v.size) v.cb
      else .insert_market_order BuyNotSell (to_size_t v.size) v.cb)

/-- `SOB_trade_stop<BuyNotSell, Replace>`. -/
def SOB_trade_stop {P : Type} (BuyNotSell Replace : Bool) (sob : OrderInterface P)
    (parsed : Option (OrderValues P)) : Outcome (BookCall P) Nat :=
  match OrderMethodArgs.extract Replace order_type.stop parsed with
  | .error exc msg => ⟨.error exc msg, []⟩
  | .ok v =>
    call_book sob
      (if Replace then .replace_with_stop_order v.id BuyNotSell v.stop (to_size_t v.size) v.cb
      else .insert_stop_order BuyNotSell v.stop (to_size_t v.size) v.cb)

/-- `SOB_trade_stop_limit<BuyNotSell, Replace>`. -/
def SOB_trade_stop_limit {P : Type} (BuyNotSell Replace : Bool) (sob : OrderInterface P)
    (parsed : Option (OrderValues P)) : Outcome (BookCall P) Nat :=
  match OrderMethodArgs.extract Replace order_type.stop_limit parsed with
  | .error exc msg => ⟨.error exc msg, []⟩
  | .ok v =>
    call_book sob
      (if Replace then
        .replace_with_stop_limit_order v.id BuyNotSell v.stop v.limit (to_size_t v.size) v.cb
      else .insert_stop_limit_order BuyNotSell v.stop v.limit (to_size_t v.size) v.cb)

end Old

namespace Old

/-- `sob_type_make_entry<T>(index, name)`. -/
def sob_type_make_entry (T : TickKind) (index : Int) (name : String) :
    Int × String × TickKind :=
  (index, name, T)

/-- The table `SOB_TYPES`. -/
def SOB_TYPES : List (Int × String × TickKind) :=
  [ sob_type_make_entry .quarter_tick 1 "SOB_QUARTER_TICK",
    sob_type_make_entry .tenth_tick 2 "SOB_TENTH_TICK",
    sob_type_make_entry .thirty_secondth_tick 3 "SOB_THIRTY_SECONDTH_TICK",
    sob_type_make_entry .hundredth_tick 4 "SOB_HUNDREDTH_TICK",
    sob_type_make_entry .thousandth_tick 5 "SOB_THOUSANDTH_TICK",
    sob_type_make_entry .ten_thousandth_tick 6 "SOB_TEN_THOUSANDTH_TICK" ]

/-- The body of the `try` block of `SOB_New`, run once `self` is allocated:
the result handed back and the factory calls made.  `SOB_TYPES.at` throws
`std::out_of_range` (a `std::exception`) for an unknown key; a null book is
turned into a `std::runtime_error`; `new` may throw `std::bad_alloc`. -/
def SOB_New_construct (host : NewHost) (sobty : Int) (low high : Double) :
    Outcome FactoryCall pySOB :=
  match sob_types_find SOB_TYPES sobty with
  | none => ⟨.error PyExc.Exception "map::at", []⟩
  | some (_, factory) =>
    match host.create factory low high with
    | .runtime_error what => ⟨.error PyExc.RuntimeError what, [.create factory low high]⟩
    | .exception what => ⟨.error PyExc.Exception what, [.create factory low high]⟩
    | .returned none =>
      ⟨.error PyExc.RuntimeError "self->_sob was not constructed", [.create factory low high]⟩
    | .returned (some sob) =>
      if host.bundle_alloc_ok then
        ⟨.ok ⟨some ⟨some sob, factory⟩⟩, [.create factory low high]⟩
      else ⟨.error PyExc.Exception "std::bad_alloc", [.create factory low high]⟩

/-- `SOB_New(type, args, kwds)`.  `parsed` holds `(sobty, low, high)` when
`PyArg_ParseTupleAndKeywords` accepted the arguments.  When `tp_alloc` fails the
function returns the null `self`, with the `MemoryError` that `tp_alloc` set. -/
def SOB_New (host : NewHost) (parsed : Option (Int × Double × Double)) :
    Outcome FactoryCall pySOB :=
  match MethodArgs.extract parsed with
  | .error exc msg => ⟨.error exc msg, []⟩
  | .ok (sobty, low, high) =>
    if Double.eq low (.fin 0) then ⟨.error PyExc.ValueError "low == 0", []⟩
    else if Double.gt low high then ⟨.error PyExc.ValueError "low > high", []⟩
    else if host.tp_alloc_ok then SOB_New_construct host sobty low high
    else ⟨.error PyExc.MemoryError "", []⟩

end Old

namespace New

/-- `sob_type_make_entry<T>(index, name)`. -/
def sob_type_make_entry (T : TickKind) (index : Int) (name : String) :
    Int × String × TickKind :=
  (index, name, T)

/-- The table `SOB_TYPES`. -/
def SOB_TYPES : List (Int × String × TickKind) :=
  [ sob_type_make_entry .quarter_tick 1 "SOB_QUARTER_TICK",
    sob_type_make_entry .tenth_tick 2 "SOB_TENTH_TICK",
    sob_type_make_entry .thirty_secondth_tick 3 "SOB_THIRTY_SECONDTH_TICK",
    sob_type_make_entry .hundredth_tick 4 "SOB_HUNDREDTH_TICK",
    sob_type_make_entry .thousandth_tick 5 "SOB_THOUSANDTH_TICK",
    sob_type_make_entry .ten_thousandth_tick 6 "SOB_TEN_THOUSANDTH_TICK" ]

/-- `SOB_New` from the `try` block on, for a known orderbook type and an
allocated `self`.  The book pointer returned by `create` is held in a variable
declared inside the `try` block; the outer `ob` stays null, so the error path
never calls `destroy`. -/
def SOB_New_construct (host : NewHost) (proxy : TickKind) (low high : Double) :
    Outcome FactoryCall pySOB :=
  match host.create proxy low high with
  | .runtime_error what => ⟨.error PyExc.RuntimeError what, [.create proxy low high]⟩
  | .exception what => ⟨.error PyExc.Exception what, [.create proxy low high]⟩
  | .returned ob =>
    if host.bundle_alloc_ok then ⟨.ok ⟨some ⟨ob, proxy⟩⟩, [.create proxy low high]⟩
    else ⟨.error PyExc.Exception "std::bad_alloc", [.create proxy low high]⟩

/-- `SOB_New(type, args, kwds)`.  `parsed` is the outcome of
`MethodArgs::parse(args, kwds, "idd", kwlist, &sobty, &low, &high)`. -/
def SOB_New (host : NewHost) (parsed : PyResult (Int × Double × Double)) :
    Outcome FactoryCall pySOB :=
  match parsed with
  | .error exc msg => ⟨.error exc msg, []⟩
  | .ok (sobty, low, high) =>
    if Double.eq low (.fin 0) then ⟨.error PyExc.ValueError "low == 0", []⟩
    else if Double.gt low high then ⟨.error PyExc.ValueError "low > high", []⟩
    else
      match sob_types_find SOB_TYPES sobty with
      | none => ⟨.error PyExc.ValueError "invalid orderbook type", []⟩
      | some (_, proxy) =>
        if host.tp_alloc_ok then SOB_New_construct host proxy low high
        else ⟨.error PyExc.MemoryError "pySOB_type->tp_alloc failed", []⟩

end New

namespace New

/-- The module function `TickSize`; `parsed` is the outcome of
`MethodArgs::parse(args, kwds, "i", kwlist, &sobty)`. -/
def TickSize (tr : TickRoutines) (parsed : PyResult Int) : Outcome TickCall Double :=
  match parsed with
  | .error exc msg => ⟨.error exc msg, []⟩
  | .ok sobty =>
    match sob_types_find SOB_TYPES sobty with
    | none => ⟨.error PyExc.ValueError "invalid orderbook type", []⟩
    | some (_, proxy) => ⟨.ok (tr.tick_size proxy), [.tick_size proxy]⟩

/-- The module function `PriceToTick`, arguments `(sobty, price)`. -/
def PriceToTick (tr : TickRoutines) (convert : ExceptionConverter)
    (parsed : PyResult (Int × Double)) : Outcome TickCall Double :=
  match parsed with
  | .error exc msg => ⟨.error exc msg, []⟩
  | .ok (sobty, price) =>
    match sob_types_find SOB_TYPES sobty with
    | none => ⟨.error PyExc.ValueError "invalid orderbook type", []⟩
    | some (_, proxy) =>
      match tr.price_to_tick proxy price with
      | .returned tick => ⟨.ok tick, [.price_to_tick proxy price]⟩
      | .thrown e => ⟨.error (convert e).1 (convert e).2, [.price_to_tick proxy price]⟩

/-- The module function `TicksInRange`, arguments `(sobty, lower, upper)`. -/
def TicksInRange (tr : TickRoutines) (convert : ExceptionConverter)
    (parsed : PyResult (Int × Double × Double)) : Outcome TickCall Int :=
  match parsed with
  | .error exc msg => ⟨.error exc msg, []⟩
  | .ok (sobty, lower, upper) =>
    match sob_types_find SOB_TYPES sobty with
    | none => ⟨.error PyExc.ValueError "invalid orderbook type", []⟩
    | some (_, proxy) =>
      match tr.ticks_in_range proxy lower upper with
      | .returned ticks => ⟨.ok ticks, [.ticks_in_range proxy lower upper]⟩
      | .thrown e => ⟨.error (convert e).1 (convert e).2, [.ticks_in_range proxy lower upper]⟩

/-- The module function `TickMemoryRequired`, arguments `(sobty, lower, upper)`. -/
def TickMemoryRequired (tr : TickRoutines) (convert : ExceptionConverter)
    (parsed : PyResult (Int × Double × Double)) : Outcome TickCall Nat :=
  match parsed with
  | .error exc msg => ⟨.error exc msg, []⟩
  | .ok (sobty, lower, upper) =>
    match sob_types_find SOB_TYPES sobty with
    | none => ⟨.error PyExc.ValueError "invalid orderbook type", []⟩
    | some (_, proxy) =>
      match tr.tick_memory_required proxy lower upper with
      | .returned mem => ⟨.ok mem, [.tick_memory_required proxy lower upper]⟩
      | .thrown e =>
        ⟨.error (convert e).1 (convert e).2, [.tick_memory_required proxy lower upper]⟩

/-- `DepthHelper<>::build_pair(double, size_t)`: key and value of one level. -/
def DepthHelper.build_pair_size {P : Type} (d : P) (sz : Nat) : P × DepthValue :=
  (d, .size sz)

/-- `DepthHelper<>::build_pair(double, std::pair<size_t, side_of_market>)`. -/
def DepthHelper.build_pair_side {P : Type} (d : P) (p : Nat × side_of_market) :
    P × DepthValue :=
  (d, .size_side p.1 p.2)

/-- `DepthHelper<>::to_dict(md)`: starting from an empty dictionary, one
`PyDict_SetItem` per level of `md`, in iteration order.  `build_pair` is the
overload chosen for the value type `T`. -/
def DepthHelper.to_dict {P T : Type} [DecidableEq P] (build_pair : P → T → P × DepthValue)
    (md : List (P × T)) : List (P × DepthValue) :=
  md.foldl (fun dict level =>
    PyDict_SetItem dict (build_pair level.1 level.2).1 (build_pair level.1 level.2).2) []

/-- `DepthHelper<Side>::get(ob, depth)` followed by `DepthHelper<>::to_dict`:
the call made and the dictionary built, or the exception thrown. -/
def DepthHelper.get_to_dict {P : Type} [DecidableEq P] (Side : side_of_market)
    (ob : DepthInterface P) (depth : Nat) : DepthCall × NativeResult (List (P × DepthValue)) :=
  match Side with
  | .bid =>
    (.bid_depth depth,
      match ob.bid_depth depth with
      | .returned md => .returned (DepthHelper.to_dict DepthHelper.build_pair_size md)
      | .thrown e => .thrown e)
  | .ask =>
    (.ask_depth depth,
      match ob.ask_depth depth with
      | .returned md => .returned (DepthHelper.to_dict DepthHelper.build_pair_size md)
      | .thrown e => .thrown e)
  | .both =>
    (.market_depth depth,
      match ob.market_depth depth with
      | .returned md => .returned (DepthHelper.to_dict DepthHelper.build_pair_side md)
      | .thrown e => .thrown e)

/-- `SOB_market_depth<Side>(self, args, kwds)`; `parsed` is the outcome of
`MethodArgs::parse(args, kwds, "l", kwlist, &depth)`. -/
def SOB_market_depth {P : Type} [DecidableEq P] (Side : side_of_market)
    (ob : DepthInterface P) (convert : ExceptionConverter) (parsed : PyResult Int) :
    Outcome DepthCall (List (P × DepthValue)) :=
  match parsed with
  | .error exc msg => ⟨.error exc msg, []⟩
  | .ok depth =>
    if depth ≤ 0 then ⟨.error PyExc.ValueError "depth must be > 0", []⟩
    else
      match DepthHelper.get_to_dict Side ob (to_size_t depth) with
      | (call, .returned dict) => ⟨.ok dict, [call]⟩
      | (call, .thrown e) => ⟨.error (convert e).1 (convert e).2, [call]⟩

end New

namespace Old

/-- The depth queries of `sob::FullInterface` as the 2015 binding uses them:
all three results are assigned to a `std::map<double, size_t>`, given here as
the list of its `(price, size)` pairs in iteration order (ascending price). -/
structure DepthInterface (P : Type) where
  bid_depth : Nat → NativeResult (List (P × Nat))
  ask_depth : Nat → NativeResult (List (P × Nat))
  market_depth : Nat → NativeResult (List (P × Nat))

/-- The exception `sob::invalid_state(what)`.  `type_name` stands for
`typeid(e).name()`, whose exact spelling is left to the compiler. -/
def invalid_state (what : String) : NativeException :=
  ⟨"sob::invalid_state", what⟩

/-- The range-`for` loop of `SOB_market_depth` over `md`: each round does
`PyList_SET_ITEM(list, --indx, tup)`.  The state is the list (a slot is `none`
until it is written) and `indx`. -/
def market_depth_loop {P : Type} (md : List (P × Nat))
    (start : List (Option (P × Nat)) × Nat) : List (Option (P × Nat)) × Nat :=
  md.foldl (fun st elem => (st.1.set (st.2 - 1) (some elem), st.2 - 1)) start

/-- The first `switch(Side)` of `SOB_market_depth`: which query is made. -/
def market_depth_query {P : Type} (Side : side_of_market) (sob : DepthInterface P)
    (depth : Nat) : DepthCall × NativeResult (List (P × Nat)) :=
  match Side with
  | .bid => (.bid_depth depth, sob.bid_depth depth)
  | .ask => (.ask_depth depth, sob.ask_depth depth)
  | .both => (.market_depth depth, sob.market_depth depth)

/-- The second `switch(Side)` of `SOB_market_depth`: `size_error`. -/
def market_depth_size_error (Side : side_of_market) (indx : Nat) (depth : Int) : Bool :=
  match Side with
  | .bid => decide (indx > to_size_t depth)
  | .ask => decide (indx > to_size_t depth)
  | .both => decide (indx > (to_size_t depth * 2) % 2 ^ 64)

/-- `SOB_market_depth<Side>(self, args, kwds)`.  The list handed back is given
by its slots. -/
def SOB_market_depth {P : Type} (Side : side_of_market) (sob : DepthInterface P)
    (parsed : Option Int) : Outcome DepthCall (List (Option (P × Nat))) :=
  match MethodArgs.extract parsed with
  | .error exc msg => ⟨.error exc msg, []⟩
  | .ok depth =>
    if depth ≤ 0 then ⟨.error PyExc.ValueError "depth must be > 0", []⟩
    else
      match market_depth_query Side sob (to_size_t depth) with
      | (call, .thrown e) => ⟨THROW_PY_EXCEPTION_FROM_NATIVE e, [call]⟩
      | (call, .returned md) =>
        if market_depth_size_error Side md.length depth then
          ⟨THROW_PY_EXCEPTION_FROM_NATIVE (invalid_state "market_depth size too large"), [call]⟩
        else
          ⟨.ok (market_depth_loop md (List.replicate md.length none, md.length)).1, [call]⟩

end Old

/-- A 2015 book stub: two bid levels, two ask levels, and a combined query
that hands back all four levels whatever depth is asked for. -/
def sample_old_depth_book : Old.DepthInterface Nat :=
  { bid_depth := fun n => .returned ([(98, 5), (99, 7)].drop (2 - n))
    ask_depth := fun n => .returned ([(101, 4), (102, 6)].take n)
    market_depth := fun _ => .returned [(98, 5), (99, 7), (101, 4), (102, 6)] }

/-- The enumeration `sob::callback_msg`. -/
inductive callback_msg
  | cancel
  | fill
  | stop_to_limit
  deriving DecidableEq, Repr

/-- A C value passed through the variadic part of `Py_BuildValue`. -/
inductive CValue (P : Type)
  | ulong (n : Nat)
  | double (x : P)
  deriving DecidableEq, Repr

/-- A Python number as the callbacks receive it. -/
inductive PyValue (P : Type)
  | long (n : Nat)
  | float (x : P)
  deriving DecidableEq, Repr

/-- CPython's `Py_BuildValue` for a format made of the units `k` (unsigned
long to `int`) and `d` (double to `float`): the items of the tuple it builds, or
`none` when the format and the arguments do not fit. -/
def Py_BuildValue {P : Type} : List Char → List (CValue P) → Option (List (PyValue P))
  | [], [] => some []
  | c :: frmt, .ulong n :: rest =>
    if c = 'k' then (Py_BuildValue frmt rest).map (fun t => PyValue.long n :: t) else none
  | c :: frmt, .double x :: rest =>
    if c = 'd' then (Py_BuildValue frmt rest).map (fun t => PyValue.float x :: t) else none
  | _, _ => none

/-- One call of a Python callable: the object called and its positional
arguments. -/
structure PyCall (P : Type) where
  callee : PyObject
  args : List (PyValue P)
  deriving DecidableEq, Repr

/-- How a call of a Python callable ends. -/
inductive CallOutcome
  | returned
  | raised (exc : PyExc) (msg : String)
  deriving DecidableEq, Repr

/-- The part of the interpreter a callback wrapper can touch: the pending error
(`PyErr_Occurred`), the errors that were reported (printed or logged), and the
calls of Python callables made so far. -/
structure Interp (P : Type) where
  pending : Option (PyExc × String)
  reported : List (PyExc × String)
  calls : List (PyCall P)
  deriving DecidableEq, Repr

/-- CPython's `PyObject_CallObject(callable, args)`: the call is made; when the
callable raises, the exception becomes the pending error.  `run` says how each
call ends. -/
def PyObject_CallObject {P : Type} (run : PyCall P → CallOutcome) (callable : PyObject)
    (args : List (PyValue P)) (st : Interp P) : Interp P :=
  match run ⟨callable, args⟩ with
  | .returned => { st with calls := st.calls ++ [⟨callable, args⟩] }
  | .raised exc msg =>
    { st with calls := st.calls ++ [⟨callable, args⟩], pending := some (exc, msg) }

namespace Old

/-- `ExecCallbackWrap::operator()(msg, id, price, size)`: build the argument
tuple with `Py_BuildValue("kkdk", (int)msg, id, price, size)`, call the wrapped
object, drop the tuple.  The value of the call is not looked at.  `code` gives
the enumerator values of `sob::callback_msg` (declared in `common.hpp`).  The
result says how the operator ends for the engine and what it did to the
interpreter. -/
def ExecCallbackWrap.call {P : Type} (code : callback_msg → Nat)
    (run : PyCall P → CallOutcome) (cb : PyObject) (msg : callback_msg) (id : Nat)
    (price : P) (size : Nat) (st : Interp P) : NativeResult Unit × Interp P :=
  let args := Py_BuildValue ['k', 'k', 'd', 'k']
    [CValue.ulong (code msg), CValue.ulong id, CValue.double price, CValue.ulong size]
  (.returned (), PyObject_CallObject run cb (args.getD []) st)

end Old

/-- Enumerator values for `sob::callback_msg`, in declaration order. -/
def sample_code : callback_msg → Nat
  | .cancel => 0
  | .fill => 1
  | .stop_to_limit => 2

/-- A user callback that always raises `ValueError("boom")`. -/
def sample_raising : PyCall Nat → CallOutcome := fun _ => .raised PyExc.ValueError "boom"

/-- An interpreter with no pending error and nothing reported or called. -/
def sample_interp : Interp Nat := ⟨none, [], []⟩

/-- The function a method-table entry is bound to.  `state` and `dump` are the
functions generated by the `CALLDOWN_...` macros, named by the book call they
make; the template functions carry their template arguments. -/
inductive Handler
  | state (sobcall : String)
  | dump (sobcall : String)
  | SOB_market_depth (Side : side_of_market)
  | SOB_trade_limit (buy replace : Bool)
  | SOB_trade_market (buy replace : Bool)
  | SOB_trade_stop (buy replace : Bool)
  | SOB_trade_stop_limit (buy replace : Bool)
  | SOB_pull_order
  | SOB_time_and_sales
  | SOB_grow_book (Above : Bool)
  | SOB_is_valid_price
  | SOB_price_to_tick
  | SOB_ticks_in_range
  | SOB_tick_memory_required
  deriving DecidableEq, Repr

/-- A `PyMethodDef` entry: the Python name and the C function. -/
structure PyMethodDef where
  ml_name : String
  ml_meth : Handler
  deriving DecidableEq, Repr

/-- The handler `SOB_trade_<kind><buy, replace>`. -/
def Handler.trade (kind : order_type) (buy replace : Bool) : Handler :=
  match kind with
  | .limit => .SOB_trade_limit buy replace
  | .market => .SOB_trade_market buy replace
  | .stop => .SOB_trade_stop buy replace
  | .stop_limit => .SOB_trade_stop_limit buy replace

/-- Whether a handler is one of the `SOB_trade_<kind>` instantiations. -/
def Handler.is_trade : Handler → Bool
  | .SOB_trade_limit _ _ => true
  | .SOB_trade_market _ _ => true
  | .SOB_trade_stop _ _ => true
  | .SOB_trade_stop_limit _ _ => true
  | _ => false

/-- The method name `[replace_with_]<side>_<kind>`. -/
def trade_method_name (kind : order_type) (buy replace : Bool) : String :=
  (if replace then "replace_with_" else "") ++ (if buy then "buy" else "sell") ++ "_" ++
    (match kind with
     | .limit => "limit"
     | .market => "market"
     | .stop => "stop"
     | .stop_limit => "stop_limit")

namespace Old

/-- The method table `pySOB_methods` (names and functions, in source order). -/
def pySOB_methods : List PyMethodDef :=
  [ ⟨"min_price", .state "min_price"⟩,
    ⟨"max_price", .state "max_price"⟩,
    ⟨"incr_size", .state "incr_size"⟩,
    ⟨"bid_price", .state "bid_price"⟩,
    ⟨"ask_price", .state "ask_price"⟩,
    ⟨"last_price", .state "last_price"⟩,
    ⟨"bid_size", .state "bid_size"⟩,
    ⟨"ask_size", .state "ask_size"⟩,
    ⟨"total_bid_size", .state "total_bid_size"⟩,
    ⟨"total_ask_size", .state "total_ask_size"⟩,
    ⟨"total_size", .state "total_size"⟩,
    ⟨"last_size", .state "last_size"⟩,
    ⟨"volume", .state "volume"⟩,
    ⟨"bid_depth", .SOB_market_depth .bid⟩,
    ⟨"ask_depth", .SOB_market_depth .ask⟩,
    ⟨"market_depth", .SOB_market_depth .both⟩,
    ⟨"dump_buy_limits", .dump "dump_buy_limits"⟩,
    ⟨"dump_sell_limits", .dump "dump_sell_limits"⟩,
    ⟨"dump_buy_stops", .dump "dump_buy_stops"⟩,
    ⟨"dump_sell_stops", .dump "dump_sell_stops"⟩,
    ⟨"buy_limit", .SOB_trade_limit true false⟩,
    ⟨"sell_limit", .SOB_trade_limit false false⟩,
    ⟨"buy_market", .SOB_trade_market true false⟩,
    ⟨"sell_market", .SOB_trade_market false false⟩,
    ⟨"buy_stop", .SOB_trade_stop true false⟩,
    ⟨"sell_stop", .SOB_trade_stop false false⟩,
    ⟨"buy_stop_limit", .SOB_trade_stop_limit true false⟩,
    ⟨"sell_stop_limit", .SOB_trade_stop_limit false false⟩,
    ⟨"pull_order", .SOB_pull_order⟩,
    ⟨"replace_with_buy_limit", .SOB_trade_limit true true⟩,
    ⟨"replace_with_sell_limit", .SOB_trade_limit false true⟩,
    ⟨"replace_with_buy_market", .SOB_trade_market true true⟩,
    ⟨"replace_with_sell_market", .SOB_trade_market false true⟩,
    ⟨"replace_with_buy_stop", .SOB_trade_stop true true⟩,
    ⟨"replace_with_sell_stop", .SOB_trade_stop false true⟩,
    ⟨"replace_with_buy_stop_limit", .SOB_trade_stop_limit true true⟩,
    ⟨"replace_with_sell_stop_limit", .SOB_trade_stop_limit false true⟩,
    ⟨"time_and_sales", .SOB_time_and_sales⟩ ]

end Old

namespace New

/-- The method table `pySOB_methods` (names and functions, in source order). -/
def pySOB_methods : List PyMethodDef :=
  [ ⟨"min_price", .state "min_price"⟩,
    ⟨"max_price", .state "max_price"⟩,
    ⟨"tick_size", .state "tick_size"⟩,
    ⟨"bid_price", .state "bid_price"⟩,
    ⟨"ask_price", .state "ask_price"⟩,
    ⟨"last_price", .state "last_price"⟩,
    ⟨"bid_size", .state "bid_size"⟩,
    ⟨"ask_size", .state "ask_size"⟩,
    ⟨"total_bid_size", .state "total_bid_size"⟩,
    ⟨"total_ask_size", .state "total_ask_size"⟩,
    ⟨"total_size", .state "total_size"⟩,
    ⟨"last_size", .state "last_size"⟩,
    ⟨"volume", .state "volume"⟩,
    ⟨"dump_buy_limits", .dump "dump_buy_limits"⟩,
    ⟨"dump_sell_limits", .dump "dump_sell_limits"⟩,
    ⟨"dump_buy_stops", .dump "dump_buy_stops"⟩,
    ⟨"dump_sell_stops", .dump "dump_sell_stops"⟩,
    ⟨"grow_book_above", .SOB_grow_book true⟩,
    ⟨"grow_book_below", .SOB_grow_book false⟩,
    ⟨"is_valid_price", .SOB_is_valid_price⟩,
    ⟨"price_to_tick", .SOB_price_to_tick⟩,
    ⟨"ticks_in_range", .SOB_ticks_in_range⟩,
    ⟨"tick_memory_required", .SOB_tick_memory_required⟩,
    ⟨"bid_depth", .SOB_market_depth .bid⟩,
    ⟨"ask_depth", .SOB_market_depth .ask⟩,
    ⟨"market_depth", .SOB_market_depth .both⟩,
    ⟨"buy_market", .SOB_trade_market true false⟩,
    ⟨"sell_market", .SOB_trade_market false false⟩,
    ⟨"buy_limit", .SOB_trade_limit true false⟩,
    ⟨"sell_limit", .SOB_trade_limit false false⟩,
    ⟨"buy_stop", .SOB_trade_stop true false⟩,
    ⟨"sell_stop", .SOB_trade_stop false false⟩,
    ⟨"buy_stop_limit", .SOB_trade_stop_limit true false⟩,
    ⟨"sell_stop_limit", .SOB_trade_stop_limit false false⟩,
    ⟨"pull_order", .SOB_pull_order⟩,
    ⟨"replace_with_buy_market", .SOB_trade_market true true⟩,
    ⟨"replace_with_sell_market", .SOB_trade_market false true⟩,
    ⟨"replace_with_buy_limit", .SOB_trade_limit true true⟩,
    ⟨"replace_with_sell_limit", .SOB_trade_limit false true⟩,
    ⟨"replace_with_buy_stop", .SOB_trade_stop true true⟩,
    ⟨"replace_with_sell_stop", .SOB_trade_stop false true⟩,
    ⟨"replace_with_buy_stop_limit", .SOB_trade_stop_limit true true⟩,
    ⟨"replace_with_sell_stop_limit", .SOB_trade_stop_limit false true⟩,
    ⟨"time_and_sales", .SOB_time_and_sales⟩ ]

end New

namespace Old

/-- The table `OrderMethodArgs<Replace>::keywords`: a `std::array<char*, 6>`
per order kind, the unused slots being null (`none`). -/
def OrderMethodArgs.keywords (ot : order_type) : List (Option String) :=
  match ot with
  | .limit => [some "id", some "limit", some "size", some "callback", none, none]
  | .market => [some "id", some "size", some "callback", none, none, none]
  | .stop => [some "id", some "stop", some "size", some "callback", none, none]
  | .stop_limit => [some "id", some "stop", some "limit", some "size", some "callback", none]

/-- The table `OrderMethodArgs<Replace>::format_strs`. -/
def OrderMethodArgs.format_strs (ot : order_type) : String :=
  match ot with
  | .limit => "kdlO:callback"
  | .market => "klO:callback"
  | .stop => "kdlO:callback"
  | .stop_limit => "kddlO:callback"

/-- The format `frmt` that `extract` hands to `PyArg_ParseTupleAndKeywords`:
the table entry in the replace form, the entry advanced by one character in the
insert form. -/
def OrderMethodArgs.extract_frmt (Replace : Bool) (ot : order_type) : List Char :=
  if Replace then (OrderMethodArgs.format_strs ot).toList
  else (OrderMethodArgs.format_strs ot).toList.drop 1

/-- The keyword list `kptr` that `extract` hands to the parser: the table entry
in the replace form, the entry advanced by one slot in the insert form. -/
def OrderMethodArgs.extract_kptr (Replace : Bool) (ot : order_type) : List (Option String) :=
  if Replace then OrderMethodArgs.keywords ot else (OrderMethodArgs.keywords ot).drop 1

/-- The out-parameters that `extract` hands to the parser after `kptr`, in
order: `id_arg, targs...` in the replace form and `targs...` in the insert form,
where `SOB_trade_<kind>` passes `&id`, the price pointers of its kind, `&size`
and `&py_cb`. -/
def OrderMethodArgs.extract_ptrs {P : Type} (Replace : Bool) (ot : order_type)
    (v : OrderValues P) : List (CArg P) :=
  (if Replace then [CArg.ulong_ptr v.id] else []) ++ targs_lead ot v ++
    [CArg.long_ptr v.size, CArg.object_ptr v.cb]

/-- `SOB_pull_order(self, args, kwds)`.  `parsed` holds the id when the parser
accepted the arguments; `return false` hands back a null pointer.  `P` is only
the price type of the call trace. -/
def SOB_pull_order (P : Type) (pull_order : Nat → NativeResult Bool) (parsed : Option Nat) :
    Outcome (BookCall P) Bool :=
  match MethodArgs.extract parsed with
  | .error exc msg => ⟨.error exc msg, []⟩
  | .ok id =>
    match pull_order id with
    | .returned rval => ⟨.ok rval, [.pull_order id]⟩
    | .thrown e => ⟨THROW_PY_EXCEPTION_FROM_NATIVE e, [.pull_order id]⟩

end Old

/-- The range queries of `sob::FullInterface` used by the tick methods of a
book object. -/
structure RangeInterface where
  min_price : NativeResult Double
  max_price : NativeResult Double
  ticks_in_range : Double → Double → NativeResult Int
  tick_memory_required : Double → Double → NativeResult Nat

/-- A call on the book made by the tick methods of a book object. -/
inductive RangeCall
  | min_price
  | max_price
  | ticks_in_range (lower upper : Double)
  | tick_memory_required (lower upper : Double)
  deriving DecidableEq

namespace New

/-- The locals of a 2017 order handler after `OrderMethodArgs::parse`; `cb` is
`none` while the pointer is null. -/
structure OrderArgs (P : Type) where
  id : Nat
  stop : P
  limit : P
  size : Int
  cb : Option PyObject
  deriving DecidableEq, Repr

/-- `SOB_trade_stop_limit<BuyOrder, ReplaceOrder>`.  `parsed` is the outcome of
`OrderMethodArgs<ReplaceOrder>::parse(args, kwds, order_type::stop_limit, &id,
&stop, &limit, &size, &cb)` and `wrap_cb` the function of that name; both are
declared in headers that are not among the sources. -/
def SOB_trade_stop_limit {P : Type} (BuyOrder ReplaceOrder : Bool) (ob : OrderInterface P)
    (convert : ExceptionConverter) (wrap_cb : Option PyObject → PyObject)
    (parsed : PyResult (OrderArgs P)) : Outcome (BookCall P) Nat :=
  match parsed with
  | .error exc msg => ⟨.error exc msg, []⟩
  | .ok v =>
    let call : BookCall P :=
      if ReplaceOrder then
        .replace_with_stop_limit_order v.id BuyOrder v.stop v.limit (to_size_t v.size)
          (wrap_cb v.cb)
      else .insert_stop_limit_order BuyOrder v.stop v.limit (to_size_t v.size) (wrap_cb v.cb)
    match ob call with
    | .returned id => ⟨.ok id, [call]⟩
    | .thrown e => ⟨.error (convert e).1 (convert e).2, [call]⟩

/-- The `try` block shared by `SOB_ticks_in_range` and
`SOB_tick_memory_required`: replace a negative `lower` by `ob->min_price()` and a
negative `upper` by `ob->max_price()`.  It yields the bounds to forward, or the
exception thrown, together with the calls made. -/
def range_bounds (ob : RangeInterface) (lower upper : Double) :
    NativeResult (Double × Double) × List RangeCall :=
  if Double.lt lower (.fin 0) then
    match ob.min_price with
    | .thrown e => (.thrown e, [.min_price])
    | .returned lo =>
      if Double.lt upper (.fin 0) then
        match ob.max_price with
        | .thrown e => (.thrown e, [.min_price, .max_price])
        | .returned hi => (.returned (lo, hi), [.min_price, .max_price])
      else (.returned (lo, upper), [.min_price])
  else
    if Double.lt upper (.fin 0) then
      match ob.max_price with
      | .thrown e => (.thrown e, [.max_price])
      | .returned hi => (.returned (lower, hi), [.max_price])
    else (.returned (lower, upper), [])

/-- `SOB_ticks_in_range(self, args, kwds)`.  `parsed` is the outcome of
`MethodArgs::parse(args, kwds, "|dd", kwlist, &lower, &upper)`; an argument the
caller did not give is `none` and leaves the initial value `-1.0`. -/
def SOB_ticks_in_range (ob : RangeInterface) (convert : ExceptionConverter)
    (parsed : PyResult (Option Double × Option Double)) : Outcome RangeCall Int :=
  match parsed with
  | .error exc msg => ⟨.error exc msg, []⟩
  | .ok (lower, upper) =>
    match range_bounds ob (lower.getD (.fin (-1))) (upper.getD (.fin (-1))) with
    | (.thrown e, calls) => ⟨.error (convert e).1 (convert e).2, calls⟩
    | (.returned (lo, hi), calls) =>
      match ob.ticks_in_range lo hi with
      | .returned ticks => ⟨.ok ticks, calls ++ [.ticks_in_range lo hi]⟩
      | .thrown e => ⟨.error (convert e).1 (convert e).2, calls ++ [.ticks_in_range lo hi]⟩

/-- `SOB_tick_memory_required(self, args, kwds)`, with the same arguments. -/
def SOB_tick_memory_required (ob : RangeInterface) (convert : ExceptionConverter)
    (parsed : PyResult (Option Double × Option Double)) : Outcome RangeCall Nat :=
  match parsed with
  | .error exc msg => ⟨.error exc msg, []⟩
  | .ok (lower, upper) =>
    match range_bounds ob (lower.getD (.fin (-1))) (upper.getD (.fin (-1))) with
    | (.thrown e, calls) => ⟨.error (convert e).1 (convert e).2, calls⟩
    | (.returned (lo, hi), calls) =>
      match ob.tick_memory_required lo hi with
      | .returned mem => ⟨.ok mem, calls ++ [.tick_memory_required lo hi]⟩
      | .thrown e =>
        ⟨.error (convert e).1 (convert e).2, calls ++ [.tick_memory_required lo hi]⟩

/-- `SOB_pull_order(self, args, kwds)`.  `parsed` is the outcome of
`MethodArgs::parse(args, kwds, "k", kwlist, &id)`; `P` is only the price type of
the call trace. -/
def SOB_pull_order (P : Type) (pull_order : Nat → NativeResult Bool)
    (convert : ExceptionConverter) (parsed : PyResult Nat) : Outcome (BookCall P) Bool :=
  match parsed with
  | .error exc msg => ⟨.error exc msg, []⟩
  | .ok id =>
    match pull_order id with
    | .returned rval => ⟨.ok rval, [.pull_order id]⟩
    | .thrown e => ⟨.error (convert e).1 (convert e).2, [.pull_order id]⟩

end New

/-- A book stub with prices from 1 to 100 whose range queries count whole
units between finite bounds. -/
def sample_range_book : RangeInterface :=
  { min_price := .returned (.fin 1)
    max_price := .returned (.fin 100)
    ticks_in_range := fun lower upper =>
      match lower, upper with
      | .fin a, .fin b => .returned (b.num - a.num)
      | _, _ => .thrown ⟨"std::invalid_argument", "bad range"⟩
    tick_memory_required := fun lower upper =>
      match lower, upper with
      | .fin a, .fin b => .returned (b.num - a.num).toNat
      | _, _ => .thrown ⟨"std::invalid_argument", "bad range"⟩ }

/-- A 2017 `wrap_cb` stand-in: a null callback becomes a fixed no-op object. -/
def sample_wrap_cb : Option PyObject → PyObject := fun cb => cb.getD ⟨0, true⟩

/-! ## The matching engine, from the specification

The engine itself (`simpleorderbook.hpp` and its implementation) is not among the
sources.  The definitions of this section follow sections 3 to 4.6 of the
specification.  Prices are tick indices, callbacks are left out (a notification
names the order it is for), and time stamps are left out of the journal. -/

namespace Engine

/-- Modelled from the spec: the engine is not among the sources.  A resting
LIMIT order (section 3, "Order"): identifier, side, tick, remaining size. -/
structure LimitOrder where
  id : Nat
  buy : Bool
  tick : Nat
  size : Nat
  deriving DecidableEq, Repr

/-- Modelled from the spec: the engine is not among the sources.  A resting
STOP or STOP_LIMIT order (section 3): identifier, side, trigger tick, the limit
price of a STOP_LIMIT (`none` for a plain STOP), size. -/
structure StopOrder where
  id : Nat
  buy : Bool
  stop : Nat
  limit : Option Nat
  size : Nat
  deriving DecidableEq, Repr

/-- Modelled from the spec: the engine is not among the sources.  One entry of
the callback queue (section 4.6): message kind, id, price, size. -/
structure Notification where
  msg : callback_msg
  id : Nat
  price : Nat
  size : Nat
  deriving DecidableEq, Repr

/-- Modelled from the spec: the engine is not among the sources.  The book state
of section 3.  `limits` holds the resting limit orders and `stops` the resting
stops, each in order of arrival, so that the chain of a tick is the sub-list of
the orders at that tick; `next_id` is the identifier counter of section 4.4;
`journal` is the time-and-sales journal as (tick, size) rows; `log` lists the
notifications delivered so far, oldest first. -/
structure Book where
  ticks : Nat
  limits : List LimitOrder
  stops : List StopOrder
  next_id : Nat
  last : Option (Nat × Nat)
  volume : Nat
  journal : List (Nat × Nat)
  log : List Notification
  deriving DecidableEq, Repr

/-- Modelled from the spec: the engine is not among the sources.  A fresh book
with `ticks` valid ticks; identifiers start at 1 (section 4.4). -/
def fresh (ticks : Nat) : Book :=
  ⟨ticks, [], [], 1, none, 0, [], []⟩

/-- Modelled from the spec: the engine is not among the sources.  The first
element among those with the least key: the head of the best chain under strict
FIFO within a tick (section 4.5, "Order-within-tick priority"). -/
def first_min {α : Type} (key : α → Int) : List α → Option α
  | [] => none
  | a :: rest =>
    match first_min key rest with
    | none => some a
    | some b => if key b < key a then some b else some a

/-- Modelled from the spec: the engine is not among the sources.  The head of
the limit chain at the inside ask: the earliest SELL at the lowest tick. -/
def best_ask (limits : List LimitOrder) : Option LimitOrder :=
  first_min (fun o => (o.tick : Int)) (limits.filter (fun o => !o.buy))

/-- Modelled from the spec: the engine is not among the sources.  The head of
the limit chain at the inside bid: the earliest BUY at the highest tick. -/
def best_bid (limits : List LimitOrder) : Option LimitOrder :=
  first_min (fun o => -(o.tick : Int)) (limits.filter (fun o => o.buy))

/-- Modelled from the spec: the engine is not among the sources.  The inside-bid
tick of section 3, `none` when there is no bid. -/
def inside_bid (b : Book) : Option Nat := (best_bid b.limits).map (fun o => o.tick)

/-- Modelled from the spec: the engine is not among the sources.  The inside-ask
tick of section 3, `none` when there is no ask. -/
def inside_ask (b : Book) : Option Nat := (best_ask b.limits).map (fun o => o.tick)

/-- Modelled from the spec: the engine is not among the sources.  An incoming
order while it is matched: a LIMIT with its tick, or a MARKET (`limit = none`),
with its residual size. -/
structure Incoming where
  id : Nat
  buy : Bool
  limit : Option Nat
  size : Nat
  deriving DecidableEq, Repr

/-- Modelled from the spec: the engine is not among the sources.  The head an
incoming order is matched against: the head of the opposite inside chain. -/
def best_opposite (o : Incoming) (limits : List LimitOrder) : Option LimitOrder :=
  if o.buy then best_ask limits else best_bid limits

/-- Modelled from the spec: the engine is not among the sources.  The loop
condition of section 4.5 on the price: the order is MARKET, or its limit reaches
the opposite inside tick. -/
def crosses (o : Incoming) (h : LimitOrder) : Bool :=
  match o.limit with
  | none => true
  | some p => if o.buy then decide (h.tick ≤ p) else decide (p ≤ h.tick)

/-- Modelled from the spec: the engine is not among the sources.  Steps 3 and 6
of the matching loop on the resting side: the head `h` loses `fill`, and leaves
the chain when nothing remains. -/
def fill_resting (h : LimitOrder) (fill : Nat) : List LimitOrder → List LimitOrder
  | [] => []
  | o :: rest =>
    if o = h then
      (if h.size ≤ fill then rest else { h with size := h.size - fill } :: rest)
    else o :: fill_resting h fill rest

/-- Modelled from the spec: the engine is not among the sources.  The stop
trigger sweep after a fill at tick `t` (section 4.5): BUY stops with trigger
tick at most `t`, then SELL stops with trigger tick at least `t`; within a side
by tick, and first-in first-out within a tick.  This is the next stop to
promote, if any. -/
def first_triggered (t : Nat) (stops : List StopOrder) : Option StopOrder :=
  match first_min (fun s => (s.stop : Int))
      (stops.filter (fun s => s.buy && decide (s.stop ≤ t))) with
  | some s => some s
  | none =>
    first_min (fun s => (s.stop : Int)) (stops.filter (fun s => !s.buy && decide (t ≤ s.stop)))

/-- Modelled from the spec: the engine is not among the sources.  Work that is
still to be done inside one top-level operation: go on matching an incoming
order, or go on with the stop sweep for a fill at a tick.  The work on top is
done first, so that a promoted stop is matched before the order whose fill
triggered it is matched further (section 4.5, "Reentrancy & ordering"). -/
inductive Work
  | matching (o : Incoming)
  | sweep (tick : Nat)
  deriving DecidableEq, Repr

/-- Modelled from the spec: the engine is not among the sources.  The engine in
the middle of a top-level operation: the book and the pending work. -/
structure Machine where
  book : Book
  stack : List Work
  deriving DecidableEq, Repr

/-- Modelled from the spec: the engine is not among the sources.  Steps 2 to 5
of the matching loop for the incoming order `o` and the head `h`: both sides
lose `fill`, MSG_FILL is queued for both, the trade is appended to the journal,
and last price, last size and volume are updated. -/
def Book.trade (b : Book) (o : Incoming) (h : LimitOrder) : Book :=
  { b with
    limits := fill_resting h (min o.size h.size) b.limits
    last := some (h.tick, min o.size h.size)
    volume := b.volume + min o.size h.size
    journal := b.journal ++ [(h.tick, min o.size h.size)]
    log := b.log ++ [⟨.fill, h.id, h.tick, min o.size h.size⟩,
      ⟨.fill, o.id, h.tick, min o.size h.size⟩] }

/-- Modelled from the spec: the engine is not among the sources.  The end of the
matching loop for an order with a residual: a LIMIT goes to the tail of the
chain at its tick, a MARKET is cancelled for the residual (section 4.5). -/
def Book.settle (b : Book) (o : Incoming) : Book :=
  match o.limit with
  | some p => { b with limits := b.limits ++ [⟨o.id, o.buy, p, o.size⟩] }
  | none => { b with log := b.log ++ [⟨.cancel, o.id, 0, o.size⟩] }

/-- Modelled from the spec: the engine is not among the sources.  Promotion of
the triggered stop `s`: it leaves its chain and the registry, and MSG_STOP_TO_LIMIT
is queued for a STOP_LIMIT before the reinsertion (section 4.5). -/
def Book.promote (b : Book) (s : StopOrder) : Book :=
  { b with
    stops := b.stops.erase s
    log := match s.limit with
      | some p => b.log ++ [⟨.stop_to_limit, s.id, p, s.size⟩]
      | none => b.log }

/-- Modelled from the spec: the engine is not among the sources.  One step of
the engine; `none` when no work is left.  On top `matching o`: one round of the
matching loop of section 4.5, followed by the stop sweep for that fill, or the
end of the loop.  On top `sweep t`: promote the next triggered stop and match
it, or end the sweep. -/
def step (m : Machine) : Option Machine :=
  match m.stack with
  | [] => none
  | .matching o :: rest =>
    match (if o.size = 0 then none
        else (best_opposite o m.book.limits).filter (fun h => crosses o h)) with
    | some h =>
      some ⟨m.book.trade o h,
        .sweep h.tick :: .matching { o with size := o.size - min o.size h.size } :: rest⟩
    | none =>
      if o.size = 0 then some ⟨m.book, rest⟩ else some ⟨m.book.settle o, rest⟩
  | .sweep t :: rest =>
    match first_triggered t m.book.stops with
    | some s => some ⟨m.book.promote s, .matching ⟨s.id, s.buy, s.limit, s.size⟩ :: .sweep t :: rest⟩
    | none => some ⟨m.book, rest⟩

/-- Modelled from the spec: the engine is not among the sources.  A bound on the
number of steps a machine can still take: each pending match counts for twice
its residual plus four, each pending sweep for one, each resting limit for
three, each resting stop for twice its size plus six. -/
def Machine.measure (m : Machine) : Nat :=
  (m.stack.map (fun w => match w with
    | .matching o => 2 * o.size + 4
    | .sweep _ => 1)).sum
  + 3 * m.book.limits.length
  + (m.book.stops.map (fun s => 2 * s.size + 6)).sum

/-- Modelled from the spec: the engine is not among the sources.  At most `n`
steps of the engine. -/
def run_steps : Nat → Machine → Machine
  | 0, m => m
  | n + 1, m =>
    match step m with
    | none => m
    | some m' => run_steps n m'

/-- Modelled from the spec: the engine is not among the sources.  A top-level
operation runs the engine until no work is left ("all operations are
synchronous", section 4.1). -/
def run (m : Machine) : Machine := run_steps m.measure m

/-- Modelled from the spec: the engine is not among the sources.  The error
kinds of section 7 that the operations of this model can raise. -/
inductive Error
  | invalid_argument
  | not_found
  deriving DecidableEq, Repr

/-- Modelled from the spec: the engine is not among the sources.  What a
top-level operation hands back: a new identifier, the boolean of `pull_order`,
or an error. -/
inductive OpResult
  | id (n : Nat)
  | pulled (existed : Bool)
  | error (e : Error)
  deriving DecidableEq, Repr

/-- Modelled from the spec: the engine is not among the sources.  The order
descriptions accepted by the insert and replace operations of section 4.1. -/
inductive NewOrder
  | limit (buy : Bool) (tick size : Nat)
  | market (buy : Bool) (size : Nat)
  | stop (buy : Bool) (stop size : Nat)
  | stop_limit (buy : Bool) (stop limit size : Nat)
  deriving DecidableEq, Repr

/-- Modelled from the spec: the engine is not among the sources.  Validation
(section 4.1): the size is positive and every price is a tick of the book. -/
def NewOrder.valid (b : Book) : NewOrder → Bool
  | .limit _ t sz => decide (0 < sz) && decide (t < b.ticks)
  | .market _ sz => decide (0 < sz)
  | .stop _ t sz => decide (0 < sz) && decide (t < b.ticks)
  | .stop_limit _ t p sz => decide (0 < sz) && decide (t < b.ticks) && decide (p < b.ticks)

/-- Modelled from the spec: the engine is not among the sources.  Insertion of a
valid order under the next identifier: a LIMIT or MARKET is matched, a STOP or
STOP_LIMIT goes to the tail of its stop chain (section 4.1). -/
def Book.place (b : Book) : NewOrder → Book
  | .limit buy tick size =>
    (run ⟨{ b with next_id := b.next_id + 1 }, [.matching ⟨b.next_id, buy, some tick, size⟩]⟩).book
  | .market buy size =>
    (run ⟨{ b with next_id := b.next_id + 1 }, [.matching ⟨b.next_id, buy, none, size⟩]⟩).book
  | .stop buy stop size =>
    { b with next_id := b.next_id + 1, stops := b.stops ++ [⟨b.next_id, buy, stop, none, size⟩] }
  | .stop_limit buy stop limit size =>
    { b with
      next_id := b.next_id + 1
      stops := b.stops ++ [⟨b.next_id, buy, stop, some limit, size⟩] }

/-- Modelled from the spec: the engine is not among the sources.  The insert
operations of section 4.1: an invalid order fails and leaves the book as it
is; a valid one is placed and its identifier is handed back. -/
def insert (b : Book) (order : NewOrder) : OpResult × Book :=
  if order.valid b then (.id b.next_id, b.place order)
  else (.error .invalid_argument, b)

/-- Modelled from the spec: the engine is not among the sources.  Whether an
order with identifier `id` is in the book (in the registry of section 4.4). -/
def Book.has_order (b : Book) (id : Nat) : Bool :=
  b.limits.any (fun o => o.id = id) || b.stops.any (fun s => s.id = id)

/-- Modelled from the spec: the engine is not among the sources.  The book
without the order `id`, with MSG_CANCEL queued for it. -/
def Book.remove (b : Book) (id : Nat) : Book :=
  { b with
    limits := b.limits.filter (fun o => o.id ≠ id)
    stops := b.stops.filter (fun s => s.id ≠ id)
    log := b.log ++ [⟨.cancel, id, 0,
      ((b.limits.filter (fun o => o.id = id)).map (fun o => o.size)).sum
        + ((b.stops.filter (fun s => s.id = id)).map (fun s => s.size)).sum⟩] }

/-- Modelled from the spec: the engine is not among the sources.
`pull_order(id)` (section 4.1): cancels by identifier and tells whether the
order existed. -/
def pull_order (b : Book) (id : Nat) : OpResult × Book :=
  if b.has_order id then (.pulled true, b.remove id) else (.pulled false, b)

/-- Modelled from the spec: the engine is not among the sources.
`replace_with_<kind>(id, ...)` (sections 4.1 and 4.5): validation, then the
pull, then the insertion; a failed pull makes the replace fail without
inserting. -/
def replace (b : Book) (id : Nat) (order : NewOrder) : OpResult × Book :=
  if order.valid b then
    (if b.has_order id then insert (b.remove id) order else (.error .not_found, b))
  else (.error .invalid_argument, b)

/-- Modelled from the spec: the engine is not among the sources.  A top-level
mutation of the book. -/
inductive Op
  | insert (order : NewOrder)
  | pull (id : Nat)
  | replace (id : Nat) (order : NewOrder)
  deriving DecidableEq, Repr

/-- Modelled from the spec: the engine is not among the sources.  One top-level
operation on a book: its result and the book afterwards. -/
def apply (b : Book) : Op → OpResult × Book
  | .insert order => insert b order
  | .pull id => pull_order b id
  | .replace id order => replace b id order

/-- Modelled from the spec: the engine is not among the sources.  The book after
a sequence of top-level operations. -/
def run_ops (b : Book) (ops : List Op) : Book :=
  ops.foldl (fun book op => (apply book op).2) b

end Engine

namespace Engine

/-- Modelled from the spec: the engine is not among the sources.  The first
invariant of section 3 on the resting limit orders: every resting BUY is at a
lower tick than every resting SELL. -/
def uncrossed (limits : List LimitOrder) : Prop :=
  ∀ x ∈ limits, ∀ y ∈ limits, x.buy = true → y.buy = false → x.tick < y.tick

end Engine

namespace Engine

/-- Modelled from the spec: the engine is not among the sources.  The total
size of the MSG_FILL notifications for order `id` in a log: how much of the
order has been filled. -/
def filled (id : Nat) (log : List Notification) : Nat :=
  (log.map (fun n => if n.msg = callback_msg.fill ∧ n.id = id then n.size else 0)).sum

/-- Modelled from the spec: the engine is not among the sources.  Reading a log
from its oldest entry, with `acc` the size filled of order `a` so far: every
MSG_FILL for order `b` comes when `a` has been filled for `size_a`. -/
def fills_in_order_from (a size_a b : Nat) : Nat → List Notification → Bool
  | _, [] => true
  | acc, n :: rest =>
    (if n.msg = callback_msg.fill ∧ n.id = b then decide (acc = size_a) else true) &&
      fills_in_order_from a size_a b
        (acc + (if n.msg = callback_msg.fill ∧ n.id = a then n.size else 0)) rest

/-- Modelled from the spec: the engine is not among the sources.  Price-time
priority between two orders as seen in the notifications (section 8): order `a`,
of size `size_a`, is filled completely before order `b` receives any fill. -/
def fills_in_order (a size_a b : Nat) (log : List Notification) : Prop :=
  fills_in_order_from a size_a b 0 log = true

/-- Modelled from the spec: the engine is not among the sources.  Whether a
top-level operation pulls or replaces the order `id`. -/
def Op.targets (id : Nat) : Op → Bool
  | .insert _ => false
  | .pull i => decide (i = id)
  | .replace i _ => decide (i = id)

/-- Modelled from the spec: the engine is not among the sources.  The
identifiers of the orders that are still being matched. -/
def stack_ids (stack : List Work) : List Nat :=
  stack.filterMap (fun w => match w with
    | .matching o => some o.id
    | .sweep _ => none)

/-- Modelled from the spec: the engine is not among the sources.  The
identifiers of all orders a machine holds: resting limits, resting stops, and
orders being matched. -/
def Machine.ids (m : Machine) : List Nat :=
  m.book.limits.map (fun o => o.id) ++ m.book.stops.map (fun s => s.id) ++ stack_ids m.stack

/-- Modelled from the spec: the engine is not among the sources.  The
registry invariants of sections 3 and 4.4 on a machine: identifiers are
unique, every identifier in use or notified is below the counter, and the
resting limits are not crossed. -/
def well_formed (m : Machine) : Prop :=
  m.ids.Nodup ∧ (∀ i ∈ m.ids, i < m.book.next_id) ∧
    (∀ n ∈ m.book.log, n.id < m.book.next_id) ∧ uncrossed m.book.limits

/-- Modelled from the spec: the engine is not among the sources.  The life
of one LIMIT order `x` on side `buy` at `tick` with original size
`size`: it has been issued, it is never a stop, wherever it is (resting or
being matched) it keeps its side and tick and its remaining size is `size`
less what was filled, and once it is nowhere it has been filled completely. -/
def tracked (x : Nat) (buy : Bool) (tick size : Nat) (m : Machine) : Prop :=
  x < m.book.next_id ∧
  x ∉ m.book.stops.map (fun s => s.id) ∧
  (∀ o ∈ m.book.limits, o.id = x →
    o.buy = buy ∧ o.tick = tick ∧ filled x m.book.log + o.size = size) ∧
  (∀ o, Work.matching o ∈ m.stack → o.id = x →
    o.buy = buy ∧ o.limit = some tick ∧ filled x m.book.log + o.size = size) ∧
  (x ∉ m.book.limits.map (fun o => o.id) → x ∉ stack_ids m.stack →
    filled x m.book.log = size)

/-- Modelled from the spec: the engine is not among the sources.  The
first-in first-out invariant for orders `a` and `b`: the notifications
so far are in order, and while `a` is not completely filled `b` is either the
only order being matched, not yet matched at all, or rests behind `a`. -/
def fifo (a size_a b : Nat) (m : Machine) : Prop :=
  fills_in_order a size_a b m.book.log ∧
  (filled a m.book.log < size_a →
    (∃ o, m.stack = [Work.matching o] ∧ o.id = b ∧ o.size ≠ 0) ∨
      List.Sublist [a, b] (m.book.limits.map (fun o => o.id)))

end Engine

namespace Engine

/-- Modelled from the spec: the engine is not among the sources.  The trades a
notification log tells of, oldest first, as (tick, size): every trade queues
MSG_FILL twice in a row, for the resting and for the incoming order, with the
price and the size of the trade (step 4 of the matching loop, section 4.5).  The
first argument is a MSG_FILL that still waits for its partner. -/
def trades_from : Option Notification → List Notification → List (Nat × Nat)
  | _, [] => []
  | none, n :: rest =>
    if n.msg = callback_msg.fill then trades_from (some n) rest else trades_from none rest
  | some a, n :: rest =>
    if n.msg = callback_msg.fill then (a.price, a.size) :: trades_from none rest
    else trades_from none rest

/-- Modelled from the spec: the engine is not among the sources.  The trades of
a whole log, read from its oldest entry. -/
def trades (log : List Notification) : List (Nat × Nat) := trades_from none log

/-- Modelled from the spec: the engine is not among the sources.  The sum of the
sizes of all MSG_FILL notifications of a log. -/
def fill_total (log : List Notification) : Nat :=
  (log.map (fun n => if n.msg = callback_msg.fill then n.size else 0)).sum

/-- Modelled from the spec: the engine is not among the sources.  The
bookkeeping invariant of a book: its log reads as a sequence of whole
trades whatever is appended to it, the journal lists exactly these trades, the
volume is the sum of the journal's sizes, and the MSG_FILL notifications add up
to twice the volume (each trade notifies both of its orders). -/
def accounted (b : Book) : Prop :=
  (∀ ext, trades (b.log ++ ext) = trades b.log ++ trades ext) ∧
    b.journal = trades b.log ∧
    b.volume = (b.journal.map Prod.snd).sum ∧
    fill_total b.log = 2 * b.volume

end Engine

namespace New

/-- `SOB_trade_limit<BuyOrder, ReplaceOrder>`.  `parsed` is the outcome of
`OrderMethodArgs<ReplaceOrder>::parse(args, kwds, order_type::limit, &id, &limit,
&size, &cb)` and `wrap_cb` the function of that name; both are declared in
headers that are not among the sources. -/
def SOB_trade_limit {P : Type} (BuyOrder ReplaceOrder : Bool) (ob : OrderInterface P)
    (convert : ExceptionConverter) (wrap_cb : Option PyObject → PyObject)
    (parsed : PyResult (OrderArgs P)) : Outcome (BookCall P) Nat :=
  match parsed with
  | .error exc msg => ⟨.error exc msg, []⟩
  | .ok v =>
    let call : BookCall P :=
      if ReplaceOrder then
        .replace_with_limit_order v.id BuyOrder v.limit (to_size_t v.size) (wrap_cb v.cb)
      else .insert_limit_order BuyOrder v.limit (to_size_t v.size) (wrap_cb v.cb)
    match ob call with
    | .returned id => ⟨.ok id, [call]⟩
    | .thrown e => ⟨.error (convert e).1 (convert e).2, [call]⟩

end New

/-- The number of argument units of a parser format made of one-character
units: the characters in front of the `:` that starts the function name. -/
def format_units (frmt : List Char) : Nat :=
  (frmt.takeWhile (fun c => c != ':')).length

/-- The number of keywords the parser reads from a keyword array: the entries
in front of the first null pointer. -/
def keyword_count (kptr : List (Option String)) : Nat :=
  (kptr.takeWhile Option.isSome).length

namespace New

/-- The positions at which the `for` loop of `timesales_to_list` dereferences
`eiter`, in order: `k` rounds are left and the iterator is at `eiter`. -/
def timesales_loop_reads : Nat → Int → List Int
  | 0, _ => []
  | k + 1, eiter => eiter :: timesales_loop_reads k (eiter - 1)

/-- The journal positions `timesales_to_list(vec, n)` reads for a vector of
length `vsz`: none when `n == 0` (the function returns before it touches the
vector), else those of the loop started at `vec.cend() - 1`. -/
def timesales_to_list_reads (vsz n : Nat) : List Int :=
  if n = 0 then [] else timesales_loop_reads n ((vsz : Int) - 1)

/-- The `n` that `SOB_time_and_sales` hands to `timesales_to_list` for a vector
of length `vsz`: `(arg <= 0) ? vsz : std::min(vsz, (size_t)arg)`, where `arg` is
`-1` when the caller gave no argument. -/
def time_and_sales_n (vsz : Nat) (given : Option Int) : Nat :=
  if given.getD (-1) ≤ 0 then vsz else min vsz (to_size_t (given.getD (-1)))

end New

namespace Old

/-- The slots the range-`for` loop of `SOB_market_depth` writes, in order: each
round does `PyList_SET_ITEM(list, --indx, tup)`, starting from `indx`. -/
def market_depth_writes {P : Type} (md : List (P × Nat)) (indx : Nat) : List Nat :=
  (md.foldl (fun st _ => (st.1 ++ [st.2 - 1], st.2 - 1)) (([] : List Nat), indx)).1

end Old

/-- What `SOB_Delete` does, in order: `bndl->proxy.destroy(bndl->interface)`,
`delete bndl`, `tp_free(self)`. -/
inductive DeleteCall
  | destroy (proxy : TickKind) (interface : Option Nat)
  | delete_bundle (bndl : pySOBBundle)
  | tp_free
  deriving DecidableEq

namespace New

/-- `SOB_Delete(self)`: the book is destroyed and the bundle deleted only when
`self->sob_bndl` is set; `self` is freed in any case. -/
def SOB_Delete (self : pySOB) : List DeleteCall :=
  match self.sob_bndl with
  | some bndl => [.destroy bndl.proxy bndl.interface, .delete_bundle bndl, .tp_free]
  | none => [.tp_free]

end New

/-- A host on which `create` succeeds and `new pySOBBundle` throws
`std::bad_alloc`. -/
def sample_host_no_bundle : NewHost :=
  { tp_alloc_ok := true
    bundle_alloc_ok := false
    create := fun _ _ _ => .returned (some 1) }

/-- `Py_XINCREF(o)` on the reference counts of the interpreter's objects
(`ob_refcnt`, a `Py_ssize_t`): nothing for a null pointer. -/
def Py_XINCREF (refcnt : PyObject → Int) (o : Option PyObject) : PyObject → Int :=
  match o with
  | none => refcnt
  | some p => Function.update refcnt p (refcnt p + 1)

/-- `Py_XDECREF(o)` on the reference counts: nothing for a null pointer. -/
def Py_XDECREF (refcnt : PyObject → Int) (o : Option PyObject) : PyObject → Int :=
  match o with
  | none => refcnt
  | some p => Function.update refcnt p (refcnt p - 1)

namespace Old

/-- The class `PyFuncWrap`: its one member, the constant pointer `cb`. -/
structure PyFuncWrap where
  cb : Option PyObject
  deriving DecidableEq, Repr

/-- The constructor `PyFuncWrap(PyObject *callback)`: the new wrapper and the
reference counts afterwards. -/
def PyFuncWrap.construct (refcnt : PyObject → Int) (callback : Option PyObject) :
    PyFuncWrap × (PyObject → Int) :=
  (⟨callback⟩, Py_XINCREF refcnt callback)

/-- The copy constructor `PyFuncWrap(const PyFuncWrap& obj)`. -/
def PyFuncWrap.copy (refcnt : PyObject → Int) (obj : PyFuncWrap) :
    PyFuncWrap × (PyObject → Int) :=
  (⟨obj.cb⟩, Py_XINCREF refcnt obj.cb)

/-- The destructor `~PyFuncWrap()`. -/
def PyFuncWrap.destroy (refcnt : PyObject → Int) (w : PyFuncWrap) : PyObject → Int :=
  Py_XDECREF refcnt w.cb

/-- Something a program does with wrappers: construct one for a callback, copy
the live wrapper at a position, or destroy the live wrapper at a position. -/
inductive WrapEvent
  | construct (callback : Option PyObject)
  | copy (i : Nat)
  | destroy (i : Nat)
  deriving DecidableEq, Repr

/-- The reference counts and the wrappers that are alive. -/
structure WrapState where
  refcnt : PyObject → Int
  live : List PyFuncWrap

/-- One event; `none` when it names a wrapper that is not alive (a wrapper is
destroyed once: after that it is no longer among the live ones). -/
def WrapState.step (st : WrapState) : WrapEvent → Option WrapState
  | .construct callback =>
    some ⟨(PyFuncWrap.construct st.refcnt callback).2,
      st.live ++ [(PyFuncWrap.construct st.refcnt callback).1]⟩
  | .copy i =>
    match st.live[i]? with
    | none => none
    | some obj =>
      some ⟨(PyFuncWrap.copy st.refcnt obj).2, st.live ++ [(PyFuncWrap.copy st.refcnt obj).1]⟩
  | .destroy i =>
    match st.live[i]? with
    | none => none
    | some w => some ⟨PyFuncWrap.destroy st.refcnt w, st.live.eraseIdx i⟩

/-- A sequence of events, from the first on. -/
def WrapState.run (st : WrapState) : List WrapEvent → Option WrapState
  | [] => some st
  | e :: rest =>
    match st.step e with
    | none => none
    | some st' => st'.run rest

/-- The number of live wrappers that hold the object `p`. -/
def WrapState.holders (st : WrapState) (p : PyObject) : Nat :=
  (st.live.map (fun w => w.cb)).count (some p)

end Old

namespace Old

/-- What the ownership rule asks for, from the events alone: the callbacks the
live wrappers stand for, in order of creation.  A wrapper constructed for a
callback stands for that callback, a copy stands for the callback of the
wrapper it was copied from, and a destroyed wrapper stands for nothing any
more; `none` when an event names a wrapper that is not alive. -/
def expected_holders : List (Option PyObject) → List WrapEvent → Option (List (Option PyObject))
  | held, [] => some held
  | held, .construct callback :: rest => expected_holders (held ++ [callback]) rest
  | held, .copy i :: rest =>
    match held[i]? with
    | none => none
    | some callback => expected_holders (held ++ [callback]) rest
  | held, .destroy i :: rest =>
    match held[i]? with
    | none => none
    | some _ => expected_holders (held.eraseIdx i) rest

end Old

/-! ## Theorems -/

theorem New.timesales_loop_eq {T P : Type} (to_string : T → String)
    (vec : List (timesale_entry_type T P)) :
    ∀ k m : Nat, k ≤ m → m ≤ vec.length →
      New.timesales_loop to_string vec k ((m : Int) - 1) =
        some ((((vec.take m).drop (m - k)).reverse).map (build_timesale to_string)) := by
  intro k
  induction k with
  | zero => intro m _ _; simp [New.timesales_loop]
  | succ k ih =>
    intro m hk hm
    obtain ⟨m', rfl⟩ : ∃ m', m = m' + 1 := ⟨m - 1, by omega⟩
    have hlt : m' < vec.length := by omega
    have h1 : ((m' + 1 : Nat) : Int) - 1 = (m' : Int) := by push_cast; ring
    have ih' := ih m' (by omega) (by omega)
    have hnot : ¬ ((m' : Int) < 0) := by omega
    have hsplit : (vec.take (m' + 1)).drop (m' + 1 - (k + 1))
        = (vec.take m').drop (m' - k) ++ [vec[m']] := by
      rw [List.take_succ, List.getElem?_eq_getElem hlt]
      have e : m' + 1 - (k + 1) = m' - k := by omega
      rw [e, List.drop_append_of_le_length]
      · rfl
      · rw [List.length_take]; omega
    rw [h1, New.timesales_loop, if_neg hnot, Int.toNat_ofNat, List.getElem?_eq_getElem hlt]
    simp only [ih', hsplit]
    simp

theorem New.timesales_to_list_eq {T P : Type} (to_string : T → String)
    (vec : List (timesale_entry_type T P)) (n : Nat) (h : n ≤ vec.length) :
    New.timesales_to_list to_string vec n =
      some (((vec.drop (vec.length - n)).reverse).map (build_timesale to_string)) := by
  unfold New.timesales_to_list
  split
  · next h0 => subst h0; simp
  · rw [New.timesales_loop_eq to_string vec n vec.length h le_rfl, List.take_length]

theorem to_size_t_of_pos (arg : Int) (h : is_long arg) (hpos : 0 < arg) :
    to_size_t arg = arg.toNat := by
  unfold to_size_t
  obtain ⟨_, h2⟩ := h
  rw [Int.emod_eq_of_lt (by omega) (by omega)]

/-- The number of rows `SOB_time_and_sales` asks `timesales_to_list` for. -/
theorem New.SOB_time_and_sales_eq {T P : Type} (to_string : T → String)
    (vec : List (timesale_entry_type T P)) (given : Option Int)
    (h : is_long (given.getD (-1))) :
    New.SOB_time_and_sales to_string vec (PyResult.ok given) =
      some (.ok (((vec.drop (vec.length -
        (if given.getD (-1) ≤ 0 then vec.length
          else min vec.length (given.getD (-1)).toNat))).reverse).map
            (build_timesale to_string))) := by
  unfold New.SOB_time_and_sales
  by_cases hle : given.getD (-1) ≤ 0
  · simp only [hle, if_true]
    rw [New.timesales_to_list_eq to_string vec vec.length le_rfl]
  · simp only [hle, if_false]
    rw [to_size_t_of_pos _ h (by omega),
      New.timesales_to_list_eq to_string vec _ (Nat.min_le_left _ _)]

/-- C1: in the 2017 binding `time_and_sales(n)` returns a list; it has
`min(n, L)` entries when `n > 0` and `L` entries when `n` is omitted or `n <= 0`,
and its entries are exactly the journal rows at positions `L-len .. L-1` (the
most recently appended ones), each converted to a Python tuple. -/
theorem C1_time_and_sales_most_recent {T P : Type} (to_string : T → String)
    (vec : List (timesale_entry_type T P)) (given : Option Int)
    (h : is_long (given.getD (-1))) :
    ∃ list, New.SOB_time_and_sales to_string vec (PyResult.ok given) = some (.ok list) ∧
      list.length =
        (match given with
         | some n => if 0 < n then min n.toNat vec.length else vec.length
         | none => vec.length) ∧
      list.reverse = (vec.drop (vec.length - list.length)).map (build_timesale to_string) ∧
      list.Perm ((vec.drop (vec.length - list.length)).map (build_timesale to_string)) := by
  refine ⟨_, New.SOB_time_and_sales_eq to_string vec given h, ?_⟩
  have hlen : ∀ n, n ≤ vec.length →
      (((vec.drop (vec.length - n)).reverse).map (build_timesale to_string)).length = n := by
    intro n hn
    simp only [List.length_map, List.length_reverse, List.length_drop]
    omega
  have key : ∀ n, n ≤ vec.length →
      ((((vec.drop (vec.length - n)).reverse).map (build_timesale to_string)).reverse
          = (vec.drop (vec.length -
              (((vec.drop (vec.length - n)).reverse).map (build_timesale to_string)).length)).map
                (build_timesale to_string)) := by
    intro n hn
    rw [hlen n hn, ← List.map_reverse, List.reverse_reverse]
  have hn : (if given.getD (-1) ≤ 0 then vec.length
      else min vec.length (given.getD (-1)).toNat) ≤ vec.length := by
    split
    · exact le_rfl
    · exact Nat.min_le_left _ _
  refine ⟨?_, key _ hn, ?_⟩
  · rw [hlen _ hn]
    cases given with
    | none => simp
    | some n =>
      simp only [Option.getD_some]
      by_cases hp : 0 < n
      · rw [if_neg (by omega), if_pos hp, Nat.min_comm]
      · rw [if_pos (by omega), if_neg hp]
  · rw [← key _ hn]
    exact (List.reverse_perm _).symm

/-- Witness for C1 on a three-row journal queried with `n = 2`. -/
theorem C1_time_and_sales_most_recent_witness :
    is_long ((some (2 : Int)).getD (-1)) ∧
    ∃ list, New.SOB_time_and_sales sample_to_string sample_journal (.ok (some 2))
        = some (.ok list) ∧
      list.length =
        (match (some (2 : Int)) with
         | some n => if 0 < n then min n.toNat sample_journal.length else sample_journal.length
         | none => sample_journal.length) ∧
      list.reverse = (sample_journal.drop (sample_journal.length - list.length)).map
          (build_timesale sample_to_string) ∧
      list.Perm ((sample_journal.drop (sample_journal.length - list.length)).map
          (build_timesale sample_to_string)) :=
  ⟨by decide, C1_time_and_sales_most_recent sample_to_string sample_journal (some 2) (by decide)⟩

/-- C2 as stated fails: for the three-row sample journal and no argument the
2017 binding returns the newest row in slot 0, so the returned list is not in
the order in which the rows were appended. -/
theorem C2_chronological_counterexample :
    New.SOB_time_and_sales sample_to_string sample_journal (.ok none)
      = some (.ok [("t2", 12, 3), ("t1", 11, 2), ("t0", 10, 1)]) ∧
    ¬ in_chronological_order (sample_journal.map (build_timesale sample_to_string))
        [("t2", 12, 3), ("t1", 11, 2), ("t0", 10, 1)] := by
  refine ⟨by decide, ?_⟩
  intro h
  obtain ⟨a, b, hab, ha, hb⟩ := h 0 1 (by decide) (by decide)
  rcases a with _ | _ | _ | a
  · revert ha; decide
  · revert ha; decide
  · rcases b with _ | _ | _ | b
    · omega
    · omega
    · omega
    · simp [sample_journal] at hb
  · simp [sample_journal] at ha

/-- C2 (amended): the list returned by the 2017 `time_and_sales` is newest
first.  Slot `i` holds journal row `L-1-i`, so for slots `i < j` the trade in
slot `i` was appended after the trade in slot `j`. -/
theorem C2_time_and_sales_newest_first {T P : Type} (to_string : T → String)
    (vec : List (timesale_entry_type T P)) (given : Option Int)
    (h : is_long (given.getD (-1))) :
    ∃ list, New.SOB_time_and_sales to_string vec (PyResult.ok given) = some (.ok list) ∧
      ∀ i j : Nat, i < j → j < list.length →
        ∃ ei ej, vec[vec.length - 1 - i]? = some ei ∧ vec[vec.length - 1 - j]? = some ej ∧
          list[i]? = some (build_timesale to_string ei) ∧
          list[j]? = some (build_timesale to_string ej) ∧
          vec.length - 1 - j < vec.length - 1 - i := by
  refine ⟨_, New.SOB_time_and_sales_eq to_string vec given h, ?_⟩
  generalize hn : (if given.getD (-1) ≤ 0 then vec.length
      else min vec.length (given.getD (-1)).toNat) = n
  have hnle : n ≤ vec.length := by
    rw [← hn]; split
    · exact le_rfl
    · exact Nat.min_le_left _ _
  have slot : ∀ i, i < n →
      (((vec.drop (vec.length - n)).reverse).map (build_timesale to_string))[i]?
        = (vec[vec.length - 1 - i]?).map (build_timesale to_string) := by
    intro i hi
    have hl : i < (vec.drop (vec.length - n)).reverse.length := by
      rw [List.length_reverse, List.length_drop]; omega
    have hv : vec.length - 1 - i < vec.length := by omega
    rw [List.getElem?_map, List.getElem?_eq_getElem hl, List.getElem_reverse,
      List.getElem?_eq_getElem hv]
    simp only [List.getElem_drop, Option.map_some', List.length_drop]
    congr 3
    omega
  intro i j hij hj
  have hjn : j < n := by
    simpa [List.length_drop, Nat.sub_sub_self hnle] using hj
  have hi' : vec.length - 1 - i < vec.length := by omega
  have hj' : vec.length - 1 - j < vec.length := by omega
  refine ⟨vec[vec.length - 1 - i], vec[vec.length - 1 - j],
    List.getElem?_eq_getElem hi', List.getElem?_eq_getElem hj', ?_, ?_, by omega⟩
  · rw [slot i (by omega), List.getElem?_eq_getElem hi']; rfl
  · rw [slot j hjn, List.getElem?_eq_getElem hj']; rfl

/-- Witness for C2 (amended) on the sample journal with no argument. -/
theorem C2_time_and_sales_newest_first_witness :
    is_long ((none : Option Int).getD (-1)) ∧
    ∃ list, New.SOB_time_and_sales sample_to_string sample_journal (.ok none)
        = some (.ok list) ∧
      ∀ i j : Nat, i < j → j < list.length →
        ∃ ei ej, sample_journal[sample_journal.length - 1 - i]? = some ei ∧
          sample_journal[sample_journal.length - 1 - j]? = some ej ∧
          list[i]? = some (build_timesale sample_to_string ei) ∧
          list[j]? = some (build_timesale sample_to_string ej) ∧
          sample_journal.length - 1 - j < sample_journal.length - 1 - i :=
  ⟨by decide, C2_time_and_sales_newest_first sample_to_string sample_journal none (by decide)⟩

/-- C3: the 2015 `time_and_sales(1)` on the three-row sample journal returns
the oldest row (journal position 0), not the most recent one (position 2). -/
theorem C3_old_time_and_sales_returns_oldest :
    Old.SOB_time_and_sales sample_to_string sample_journal (some 1) = .ok [("t0", 10, 1)] ∧
    (sample_journal.drop (sample_journal.length - 1)).map (build_timesale sample_to_string)
      = [("t2", 12, 3)] ∧
    Old.SOB_time_and_sales sample_to_string sample_journal (some 1) ≠
      .ok ((sample_journal.drop (sample_journal.length - 1)).map
        (build_timesale sample_to_string)) := by
  decide

theorem Old.check_args_eq {P : Type} (lead : List (CArg P)) (size : Int) (cb : PyObject) :
    Old.OrderMethodArgs.check_args lead size cb = Old.OrderMethodArgs.check_size_cb size cb := by
  induction lead with
  | nil => rfl
  | cons _ args ih => simpa [Old.OrderMethodArgs.check_args] using ih

theorem Old.extract_none {P : Type} (Replace : Bool) (ot : order_type) :
    Old.OrderMethodArgs.extract Replace ot (none : Option (OrderValues P))
      = .error PyExc.ValueError "error parsing args" := rfl

theorem Old.check_size_cb_eq (size : Int) (cb : PyObject) :
    Old.OrderMethodArgs.check_size_cb size cb =
      if cb.callable = false then .error PyExc.TypeError "callback must be callable"
      else if size ≤ 0 then .error PyExc.ValueError "size must be > 0"
      else .ok () := by
  unfold Old.OrderMethodArgs.check_size_cb PyCallable_Check
  by_cases hc : cb.callable = true <;> simp [hc]

theorem Old.extract_some {P : Type} (Replace : Bool) (ot : order_type) (v : OrderValues P) :
    Old.OrderMethodArgs.extract Replace ot (some v) =
      if v.cb.callable = false then .error PyExc.TypeError "callback must be callable"
      else if v.size ≤ 0 then .error PyExc.ValueError "size must be > 0"
      else .ok v := by
  simp only [Old.OrderMethodArgs.extract, Old.MethodArgs.extract, Old.check_args_eq, ite_self,
    Old.check_size_cb_eq]
  by_cases hc : v.cb.callable = true <;> by_cases hs : v.size ≤ 0 <;> simp [hc, hs]

/-- C4 as stated fails: a buy-limit request with size 0 and a callback that is
not callable is rejected with `TypeError`, so its non-positive size is not
reported as a `ValueError`. -/
theorem C4_size_error_counterexample :
    (0 : Int) ≤ 0 ∧
    Old.OrderMethodArgs.check_args [CArg.double_ptr (50 : Nat)] 0 ⟨7, false⟩
      = .error PyExc.TypeError "callback must be callable" ∧
    Old.OrderMethodArgs.extract false order_type.limit
        (some (⟨0, 0, 50, 0, ⟨7, false⟩⟩ : OrderValues Nat))
      = .error PyExc.TypeError "callback must be callable" ∧
    Old.OrderMethodArgs.extract false order_type.limit
        (some (⟨0, 0, 50, 0, ⟨7, false⟩⟩ : OrderValues Nat))
      ≠ .error PyExc.ValueError "size must be > 0" := by
  decide

/-- C4 (amended): for every order kind, in the insert and in the replace form,
and for every parsed argument tuple, `check_args` (and with it `extract`) accepts
exactly when the callback is callable and `size > 0`.  A callback that is not
callable is reported as `TypeError` whatever the size; a non-positive size is
reported as `ValueError` when the callback is callable. -/
theorem C4_check_args_accepts_iff {P : Type} (Replace : Bool) (ot : order_type)
    (v : OrderValues P) :
    Old.OrderMethodArgs.check_args
        (if Replace then CArg.ulong_ptr v.id :: Old.targs_lead ot v else Old.targs_lead ot v)
        v.size v.cb
      = Old.OrderMethodArgs.check_size_cb v.size v.cb ∧
    (Old.OrderMethodArgs.check_size_cb v.size v.cb = .ok () ↔
      PyCallable_Check v.cb = true ∧ 0 < v.size) ∧
    (Old.OrderMethodArgs.extract Replace ot (some v) = .ok v ↔
      PyCallable_Check v.cb = true ∧ 0 < v.size) ∧
    (PyCallable_Check v.cb = false →
      Old.OrderMethodArgs.check_size_cb v.size v.cb
          = .error PyExc.TypeError "callback must be callable" ∧
      Old.OrderMethodArgs.extract Replace ot (some v)
          = .error PyExc.TypeError "callback must be callable") ∧
    (PyCallable_Check v.cb = true → v.size ≤ 0 →
      Old.OrderMethodArgs.check_size_cb v.size v.cb
          = .error PyExc.ValueError "size must be > 0" ∧
      Old.OrderMethodArgs.extract Replace ot (some v)
          = .error PyExc.ValueError "size must be > 0") := by
  rw [Old.check_args_eq, Old.extract_some, Old.check_size_cb_eq]
  simp only [PyCallable_Check]
  by_cases hc : v.cb.callable = true <;> by_cases hs : v.size ≤ 0 <;> simp [hc, hs]
  all_goals omega

/-- Witness for C4 (amended): a replace-with-stop-limit request with size 0 and
a callable callback is turned down with `ValueError`. -/
theorem C4_check_args_accepts_iff_witness :
    PyCallable_Check (⟨3, 49, 50, 0, ⟨7, true⟩⟩ : OrderValues Nat).cb = true ∧
    (⟨3, 49, 50, 0, ⟨7, true⟩⟩ : OrderValues Nat).size ≤ 0 ∧
    Old.OrderMethodArgs.check_size_cb (⟨3, 49, 50, 0, ⟨7, true⟩⟩ : OrderValues Nat).size
        (⟨3, 49, 50, 0, ⟨7, true⟩⟩ : OrderValues Nat).cb
      = .error PyExc.ValueError "size must be > 0" ∧
    Old.OrderMethodArgs.extract true order_type.stop_limit
        (some (⟨3, 49, 50, 0, ⟨7, true⟩⟩ : OrderValues Nat))
      = .error PyExc.ValueError "size must be > 0" :=
  ⟨rfl, by decide,
    (C4_check_args_accepts_iff true order_type.stop_limit
      (⟨3, 49, 50, 0, ⟨7, true⟩⟩ : OrderValues Nat)).2.2.2.2 rfl (by decide)⟩

theorem Old.call_book_calls {P : Type} (sob : OrderInterface P) (call : BookCall P) :
    (Old.call_book sob call).calls = [call] := by
  unfold Old.call_book
  cases sob call <;> rfl

theorem Old.extract_rejects {P : Type} (Replace : Bool) (ot : order_type)
    (parsed : Option (OrderValues P))
    (h : parsed = none ∨ ∃ v, parsed = some v ∧ (v.size ≤ 0 ∨ PyCallable_Check v.cb = false)) :
    ∃ exc msg, Old.OrderMethodArgs.extract Replace ot parsed = .error exc msg := by
  rcases h with rfl | ⟨v, rfl, hv⟩
  · exact ⟨_, _, Old.extract_none Replace ot⟩
  · rw [Old.extract_some]
    simp only [PyCallable_Check] at hv
    by_cases hc : v.cb.callable = true
    · have hs : v.size ≤ 0 := by
        rcases hv with hs | hf
        · exact hs
        · rw [hc] at hf; cases hf
      exact ⟨PyExc.ValueError, "size must be > 0", by simp [hc, hs]⟩
    · exact ⟨PyExc.TypeError, "callback must be callable", by simp [hc]⟩

theorem Old.extract_accepts {P : Type} (Replace : Bool) (ot : order_type)
    (parsed : Option (OrderValues P))
    (h : ∃ v, parsed = some v ∧ 0 < v.size ∧ PyCallable_Check v.cb = true) :
    ∃ v, Old.OrderMethodArgs.extract Replace ot parsed = .ok v := by
  obtain ⟨v, rfl, hs, hc⟩ := h
  simp only [PyCallable_Check] at hc
  have hs' : ¬ v.size ≤ 0 := by omega
  exact ⟨v, by rw [Old.extract_some]; simp [hc, hs']⟩

/-- C5: each 2015 order handler, for both sides and both forms, makes no book
call when the arguments cannot be parsed, the size is not positive, or the
callback is not callable: it hands back an error and any book state the calls
are applied to stays as it was.  When the arguments pass validation the handler
makes exactly one book call. -/
theorem C5_trade_handlers_validate_first {P : Type} (BuyNotSell Replace : Bool)
    (sob : OrderInterface P) (parsed : Option (OrderValues P)) :
    ∀ handler ∈ [Old.SOB_trade_limit BuyNotSell Replace, Old.SOB_trade_market BuyNotSell Replace,
        Old.SOB_trade_stop BuyNotSell Replace, Old.SOB_trade_stop_limit BuyNotSell Replace],
      ((parsed = none ∨
          ∃ v, parsed = some v ∧ (v.size ≤ 0 ∨ PyCallable_Check v.cb = false)) →
        (∃ exc msg, (handler sob parsed).result = .error exc msg) ∧
        (handler sob parsed).calls = [] ∧
        ∀ (σ : Type) (step : σ → BookCall P → σ) (book : σ),
          (handler sob parsed).calls.foldl step book = book) ∧
      ((∃ v, parsed = some v ∧ 0 < v.size ∧ PyCallable_Check v.cb = true) →
        ∃ call, (handler sob parsed).calls = [call]) := by
  intro handler hmem
  simp only [List.mem_cons, List.mem_singleton, List.not_mem_nil, or_false] at hmem
  rcases hmem with rfl | rfl | rfl | rfl
  · constructor
    · intro h
      obtain ⟨exc, msg, he⟩ := Old.extract_rejects Replace order_type.limit parsed h
      rw [Old.SOB_trade_limit, he]
      exact ⟨⟨exc, msg, rfl⟩, rfl, fun _ _ _ => rfl⟩
    · intro h
      obtain ⟨v, he⟩ := Old.extract_accepts Replace order_type.limit parsed h
      rw [Old.SOB_trade_limit, he]
      exact ⟨_, Old.call_book_calls _ _⟩
  · constructor
    · intro h
      obtain ⟨exc, msg, he⟩ := Old.extract_rejects Replace order_type.market parsed h
      rw [Old.SOB_trade_market, he]
      exact ⟨⟨exc, msg, rfl⟩, rfl, fun _ _ _ => rfl⟩
    · intro h
      obtain ⟨v, he⟩ := Old.extract_accepts Replace order_type.market parsed h
      rw [Old.SOB_trade_market, he]
      exact ⟨_, Old.call_book_calls _ _⟩
  · constructor
    · intro h
      obtain ⟨exc, msg, he⟩ := Old.extract_rejects Replace order_type.stop parsed h
      rw [Old.SOB_trade_stop, he]
      exact ⟨⟨exc, msg, rfl⟩, rfl, fun _ _ _ => rfl⟩
    · intro h
      obtain ⟨v, he⟩ := Old.extract_accepts Replace order_type.stop parsed h
      rw [Old.SOB_trade_stop, he]
      exact ⟨_, Old.call_book_calls _ _⟩
  · constructor
    · intro h
      obtain ⟨exc, msg, he⟩ := Old.extract_rejects Replace order_type.stop_limit parsed h
      rw [Old.SOB_trade_stop_limit, he]
      exact ⟨⟨exc, msg, rfl⟩, rfl, fun _ _ _ => rfl⟩
    · intro h
      obtain ⟨v, he⟩ := Old.extract_accepts Replace order_type.stop_limit parsed h
      rw [Old.SOB_trade_stop_limit, he]
      exact ⟨_, Old.call_book_calls _ _⟩

/-- Witness for C5: a well-formed buy-limit insert makes exactly one call. -/
theorem C5_trade_handlers_validate_first_witness :
    Old.SOB_trade_limit true false ∈
      [Old.SOB_trade_limit true false, @Old.SOB_trade_market Nat true false,
        Old.SOB_trade_stop true false, Old.SOB_trade_stop_limit true false] ∧
    (∃ v, some sample_order = some v ∧ 0 < v.size ∧ PyCallable_Check v.cb = true) ∧
    ∃ call, (Old.SOB_trade_limit true false sample_engine (some sample_order)).calls = [call] :=
  ⟨List.mem_cons_self _ _, ⟨sample_order, rfl, by decide, rfl⟩,
    ((C5_trade_handlers_validate_first true false sample_engine (some sample_order)
      (Old.SOB_trade_limit true false) (List.mem_cons_self _ _)).2
        ⟨sample_order, rfl, by decide, rfl⟩)⟩

/-- C6: when `low > high`, `SOB_New` of either revision hands back a
`ValueError` and makes no factory call, so no book is constructed. -/
theorem C6_low_above_high_rejected (host : NewHost) (sobty : Int) (low high : Double)
    (h : Double.gt low high = true) :
    (∃ msg, (Old.SOB_New host (some (sobty, low, high))).result
        = .error PyExc.ValueError msg) ∧
    (Old.SOB_New host (some (sobty, low, high))).calls = [] ∧
    (∃ msg, (New.SOB_New host (.ok (sobty, low, high))).result
        = .error PyExc.ValueError msg) ∧
    (New.SOB_New host (.ok (sobty, low, high))).calls = [] := by
  simp only [Old.SOB_New, Old.MethodArgs.extract, New.SOB_New, h, if_true]
  cases Double.eq low (.fin 0)
  · exact ⟨⟨_, rfl⟩, rfl, ⟨_, rfl⟩, rfl⟩
  · exact ⟨⟨_, rfl⟩, rfl, ⟨_, rfl⟩, rfl⟩

/-- Witness for C6 with `low = 5`, `high = 2` and orderbook type 1. -/
theorem C6_low_above_high_rejected_witness :
    Double.gt (.fin 5) (.fin 2) = true ∧
    (∃ msg, (Old.SOB_New sample_host (some (1, .fin 5, .fin 2))).result
        = .error PyExc.ValueError msg) ∧
    (Old.SOB_New sample_host (some (1, .fin 5, .fin 2))).calls = [] ∧
    (∃ msg, (New.SOB_New sample_host (.ok (1, .fin 5, .fin 2))).result
        = .error PyExc.ValueError msg) ∧
    (New.SOB_New sample_host (.ok (1, .fin 5, .fin 2))).calls = [] :=
  ⟨by decide, C6_low_above_high_rejected sample_host 1 (.fin 5) (.fin 2) (by decide)⟩

/-- C7 as stated fails: with `low = -1`, `high = 1` and orderbook type 1 the
argument checks of `SOB_New` pass in both revisions and the factory's `create`
is called with the negative `low`; the rejection comes from the factory. -/
theorem C7_negative_low_counterexample :
    Double.le (.fin (-1)) (.fin 0) = true ∧
    (Old.SOB_New sample_host (some (1, .fin (-1), .fin 1))).calls
      = [FactoryCall.create TickKind.quarter_tick (.fin (-1)) (.fin 1)] ∧
    (New.SOB_New sample_host (.ok (1, .fin (-1), .fin 1))).calls
      = [FactoryCall.create TickKind.quarter_tick (.fin (-1)) (.fin 1)] ∧
    (Old.SOB_New sample_host (some (1, .fin (-1), .fin 1))).result
      = .error PyExc.Exception "invalid price range" ∧
    (New.SOB_New sample_host (.ok (1, .fin (-1), .fin 1))).result
      = .error PyExc.Exception "invalid price range" := by
  decide

/-- C7 (amended): when `low == 0`, the argument checks of `SOB_New` reject the
input with `ValueError("low == 0")` in both revisions, before any factory call. -/
theorem C7_zero_low_rejected (host : NewHost) (sobty : Int) (low high : Double)
    (h : Double.eq low (.fin 0) = true) :
    Old.SOB_New host (some (sobty, low, high)) = ⟨.error PyExc.ValueError "low == 0", []⟩ ∧
    New.SOB_New host (.ok (sobty, low, high)) = ⟨.error PyExc.ValueError "low == 0", []⟩ := by
  simp [Old.SOB_New, Old.MethodArgs.extract, New.SOB_New, h]

/-- Witness for C7 (amended) with `low = 0`, `high = 10`. -/
theorem C7_zero_low_rejected_witness :
    Double.eq (.fin 0) (.fin 0) = true ∧
    Old.SOB_New sample_host (some (4, .fin 0, .fin 10))
      = ⟨.error PyExc.ValueError "low == 0", []⟩ ∧
    New.SOB_New sample_host (.ok (4, .fin 0, .fin 10))
      = ⟨.error PyExc.ValueError "low == 0", []⟩ :=
  ⟨by decide, C7_zero_low_rejected sample_host 4 (.fin 0) (.fin 10) (by decide)⟩

theorem sob_types_find_none (sobty : Int) (h : ¬ (1 ≤ sobty ∧ sobty ≤ 6)) :
    sob_types_find New.SOB_TYPES sobty = none ∧ sob_types_find Old.SOB_TYPES sobty = none := by
  have h1 : ¬ ((1 : Int) = sobty) := by omega
  have h2 : ¬ ((2 : Int) = sobty) := by omega
  have h3 : ¬ ((3 : Int) = sobty) := by omega
  have h4 : ¬ ((4 : Int) = sobty) := by omega
  have h5 : ¬ ((5 : Int) = sobty) := by omega
  have h6 : ¬ ((6 : Int) = sobty) := by omega
  simp [sob_types_find, New.SOB_TYPES, Old.SOB_TYPES, New.sob_type_make_entry,
    Old.sob_type_make_entry, List.find?, h1, h2, h3, h4, h5, h6]

/-- C8: for an orderbook type outside `1..6` (not a key of `SOB_TYPES`),
`SOB_New` of either revision hands back an error, no object, and makes no
factory call; the 2017 module functions `TickSize`, `PriceToTick`,
`TicksInRange` and `TickMemoryRequired` hand back
`ValueError("invalid orderbook type")` and call no tick-arithmetic routine. -/
theorem C8_unknown_type_rejected (host : NewHost) (tr : TickRoutines)
    (convert : ExceptionConverter) (sobty : Int) (low high price lower upper : Double)
    (h : ¬ (1 ≤ sobty ∧ sobty ≤ 6)) :
    sob_types_find New.SOB_TYPES sobty = none ∧
    sob_types_find Old.SOB_TYPES sobty = none ∧
    (∃ exc msg, (New.SOB_New host (.ok (sobty, low, high))).result = .error exc msg) ∧
    (New.SOB_New host (.ok (sobty, low, high))).calls = [] ∧
    (∃ exc msg, (Old.SOB_New host (some (sobty, low, high))).result = .error exc msg) ∧
    (Old.SOB_New host (some (sobty, low, high))).calls = [] ∧
    New.TickSize tr (.ok sobty) = ⟨.error PyExc.ValueError "invalid orderbook type", []⟩ ∧
    New.PriceToTick tr convert (.ok (sobty, price))
      = ⟨.error PyExc.ValueError "invalid orderbook type", []⟩ ∧
    New.TicksInRange tr convert (.ok (sobty, lower, upper))
      = ⟨.error PyExc.ValueError "invalid orderbook type", []⟩ ∧
    New.TickMemoryRequired tr convert (.ok (sobty, lower, upper))
      = ⟨.error PyExc.ValueError "invalid orderbook type", []⟩ := by
  obtain ⟨hn, ho⟩ := sob_types_find_none sobty h
  refine ⟨hn, ho, ?_, ?_, ?_, ?_, ?_, ?_, ?_, ?_⟩
  · simp only [New.SOB_New, hn]
    cases Double.eq low (.fin 0) <;> cases Double.gt low high <;>
      exact ⟨_, _, rfl⟩
  · simp only [New.SOB_New, hn]
    cases Double.eq low (.fin 0) <;> cases Double.gt low high <;> rfl
  · simp only [Old.SOB_New, Old.MethodArgs.extract, Old.SOB_New_construct, ho]
    cases Double.eq low (.fin 0) <;> cases Double.gt low high <;> cases host.tp_alloc_ok <;>
      exact ⟨_, _, rfl⟩
  · simp only [Old.SOB_New, Old.MethodArgs.extract, Old.SOB_New_construct, ho]
    cases Double.eq low (.fin 0) <;> cases Double.gt low high <;> cases host.tp_alloc_ok <;> rfl
  · simp only [New.TickSize, hn]
  · simp only [New.PriceToTick, hn]
  · simp only [New.TicksInRange, hn]
  · simp only [New.TickMemoryRequired, hn]

/-- Witness for C8 with orderbook type 7. -/
theorem C8_unknown_type_rejected_witness :
    ¬ (1 ≤ (7 : Int) ∧ (7 : Int) ≤ 6) ∧
    (sob_types_find New.SOB_TYPES 7 = none ∧
    sob_types_find Old.SOB_TYPES 7 = none ∧
    (∃ exc msg, (New.SOB_New sample_host (.ok (7, .fin 1, .fin 10))).result
      = .error exc msg) ∧
    (New.SOB_New sample_host (.ok (7, .fin 1, .fin 10))).calls = [] ∧
    (∃ exc msg, (Old.SOB_New sample_host (some (7, .fin 1, .fin 10))).result
      = .error exc msg) ∧
    (Old.SOB_New sample_host (some (7, .fin 1, .fin 10))).calls = [] ∧
    New.TickSize sample_ticks (.ok 7)
      = ⟨.error PyExc.ValueError "invalid orderbook type", []⟩ ∧
    New.PriceToTick sample_ticks sample_convert (.ok (7, .fin 3))
      = ⟨.error PyExc.ValueError "invalid orderbook type", []⟩ ∧
    New.TicksInRange sample_ticks sample_convert (.ok (7, .fin 1, .fin 10))
      = ⟨.error PyExc.ValueError "invalid orderbook type", []⟩ ∧
    New.TickMemoryRequired sample_ticks sample_convert (.ok (7, .fin 1, .fin 10))
      = ⟨.error PyExc.ValueError "invalid orderbook type", []⟩) :=
  ⟨by decide, C8_unknown_type_rejected sample_host sample_ticks sample_convert 7
      (.fin 1) (.fin 10) (.fin 3) (.fin 1) (.fin 10) (by decide)⟩

/-- C9: `SOB_TYPES` has exactly six entries, with keys `1..6` in this order and
pairwise distinct names; keys 1 to 6 name the quarter, tenth, thirty-secondth,
hundredth, thousandth and ten-thousandth tick kinds, standing for 4, 10, 32,
100, 1000 and 10000 ticks per quote unit; and the table of the 2015 revision is
the same as that of the 2017 revision. -/
theorem C9_sob_types_table :
    New.SOB_TYPES.length = 6 ∧
    New.SOB_TYPES.map (fun entry => entry.1) = [1, 2, 3, 4, 5, 6] ∧
    (New.SOB_TYPES.map (fun entry => entry.2.1)).Nodup ∧
    New.SOB_TYPES.map (fun entry => (entry.1, entry.2.2)) =
      [(1, TickKind.quarter_tick), (2, TickKind.tenth_tick),
        (3, TickKind.thirty_secondth_tick), (4, TickKind.hundredth_tick),
        (5, TickKind.thousandth_tick), (6, TickKind.ten_thousandth_tick)] ∧
    New.SOB_TYPES.map (fun entry => (entry.1, entry.2.2.ticks_per_unit)) =
      [(1, 4), (2, 10), (3, 32), (4, 100), (5, 1000), (6, 10000)] ∧
    (∀ sobty : Int, (sob_types_find New.SOB_TYPES sobty).isSome = true ↔
      (1 ≤ sobty ∧ sobty ≤ 6)) ∧
    Old.SOB_TYPES = New.SOB_TYPES := by
  refine ⟨by decide, by decide, by decide, by decide, by decide, ?_, by decide⟩
  intro sobty
  constructor
  · intro hs
    by_contra hne
    rw [(sob_types_find_none sobty hne).1] at hs
    cases hs
  · rintro ⟨h1, h6⟩
    have : sobty = 1 ∨ sobty = 2 ∨ sobty = 3 ∨ sobty = 4 ∨ sobty = 5 ∨ sobty = 6 := by omega
    rcases this with rfl | rfl | rfl | rfl | rfl | rfl <;> decide

theorem PyDict_SetItem_append {K V : Type} [DecidableEq K] (dict : List (K × V)) (key : K)
    (val : V) (h : key ∉ dict.map Prod.fst) :
    PyDict_SetItem dict key val = dict ++ [(key, val)] := by
  induction dict with
  | nil => rfl
  | cons kv rest ih =>
    obtain ⟨k, v⟩ := kv
    simp only [List.map_cons, List.mem_cons, not_or] at h
    simp only [PyDict_SetItem, List.cons_append]
    rw [if_neg (fun e => h.1 e.symm), ih h.2]

theorem PyDict_GetItem_of_mem {K V : Type} [DecidableEq K] (dict : List (K × V)) (key : K)
    (val : V) (hnd : (dict.map Prod.fst).Nodup) (hmem : (key, val) ∈ dict) :
    PyDict_GetItem dict key = some val := by
  induction dict with
  | nil => cases hmem
  | cons kv rest ih =>
    obtain ⟨k, v⟩ := kv
    simp only [List.map_cons, List.nodup_cons] at hnd
    simp only [PyDict_GetItem, List.find?_cons]
    rcases List.mem_cons.1 hmem with heq | hin
    · cases heq
      simp
    · have hne : k ≠ key := by
        intro e
        apply hnd.1
        rw [e]
        exact List.mem_map_of_mem Prod.fst hin
      simpa [hne, PyDict_GetItem] using ih hnd.2 hin

theorem New.to_dict_fold {P T : Type} [DecidableEq P] (build_pair : P → T → P × DepthValue)
    (hkey : ∀ d t, (build_pair d t).1 = d) (md : List (P × T)) :
    ∀ acc : List (P × DepthValue), (acc.map Prod.fst ++ md.map Prod.fst).Nodup →
      md.foldl (fun dict level =>
          PyDict_SetItem dict (build_pair level.1 level.2).1 (build_pair level.1 level.2).2) acc
        = acc ++ md.map (fun level => (level.1, (build_pair level.1 level.2).2)) := by
  induction md with
  | nil => intro acc _; simp
  | cons level rest ih =>
    intro acc hnd
    have hmid := List.nodup_middle.1 hnd
    have hnot : level.1 ∉ acc.map Prod.fst := by
      intro hin
      exact (List.nodup_cons.1 hmid).1 (List.mem_append_left _ hin)
    rw [List.foldl_cons, hkey, PyDict_SetItem_append acc _ _ hnot, ih]
    · simp
    · simpa using hnd

theorem New.to_dict_eq {P T : Type} [DecidableEq P] (build_pair : P → T → P × DepthValue)
    (hkey : ∀ d t, (build_pair d t).1 = d) (md : List (P × T))
    (hnd : (md.map Prod.fst).Nodup) :
    New.DepthHelper.to_dict build_pair md
      = md.map (fun level => (level.1, (build_pair level.1 level.2).2)) := by
  unfold New.DepthHelper.to_dict
  rw [New.to_dict_fold build_pair hkey md [] (by simpa using hnd)]
  simp

/-- The dictionary built from levels with pairwise distinct prices has the
prices as keys, one item per level, and `build_pair`'s value under each price. -/
theorem New.to_dict_spec {P T : Type} [DecidableEq P] (build_pair : P → T → P × DepthValue)
    (hkey : ∀ d t, (build_pair d t).1 = d) (md : List (P × T))
    (hnd : (md.map Prod.fst).Nodup) :
    (New.DepthHelper.to_dict build_pair md).map Prod.fst = md.map Prod.fst ∧
    (New.DepthHelper.to_dict build_pair md).length = md.length ∧
    ∀ level ∈ md, PyDict_GetItem (New.DepthHelper.to_dict build_pair md) level.1
      = some (build_pair level.1 level.2).2 := by
  rw [New.to_dict_eq build_pair hkey md hnd]
  refine ⟨by simp [List.map_map, Function.comp_def], by simp, ?_⟩
  intro level hl
  apply PyDict_GetItem_of_mem
  · simpa [List.map_map, Function.comp_def] using hnd
  · exact List.mem_map.2 ⟨level, hl, rfl⟩

/-- C10: in the 2017 binding, for a depth `n > 0` and a book query that
returns the levels `md` (a `std::map`, so with pairwise distinct prices),
`bid_depth(n)` and `ask_depth(n)` hand back a dictionary whose keys are the
prices of `md`, with one item per level and the level's size under its price;
`market_depth(n)` does the same with the pair `(size, side)` as value. -/
theorem C10_depth_queries_build_mapping {P : Type} [DecidableEq P] (ob : DepthInterface P)
    (convert : ExceptionConverter) (depth : Int) (hpos : 0 < depth) (hlong : is_long depth) :
    (∀ md, ob.bid_depth depth.toNat = .returned md → (md.map Prod.fst).Nodup →
      ∃ dict, New.SOB_market_depth .bid ob convert (.ok depth)
          = ⟨.ok dict, [.bid_depth depth.toNat]⟩ ∧
        dict.map Prod.fst = md.map Prod.fst ∧ dict.length = md.length ∧
        ∀ level ∈ md, PyDict_GetItem dict level.1 = some (.size level.2)) ∧
    (∀ md, ob.ask_depth depth.toNat = .returned md → (md.map Prod.fst).Nodup →
      ∃ dict, New.SOB_market_depth .ask ob convert (.ok depth)
          = ⟨.ok dict, [.ask_depth depth.toNat]⟩ ∧
        dict.map Prod.fst = md.map Prod.fst ∧ dict.length = md.length ∧
        ∀ level ∈ md, PyDict_GetItem dict level.1 = some (.size level.2)) ∧
    (∀ md, ob.market_depth depth.toNat = .returned md → (md.map Prod.fst).Nodup →
      ∃ dict, New.SOB_market_depth .both ob convert (.ok depth)
          = ⟨.ok dict, [.market_depth depth.toNat]⟩ ∧
        dict.map Prod.fst = md.map Prod.fst ∧ dict.length = md.length ∧
        ∀ level ∈ md, PyDict_GetItem dict level.1
          = some (.size_side level.2.1 level.2.2)) := by
  have hsz : to_size_t depth = depth.toNat := to_size_t_of_pos depth hlong hpos
  have hnot : ¬ depth ≤ 0 := by omega
  refine ⟨?_, ?_, ?_⟩
  · intro md hmd hnd
    refine ⟨New.DepthHelper.to_dict New.DepthHelper.build_pair_size md, ?_,
      New.to_dict_spec _ (fun _ _ => rfl) md hnd⟩
    simp only [New.SOB_market_depth, if_neg hnot, hsz, New.DepthHelper.get_to_dict, hmd]
  · intro md hmd hnd
    refine ⟨New.DepthHelper.to_dict New.DepthHelper.build_pair_size md, ?_,
      New.to_dict_spec _ (fun _ _ => rfl) md hnd⟩
    simp only [New.SOB_market_depth, if_neg hnot, hsz, New.DepthHelper.get_to_dict, hmd]
  · intro md hmd hnd
    refine ⟨New.DepthHelper.to_dict New.DepthHelper.build_pair_side md, ?_,
      New.to_dict_spec _ (fun _ _ => rfl) md hnd⟩
    simp only [New.SOB_market_depth, if_neg hnot, hsz, New.DepthHelper.get_to_dict, hmd]

/-- Witness for C10: `bid_depth(2)` on a book with bids at 98 and 99. -/
theorem C10_depth_queries_build_mapping_witness :
    0 < (2 : Int) ∧ is_long 2 ∧
    sample_depth_book.bid_depth (2 : Int).toNat = .returned [(98, 5), (99, 7)] ∧
    ∃ dict, New.SOB_market_depth .bid sample_depth_book sample_convert (.ok 2)
        = ⟨.ok dict, [.bid_depth (2 : Int).toNat]⟩ ∧
      dict.map Prod.fst = [(98, 5), (99, 7)].map Prod.fst ∧
      dict.length = [(98, 5), (99, 7)].length ∧
      ∀ level ∈ [(98, 5), (99, 7)], PyDict_GetItem dict level.1 = some (.size level.2) :=
  ⟨by decide, by decide, rfl,
    (C10_depth_queries_build_mapping sample_depth_book sample_convert 2 (by decide)
      (by decide)).1 [(98, 5), (99, 7)] rfl (by decide)⟩

theorem Old.market_depth_loop_eq {P : Type} (md : List (P × Nat)) :
    ∀ (n : Nat) (done : List (Option (P × Nat))), md.length ≤ n →
      Old.market_depth_loop md (List.replicate n none ++ done, n)
        = (List.replicate (n - md.length) none ++ (md.reverse.map some ++ done),
            n - md.length) := by
  induction md with
  | nil => intro n done _; simp [Old.market_depth_loop]
  | cons elem rest ih =>
    intro n done hn
    obtain ⟨m, rfl⟩ : ∃ m, n = m + 1 := ⟨n - 1, by simp at hn; omega⟩
    have hset : (List.replicate (m + 1) (none : Option (P × Nat)) ++ done).set m (some elem)
        = List.replicate m none ++ (some elem :: done) := by
      rw [List.replicate_succ', List.append_assoc]
      rw [List.set_append_right _ _ (by simp)]
      simp
    have hlen : rest.length ≤ m := by simp at hn; omega
    have step : Old.market_depth_loop (elem :: rest) (List.replicate (m + 1) none ++ done, m + 1)
        = Old.market_depth_loop rest (List.replicate m none ++ (some elem :: done), m) := by
      simp only [Old.market_depth_loop, List.foldl_cons, Nat.add_sub_cancel, hset]
    rw [step, ih m (some elem :: done) hlen]
    simp [Nat.add_sub_add_right]

theorem Old.market_depth_fills_all {P : Type} (md : List (P × Nat)) :
    (Old.market_depth_loop md (List.replicate md.length none, md.length)).1
      = md.reverse.map some := by
  have h := Old.market_depth_loop_eq md md.length [] le_rfl
  simp only [List.append_nil, Nat.sub_self, List.replicate_zero, List.nil_append] at h
  rw [h]

/-- C11: in the 2015 binding, for a depth `n > 0`, a depth query whose book
result holds more than `n` levels (`bid_depth`, `ask_depth`) or more than `2n`
levels (`market_depth`) ends with the `sob::invalid_state` error
"market_depth size too large", raised as a Python `Exception`, and hands back no
list; a result within the bound is handed back as a list with one filled slot
per level. -/
theorem C11_depth_size_check {P : Type} (Side : side_of_market) (sob : Old.DepthInterface P)
    (depth : Int) (md : List (P × Nat)) (hpos : 0 < depth) (hlong : is_long depth)
    (hmd : (Old.market_depth_query Side sob depth.toNat).2 = .returned md) :
    (md.length > (if Side = side_of_market.both then 2 * depth.toNat else depth.toNat) →
      (Old.SOB_market_depth Side sob (some depth)).result
        = .error PyExc.Exception "sob::invalid_state: market_depth size too large") ∧
    (md.length ≤ (if Side = side_of_market.both then 2 * depth.toNat else depth.toNat) →
      ∃ list, (Old.SOB_market_depth Side sob (some depth)).result = .ok list ∧
        list.length = md.length ∧ (∀ slot ∈ list, slot ≠ none) ∧
        list.Perm (md.map some)) := by
  have hsz : to_size_t depth = depth.toNat := to_size_t_of_pos depth hlong hpos
  have hnot : ¬ depth ≤ 0 := by omega
  have h2 : (depth.toNat * 2) % 2 ^ 64 = 2 * depth.toNat := by
    obtain ⟨_, hlt⟩ := hlong
    rw [Nat.mod_eq_of_lt (by omega)]; omega
  have herr : Old.market_depth_size_error Side md.length depth
      = decide (md.length > (if Side = side_of_market.both then 2 * depth.toNat
          else depth.toNat)) := by
    cases Side
    · simp [Old.market_depth_size_error, hsz]
    · simp [Old.market_depth_size_error, hsz]
    · simp only [Old.market_depth_size_error, hsz, h2]
      simp
  have hq : Old.market_depth_query Side sob depth.toNat
      = ((Old.market_depth_query Side sob depth.toNat).1, .returned md) := by
    rw [← hmd]
  constructor
  · intro hgt
    simp only [Old.SOB_market_depth, Old.MethodArgs.extract, if_neg hnot, hsz]
    rw [hq]
    simp only [herr, hgt, decide_True, if_true]
    rfl
  · intro hle
    have hng : ¬ md.length > (if Side = side_of_market.both then 2 * depth.toNat
        else depth.toNat) := by omega
    refine ⟨md.reverse.map some, ?_, by simp, ?_, ?_⟩
    · simp only [Old.SOB_market_depth, Old.MethodArgs.extract, if_neg hnot, hsz]
      rw [hq]
      simp only [herr, hng, decide_False, Old.market_depth_fills_all]
      rfl
    · intro slot hs
      obtain ⟨e, _, rfl⟩ := List.mem_map.1 hs
      simp
    · exact (List.reverse_perm md).map some

/-- Witness for C11: `market_depth(1)` on a book that hands back four levels. -/
theorem C11_depth_size_check_witness :
    0 < (1 : Int) ∧ is_long 1 ∧
    (Old.market_depth_query side_of_market.both sample_old_depth_book (1 : Int).toNat).2
      = .returned [(98, 5), (99, 7), (101, 4), (102, 6)] ∧
    [(98, 5), (99, 7), (101, 4), (102, 6)].length > 2 * (1 : Int).toNat ∧
    (Old.SOB_market_depth side_of_market.both sample_old_depth_book (some 1)).result
      = .error PyExc.Exception "sob::invalid_state: market_depth size too large" :=
  ⟨by decide, by decide, rfl, by decide,
    (C11_depth_size_check side_of_market.both sample_old_depth_book 1
      [(98, 5), (99, 7), (101, 4), (102, 6)] (by decide) (by decide) rfl).1 (by decide)⟩

theorem Old.exec_callback_args {P : Type} (code : callback_msg → Nat) (msg : callback_msg)
    (id : Nat) (price : P) (size : Nat) :
    Py_BuildValue ['k', 'k', 'd', 'k']
        [CValue.ulong (code msg), CValue.ulong id, CValue.double price, CValue.ulong size]
      = some [PyValue.long (code msg), PyValue.long id, PyValue.float price,
          PyValue.long size] := by
  simp [Py_BuildValue]

/-- C12: for every notification `(msg, id, price, size)`, the 2015
`ExecCallbackWrap::operator()` adds exactly one call to the calls made so far:
a call of the wrapped callback with the four positional arguments message, id,
price, size, in this order, each holding the value the engine passed. -/
theorem C12_callback_called_once_with_four_args {P : Type} (code : callback_msg → Nat)
    (run : PyCall P → CallOutcome) (cb : PyObject) (msg : callback_msg) (id : Nat)
    (price : P) (size : Nat) (st : Interp P) :
    (Old.ExecCallbackWrap.call code run cb msg id price size st).2.calls
      = st.calls ++ [⟨cb, [PyValue.long (code msg), PyValue.long id, PyValue.float price,
          PyValue.long size]⟩] := by
  simp only [Old.ExecCallbackWrap.call, Old.exec_callback_args, Option.getD_some,
    PyObject_CallObject]
  cases run ⟨cb, [PyValue.long (code msg), PyValue.long id, PyValue.float price,
    PyValue.long size]⟩ <;> rfl

/-- C13 as stated fails: when the user's callback raises `ValueError("boom")`,
the 2015 `ExecCallbackWrap::operator()` returns with that exception still
pending in the interpreter and with nothing reported; it is neither caught nor
reported out-of-band. -/
theorem C13_exception_left_pending_counterexample :
    (Old.ExecCallbackWrap.call sample_code sample_raising ⟨7, true⟩ callback_msg.fill 1 50 4
        sample_interp).2.pending = some (PyExc.ValueError, "boom") ∧
    (Old.ExecCallbackWrap.call sample_code sample_raising ⟨7, true⟩ callback_msg.fill 1 50 4
        sample_interp).2.reported = [] := by
  decide

/-- C13 (amended): for every outcome of the callback the 2015
`ExecCallbackWrap::operator()` returns normally to the engine after calling the
callback once.  It does not look at the outcome: nothing is reported, a raised
exception is left as the interpreter's pending error, and without a raised
exception the pending error is as it was before. -/
theorem C13_wrapper_returns_normally {P : Type} (code : callback_msg → Nat)
    (run : PyCall P → CallOutcome) (cb : PyObject) (msg : callback_msg) (id : Nat)
    (price : P) (size : Nat) (st : Interp P) :
    (Old.ExecCallbackWrap.call code run cb msg id price size st).1 = .returned () ∧
    (Old.ExecCallbackWrap.call code run cb msg id price size st).2.calls.length
      = st.calls.length + 1 ∧
    (Old.ExecCallbackWrap.call code run cb msg id price size st).2.reported = st.reported ∧
    (Old.ExecCallbackWrap.call code run cb msg id price size st).2.pending
      = (match run ⟨cb, [PyValue.long (code msg), PyValue.long id, PyValue.float price,
            PyValue.long size]⟩ with
          | .returned => st.pending
          | .raised exc text => some (exc, text)) := by
  simp only [Old.ExecCallbackWrap.call, Old.exec_callback_args, Option.getD_some,
    PyObject_CallObject]
  cases run ⟨cb, [PyValue.long (code msg), PyValue.long id, PyValue.float price,
    PyValue.long size]⟩ <;> simp

/-- C14: in the method table of either revision, for each order kind, side and
form there is exactly one entry named `[replace_with_]<side>_<kind>`, and it is
bound to `SOB_trade_<kind>` with the first template flag true exactly for `buy`
and the second exactly for `replace_with_`; the entries bound to a
`SOB_trade_<kind>` function are these 16 and no others. -/
theorem C14_method_table_trade_entries (kind : order_type) (buy replace : Bool) :
    Old.pySOB_methods.filter (fun e => e.ml_name = trade_method_name kind buy replace)
      = [⟨trade_method_name kind buy replace, Handler.trade kind buy replace⟩] ∧
    New.pySOB_methods.filter (fun e => e.ml_name = trade_method_name kind buy replace)
      = [⟨trade_method_name kind buy replace, Handler.trade kind buy replace⟩] ∧
    Old.pySOB_methods.filter (fun e => e.ml_meth = Handler.trade kind buy replace)
      = [⟨trade_method_name kind buy replace, Handler.trade kind buy replace⟩] ∧
    New.pySOB_methods.filter (fun e => e.ml_meth = Handler.trade kind buy replace)
      = [⟨trade_method_name kind buy replace, Handler.trade kind buy replace⟩] ∧
    (Old.pySOB_methods.filter (fun e => e.ml_meth.is_trade)).length = 16 ∧
    (New.pySOB_methods.filter (fun e => e.ml_meth.is_trade)).length = 16 := by
  cases kind <;> cases buy <;> cases replace <;> decide

theorem to_size_t_of_nonneg (arg : Int) (h : is_long arg) (hpos : 0 ≤ arg) :
    to_size_t arg = arg.toNat := by
  unfold to_size_t
  obtain ⟨_, h2⟩ := h
  rw [Int.emod_eq_of_lt (by omega) (by omega)]

/-- C15: a stop-limit request with parsed stop `s` and limit `l` reaches the
book's stop-order call with `s` as stop and `l` as limit, with the handler's
side and the parsed size, in both revisions and in both forms.  In the 2015
binding the keywords accepted are, in order, `stop`, `limit`, `size`, `callback`,
with `id` in front for the replace form, and each is stored in the local of the
same name. -/
theorem C15_stop_limit_forwarding {P : Type} (BuyNotSell Replace : Bool)
    (sob : OrderInterface P) (convert : ExceptionConverter)
    (wrap_cb : Option PyObject → PyObject) (v : OrderValues P) (w : New.OrderArgs P)
    (hv : 0 < v.size) (hvl : is_long v.size) (hc : PyCallable_Check v.cb = true)
    (hw : 0 ≤ w.size) (hwl : is_long w.size) :
    (Old.SOB_trade_stop_limit BuyNotSell Replace sob (some v)).calls
      = [if Replace then
          BookCall.replace_with_stop_limit_order v.id BuyNotSell v.stop v.limit v.size.toNat v.cb
         else BookCall.insert_stop_limit_order BuyNotSell v.stop v.limit v.size.toNat v.cb] ∧
    (New.SOB_trade_stop_limit BuyNotSell Replace sob convert wrap_cb (.ok w)).calls
      = [if Replace then
          BookCall.replace_with_stop_limit_order w.id BuyNotSell w.stop w.limit w.size.toNat
            (wrap_cb w.cb)
         else BookCall.insert_stop_limit_order BuyNotSell w.stop w.limit w.size.toNat
            (wrap_cb w.cb)] ∧
    Old.OrderMethodArgs.extract_kptr true order_type.stop_limit
      = [some "id", some "stop", some "limit", some "size", some "callback", none] ∧
    Old.OrderMethodArgs.extract_kptr false order_type.stop_limit
      = [some "stop", some "limit", some "size", some "callback", none] ∧
    (Old.OrderMethodArgs.extract_kptr Replace order_type.stop_limit).zip
        (Old.OrderMethodArgs.extract_ptrs Replace order_type.stop_limit v)
      = (if Replace then [(some "id", CArg.ulong_ptr v.id)] else []) ++
          [(some "stop", CArg.double_ptr v.stop), (some "limit", CArg.double_ptr v.limit),
            (some "size", CArg.long_ptr v.size), (some "callback", CArg.object_ptr v.cb)] ∧
    Old.OrderMethodArgs.extract_frmt Replace order_type.stop_limit
      = (if Replace then ['k'] else []) ++ ['d', 'd', 'l', 'O', ':', 'c', 'a', 'l', 'l', 'b',
          'a', 'c', 'k'] := by
  have hsv : to_size_t v.size = v.size.toNat := to_size_t_of_pos _ hvl hv
  have hsw : to_size_t w.size = w.size.toNat := to_size_t_of_nonneg _ hwl hw
  have hns : ¬ v.size ≤ 0 := by omega
  simp only [PyCallable_Check] at hc
  have hex : Old.OrderMethodArgs.extract Replace order_type.stop_limit (some v) = .ok v := by
    rw [Old.extract_some]; simp [hc, hns]
  refine ⟨?_, ?_, rfl, rfl, ?_, ?_⟩
  · rw [Old.SOB_trade_stop_limit, hex]
    simp only [Old.call_book_calls, hsv]
  · simp only [New.SOB_trade_stop_limit, hsw]
    cases sob (if Replace then
        BookCall.replace_with_stop_limit_order w.id BuyNotSell w.stop w.limit w.size.toNat
          (wrap_cb w.cb)
      else BookCall.insert_stop_limit_order BuyNotSell w.stop w.limit w.size.toNat
        (wrap_cb w.cb)) <;> rfl
  · cases Replace <;> rfl
  · cases Replace <;> rfl

/-- Witness for C15: a replace-with-buy-stop-limit request, stop 49, limit 50. -/
theorem C15_stop_limit_forwarding_witness :
    0 < sample_order.size ∧ is_long sample_order.size ∧
    PyCallable_Check sample_order.cb = true ∧
    (Old.SOB_trade_stop_limit true true sample_engine (some sample_order)).calls
      = [BookCall.replace_with_stop_limit_order 0 true 49 50 10 ⟨7, true⟩] ∧
    (New.SOB_trade_stop_limit true true sample_engine sample_convert sample_wrap_cb
        (.ok ⟨3, 49, 50, 10, none⟩)).calls
      = [BookCall.replace_with_stop_limit_order 3 true 49 50 10 ⟨0, true⟩] :=
  ⟨by decide, by decide, rfl,
    (C15_stop_limit_forwarding true true sample_engine sample_convert sample_wrap_cb
      sample_order ⟨3, 49, 50, 10, none⟩ (by decide) (by decide) rfl (by decide)
      (by decide)).1,
    (C15_stop_limit_forwarding true true sample_engine sample_convert sample_wrap_cb
      sample_order ⟨3, 49, 50, 10, none⟩ (by decide) (by decide) rfl (by decide)
      (by decide)).2.1⟩

theorem Double.lt_zero_of_nonneg (x : Double) (h : Double.le (.fin 0) x = true) :
    Double.lt x (.fin 0) = false := by
  cases x with
  | nan => simp [Double.le, Double.lt, Double.eq] at h
  | neg_inf => simp [Double.le, Double.lt, Double.eq] at h
  | pos_inf => rfl
  | fin q =>
    simp only [Double.le, Double.lt, Double.eq, Bool.or_eq_true, decide_eq_true_eq,
      Double.fin.injEq] at h
    simp only [Double.lt, decide_eq_false_iff_not, not_lt]
    rcases h with h | h
    · exact le_of_lt h
    · exact le_of_eq h

theorem New.range_bounds_eq (ob : RangeInterface) (m M : Double)
    (hm : ob.min_price = .returned m) (hM : ob.max_price = .returned M)
    (lower upper : Option Double)
    (hl : ∀ x, lower = some x → Double.le (.fin 0) x = true)
    (hu : ∀ x, upper = some x → Double.le (.fin 0) x = true) :
    New.range_bounds ob (lower.getD (.fin (-1))) (upper.getD (.fin (-1)))
      = (.returned (lower.getD m, upper.getD M),
          (if lower = none then [RangeCall.min_price] else []) ++
            (if upper = none then [RangeCall.max_price] else [])) := by
  have hneg : Double.lt (.fin (-1)) (.fin 0) = true := by decide
  cases lower with
  | none =>
    cases upper with
    | none => simp [New.range_bounds, hneg, hm, hM]
    | some u =>
      simp [New.range_bounds, hneg, hm, Double.lt_zero_of_nonneg u (hu u rfl)]
  | some l =>
    cases upper with
    | none => simp [New.range_bounds, hneg, hM, Double.lt_zero_of_nonneg l (hl l rfl)]
    | some u =>
      simp [New.range_bounds, Double.lt_zero_of_nonneg l (hl l rfl),
        Double.lt_zero_of_nonneg u (hu u rfl)]

/-- C16: in the 2017 binding, with a book whose `min_price()` is `m` and whose
`max_price()` is `M`, `ticks_in_range` and `tick_memory_required` ask the book
for the range from `lower` (or `m` when `lower` is omitted) to `upper` (or `M`
when `upper` is omitted); a bound that is given and not negative is forwarded
as it is, and `min_price()` / `max_price()` are called only for an omitted
bound. -/
theorem C16_range_defaults (ob : RangeInterface) (convert : ExceptionConverter)
    (m M : Double) (hm : ob.min_price = .returned m) (hM : ob.max_price = .returned M)
    (lower upper : Option Double)
    (hl : ∀ x, lower = some x → Double.le (.fin 0) x = true)
    (hu : ∀ x, upper = some x → Double.le (.fin 0) x = true) :
    (New.SOB_ticks_in_range ob convert (.ok (lower, upper))).calls
      = (if lower = none then [RangeCall.min_price] else []) ++
          (if upper = none then [RangeCall.max_price] else []) ++
          [RangeCall.ticks_in_range (lower.getD m) (upper.getD M)] ∧
    (New.SOB_tick_memory_required ob convert (.ok (lower, upper))).calls
      = (if lower = none then [RangeCall.min_price] else []) ++
          (if upper = none then [RangeCall.max_price] else []) ++
          [RangeCall.tick_memory_required (lower.getD m) (upper.getD M)] := by
  have hb := New.range_bounds_eq ob m M hm hM lower upper hl hu
  constructor
  · simp only [New.SOB_ticks_in_range, hb]
    cases ob.ticks_in_range (lower.getD m) (upper.getD M) <;> rfl
  · simp only [New.SOB_tick_memory_required, hb]
    cases ob.tick_memory_required (lower.getD m) (upper.getD M) <;> rfl

/-- Witness for C16: `ticks_in_range(upper=50)` on a book from 1 to 100. -/
theorem C16_range_defaults_witness :
    sample_range_book.min_price = .returned (.fin 1) ∧
    sample_range_book.max_price = .returned (.fin 100) ∧
    (∀ x, (none : Option Double) = some x → Double.le (.fin 0) x = true) ∧
    (∀ x, some (Double.fin 50) = some x → Double.le (.fin 0) x = true) ∧
    (New.SOB_ticks_in_range sample_range_book sample_convert
        (.ok (none, some (.fin 50)))).calls
      = [RangeCall.min_price, RangeCall.ticks_in_range (.fin 1) (.fin 50)] :=
  ⟨rfl, rfl, (fun _ h => by cases h), (fun _ h => by cases h; decide),
    (C16_range_defaults sample_range_book sample_convert (.fin 1) (.fin 100) rfl rfl none
      (some (.fin 50)) (fun _ h => by cases h) (fun _ h => by cases h; decide)).1⟩

/-- C17 as stated fails: `ticks_in_range(lower=-5, upper=50)` and
`tick_memory_required(lower=-5, upper=50)` on a book from 1 to 100 hand back a
count, computed for the range from `min_price()` to 50, and no error. -/
theorem C17_negative_range_price_counterexample :
    Double.lt (.fin (-5)) (.fin 0) = true ∧
    New.SOB_ticks_in_range sample_range_book sample_convert
        (.ok (some (.fin (-5)), some (.fin 50)))
      = ⟨.ok 49, [RangeCall.min_price, RangeCall.ticks_in_range (.fin 1) (.fin 50)]⟩ ∧
    New.SOB_tick_memory_required sample_range_book sample_convert
        (.ok (some (.fin (-5)), some (.fin 50)))
      = ⟨.ok 49, [RangeCall.min_price, RangeCall.tick_memory_required (.fin 1) (.fin 50)]⟩ := by
  refine ⟨by decide, ?_, ?_⟩ <;> rfl

/-- C17 (amended): in the 2017 binding a range price that is given and negative
is handled exactly as an omitted one: `ticks_in_range` and
`tick_memory_required` behave as if the caller had left that bound out, so the
book's `min_price()` (for `lower`) or `max_price()` (for `upper`) is used. -/
theorem C17_negative_range_price_as_omitted (ob : RangeInterface)
    (convert : ExceptionConverter) (x : Double) (other : Option Double)
    (hx : Double.lt x (.fin 0) = true) :
    New.SOB_ticks_in_range ob convert (.ok (some x, other))
      = New.SOB_ticks_in_range ob convert (.ok (none, other)) ∧
    New.SOB_ticks_in_range ob convert (.ok (other, some x))
      = New.SOB_ticks_in_range ob convert (.ok (other, none)) ∧
    New.SOB_tick_memory_required ob convert (.ok (some x, other))
      = New.SOB_tick_memory_required ob convert (.ok (none, other)) ∧
    New.SOB_tick_memory_required ob convert (.ok (other, some x))
      = New.SOB_tick_memory_required ob convert (.ok (other, none)) := by
  have hneg : Double.lt (.fin (-1)) (.fin 0) = true := by decide
  have h1 : ∀ u, New.range_bounds ob x u = New.range_bounds ob (.fin (-1)) u := by
    intro u; simp only [New.range_bounds, hx, hneg, if_true]
  have h2 : ∀ l, New.range_bounds ob l x = New.range_bounds ob l (.fin (-1)) := by
    intro l; simp only [New.range_bounds, hx, hneg, if_true]
  simp only [New.SOB_ticks_in_range, New.SOB_tick_memory_required, Option.getD_some,
    Option.getD_none, h1, h2, and_self]

/-- Witness for C17 (amended) with `lower = -5`. -/
theorem C17_negative_range_price_as_omitted_witness :
    Double.lt (.fin (-5)) (.fin 0) = true ∧
    New.SOB_ticks_in_range sample_range_book sample_convert
        (.ok (some (.fin (-5)), some (.fin 50)))
      = New.SOB_ticks_in_range sample_range_book sample_convert (.ok (none, some (.fin 50))) :=
  ⟨by decide,
    (C17_negative_range_price_as_omitted sample_range_book sample_convert (.fin (-5))
      (some (.fin 50)) (by decide)).1⟩

theorem Engine.first_min_none {α : Type} (key : α → Int) (l : List α) :
    Engine.first_min key l = none ↔ l = [] := by
  cases l with
  | nil => simp [Engine.first_min]
  | cons a rest =>
    simp only [Engine.first_min]
    cases Engine.first_min key rest with
    | none => simp
    | some b => by_cases h : key b < key a <;> simp [h]

theorem Engine.first_min_split {α : Type} (key : α → Int) :
    ∀ (l : List α) (h : α), Engine.first_min key l = some h →
      ∃ l1 l2, l = l1 ++ h :: l2 ∧ (∀ x ∈ l1, key h < key x) ∧ (∀ x ∈ l2, key h ≤ key x) := by
  intro l
  induction l with
  | nil => intro h hh; simp [Engine.first_min] at hh
  | cons a rest ih =>
    intro h hh
    simp only [Engine.first_min] at hh
    cases hr : Engine.first_min key rest with
    | none =>
      rw [hr] at hh
      simp only [Option.some.injEq] at hh
      subst hh
      have : rest = [] := (Engine.first_min_none key rest).1 hr
      subst this
      exact ⟨[], [], rfl, by simp, by simp⟩
    | some b =>
      rw [hr] at hh
      obtain ⟨l1, l2, hl, h1, h2⟩ := ih b hr
      by_cases hlt : key b < key a
      · simp only [hlt, if_true, Option.some.injEq] at hh
        subst hh
        refine ⟨a :: l1, l2, by simp [hl], ?_, h2⟩
        intro x hx
        rcases List.mem_cons.1 hx with rfl | hx
        · exact hlt
        · exact h1 x hx
      · simp only [hlt, if_false, Option.some.injEq] at hh
        subst hh
        refine ⟨[], rest, rfl, by simp, ?_⟩
        intro x hx
        have hbx : key b ≤ key x := by
          rw [hl] at hx
          rcases List.mem_append.1 hx with hx | hx
          · exact le_of_lt (h1 x hx)
          · rcases List.mem_cons.1 hx with rfl | hx
            · exact le_rfl
            · exact h2 x hx
        omega

theorem Engine.first_min_mem {α : Type} (key : α → Int) (l : List α) (h : α)
    (hh : Engine.first_min key l = some h) : h ∈ l := by
  obtain ⟨l1, l2, hl, _, _⟩ := Engine.first_min_split key l h hh
  rw [hl]; simp

theorem Engine.first_min_le {α : Type} (key : α → Int) (l : List α) (h : α)
    (hh : Engine.first_min key l = some h) : ∀ x ∈ l, key h ≤ key x := by
  obtain ⟨l1, l2, hl, h1, h2⟩ := Engine.first_min_split key l h hh
  intro x hx
  rw [hl] at hx
  rcases List.mem_append.1 hx with hx | hx
  · exact le_of_lt (h1 x hx)
  · rcases List.mem_cons.1 hx with rfl | hx
    · exact le_rfl
    · exact h2 x hx

theorem Engine.best_ask_spec (limits : List Engine.LimitOrder) (h : Engine.LimitOrder)
    (hh : Engine.best_ask limits = some h) :
    h ∈ limits ∧ h.buy = false ∧ ∀ x ∈ limits, x.buy = false → h.tick ≤ x.tick := by
  unfold Engine.best_ask at hh
  have hm := Engine.first_min_mem _ _ _ hh
  simp only [List.mem_filter, Bool.not_eq_true'] at hm
  refine ⟨hm.1, hm.2, ?_⟩
  intro x hx hs
  have := Engine.first_min_le _ _ _ hh x (by simp [List.mem_filter, hx, hs])
  simpa using this

theorem Engine.best_bid_spec (limits : List Engine.LimitOrder) (h : Engine.LimitOrder)
    (hh : Engine.best_bid limits = some h) :
    h ∈ limits ∧ h.buy = true ∧ ∀ x ∈ limits, x.buy = true → x.tick ≤ h.tick := by
  unfold Engine.best_bid at hh
  have hm := Engine.first_min_mem _ _ _ hh
  simp only [List.mem_filter] at hm
  refine ⟨hm.1, hm.2, ?_⟩
  intro x hx hs
  have := Engine.first_min_le _ _ _ hh x (by simp [List.mem_filter, hx, hs])
  simp only [neg_le_neg_iff, Nat.cast_le] at this
  exact this

theorem Engine.best_ask_none (limits : List Engine.LimitOrder)
    (hh : Engine.best_ask limits = none) : ∀ x ∈ limits, x.buy = true := by
  unfold Engine.best_ask at hh
  have := (Engine.first_min_none _ _).1 hh
  intro x hx
  by_contra hc
  have hmem : x ∈ limits.filter (fun o => !o.buy) := by
    simp [List.mem_filter, hx, hc]
  rw [this] at hmem
  cases hmem

theorem Engine.best_bid_none (limits : List Engine.LimitOrder)
    (hh : Engine.best_bid limits = none) : ∀ x ∈ limits, x.buy = false := by
  unfold Engine.best_bid at hh
  have := (Engine.first_min_none _ _).1 hh
  intro x hx
  by_contra hc
  have hmem : x ∈ limits.filter (fun o => o.buy) := by
    simp only [List.mem_filter]
    exact ⟨hx, by simpa using hc⟩
  rw [this] at hmem
  cases hmem

/-- The forms a step of the engine can take: a trade, the end of a match with
nothing left, the end of a match with a residual, a promotion, the end of a
sweep. -/
theorem Engine.step_cases (m m' : Engine.Machine) (h : Engine.step m = some m') :
    (∃ o rest hd, m.stack = .matching o :: rest ∧ o.size ≠ 0 ∧
        Engine.best_opposite o m.book.limits = some hd ∧ Engine.crosses o hd = true ∧
        m' = ⟨m.book.trade o hd,
          .sweep hd.tick :: .matching { o with size := o.size - min o.size hd.size } :: rest⟩) ∨
    (∃ o rest, m.stack = .matching o :: rest ∧ o.size = 0 ∧ m' = ⟨m.book, rest⟩) ∨
    (∃ o rest, m.stack = .matching o :: rest ∧ o.size ≠ 0 ∧
        (∀ hd, Engine.best_opposite o m.book.limits = some hd → Engine.crosses o hd = false) ∧
        m' = ⟨m.book.settle o, rest⟩) ∨
    (∃ t rest s, m.stack = .sweep t :: rest ∧ Engine.first_triggered t m.book.stops = some s ∧
        m' = ⟨m.book.promote s,
          .matching ⟨s.id, s.buy, s.limit, s.size⟩ :: .sweep t :: rest⟩) ∨
    (∃ t rest, m.stack = .sweep t :: rest ∧ Engine.first_triggered t m.book.stops = none ∧
        m' = ⟨m.book, rest⟩) := by
  unfold Engine.step at h
  cases hs : m.stack with
  | nil => rw [hs] at h; cases h
  | cons w rest =>
    rw [hs] at h
    cases w with
    | matching o =>
      simp only at h
      by_cases h0 : o.size = 0
      · simp only [h0, if_true, Option.some.injEq] at h
        right; left
        exact ⟨o, rest, rfl, h0, h.symm⟩
      · simp only [h0, if_false] at h
        cases hb : Engine.best_opposite o m.book.limits with
        | none =>
          rw [hb] at h
          simp only [Option.filter, Option.some.injEq] at h
          right; right; left
          exact ⟨o, rest, rfl, h0, (fun hd hhd => by rw [hb] at hhd; cases hhd), h.symm⟩
        | some hd =>
          rw [hb] at h
          by_cases hc : Engine.crosses o hd = true
          · simp only [Option.filter, hc, if_true, Option.some.injEq] at h
            left
            exact ⟨o, rest, hd, rfl, h0, hb, hc, h.symm⟩
          · simp only [Option.filter, hc, Bool.false_eq_true, if_false,
              Option.some.injEq] at h
            right; right; left
            refine ⟨o, rest, rfl, h0, ?_, h.symm⟩
            intro hd' hhd
            rw [hb] at hhd
            cases hhd
            simpa using hc
    | sweep t =>
      simp only at h
      cases ht : Engine.first_triggered t m.book.stops with
      | none =>
        rw [ht] at h
        simp only [Option.some.injEq] at h
        right; right; right; right
        exact ⟨t, rest, rfl, ht, h.symm⟩
      | some s =>
        rw [ht] at h
        simp only [Option.some.injEq] at h
        right; right; right; left
        exact ⟨t, rest, s, rfl, ht, h.symm⟩

theorem Engine.step_none_iff (m : Engine.Machine) :
    Engine.step m = none ↔ m.stack = [] := by
  constructor
  · intro h
    unfold Engine.step at h
    cases hs : m.stack with
    | nil => rfl
    | cons w rest =>
      rw [hs] at h
      cases w with
      | matching o =>
        simp only at h
        split at h
        · cases h
        · split at h <;> cases h
      | sweep t =>
        simp only at h
        split at h <;> cases h
  · intro h
    unfold Engine.step
    rw [h]

theorem Engine.best_opposite_mem (o : Engine.Incoming) (limits : List Engine.LimitOrder)
    (h : Engine.LimitOrder) (hh : Engine.best_opposite o limits = some h) :
    h ∈ limits ∧ h.buy = !o.buy := by
  unfold Engine.best_opposite at hh
  by_cases hb : o.buy = true
  · rw [if_pos hb] at hh
    have := Engine.best_ask_spec limits h hh
    exact ⟨this.1, by rw [this.2.1, hb]; rfl⟩
  · rw [if_neg hb] at hh
    have := Engine.best_bid_spec limits h hh
    have hb' : o.buy = false := by simpa using hb
    exact ⟨this.1, by rw [this.2.1, hb']; rfl⟩

theorem Engine.first_triggered_mem (t : Nat) (stops : List Engine.StopOrder)
    (s : Engine.StopOrder) (hs : Engine.first_triggered t stops = some s) : s ∈ stops := by
  unfold Engine.first_triggered at hs
  split at hs
  · next s' h1 =>
    cases hs
    exact (List.mem_filter.1 (Engine.first_min_mem _ _ _ h1)).1
  · exact (List.mem_filter.1 (Engine.first_min_mem _ _ _ hs)).1

theorem Engine.length_fill_resting_le (h : Engine.LimitOrder) (f : Nat)
    (l : List Engine.LimitOrder) : (Engine.fill_resting h f l).length ≤ l.length := by
  induction l with
  | nil => simp [Engine.fill_resting]
  | cons o rest ih =>
    simp only [Engine.fill_resting]
    split
    · split <;> simp
    · simpa using ih

theorem Engine.length_fill_resting_lt (h : Engine.LimitOrder) (f : Nat)
    (l : List Engine.LimitOrder) (hm : h ∈ l) (hf : h.size ≤ f) :
    (Engine.fill_resting h f l).length < l.length := by
  induction l with
  | nil => cases hm
  | cons o rest ih =>
    simp only [Engine.fill_resting]
    by_cases ho : o = h
    · simp [ho, hf]
    · rw [if_neg ho]
      have : h ∈ rest := by
        rcases List.mem_cons.1 hm with e | e
        · exact absurd e.symm ho
        · exact e
      simpa using ih this

theorem Engine.mem_fill_resting (h : Engine.LimitOrder) (f : Nat) (l : List Engine.LimitOrder)
    (x : Engine.LimitOrder) (hx : x ∈ Engine.fill_resting h f l) :
    ∃ y ∈ l, y.id = x.id ∧ y.buy = x.buy ∧ y.tick = x.tick ∧ x.size ≤ y.size := by
  induction l with
  | nil => simp [Engine.fill_resting] at hx
  | cons o rest ih =>
    simp only [Engine.fill_resting] at hx
    by_cases ho : o = h
    · rw [if_pos ho] at hx
      by_cases hf : h.size ≤ f
      · rw [if_pos hf] at hx
        exact ⟨x, List.mem_cons_of_mem _ hx, rfl, rfl, rfl, le_rfl⟩
      · rw [if_neg hf] at hx
        rcases List.mem_cons.1 hx with e | e
        · subst e
          exact ⟨o, List.mem_cons_self _ _, by rw [ho], by rw [ho], by rw [ho],
            by rw [ho]; exact Nat.sub_le _ _⟩
        · exact ⟨x, List.mem_cons_of_mem _ e, rfl, rfl, rfl, le_rfl⟩
    · rw [if_neg ho] at hx
      rcases List.mem_cons.1 hx with e | e
      · subst e
        exact ⟨x, List.mem_cons_self _ _, rfl, rfl, rfl, le_rfl⟩
      · obtain ⟨y, hy, h1⟩ := ih e
        exact ⟨y, List.mem_cons_of_mem _ hy, h1⟩

/-- Every step of the engine lowers the step bound. -/
theorem Engine.step_measure (m m' : Engine.Machine) (h : Engine.step m = some m') :
    m'.measure < m.measure := by
  rcases Engine.step_cases m m' h with
    ⟨o, rest, hd, hs, h0, hb, _, rfl⟩ | ⟨o, rest, hs, h0, rfl⟩ | ⟨o, rest, hs, h0, _, rfl⟩ |
    ⟨t, rest, s, hs, ht, rfl⟩ | ⟨t, rest, hs, _, rfl⟩
  · have hmem := (Engine.best_opposite_mem o _ hd hb).1
    have h1 := Engine.length_fill_resting_le hd (min o.size hd.size) m.book.limits
    have h2 : hd.size ≤ min o.size hd.size →
        (Engine.fill_resting hd (min o.size hd.size) m.book.limits).length
          < m.book.limits.length :=
      Engine.length_fill_resting_lt hd _ _ hmem
    simp only [Engine.Machine.measure, hs, Engine.Book.trade, List.map_cons, List.sum_cons]
    by_cases hc : hd.size ≤ min o.size hd.size
    · have := h2 hc
      omega
    · omega
  · simp only [Engine.Machine.measure, hs, List.map_cons, List.sum_cons]
    omega
  · simp only [Engine.Machine.measure, hs, List.map_cons, List.sum_cons, Engine.Book.settle]
    cases o.limit with
    | none => simp only; omega
    | some p => simp only [List.length_append, List.length_singleton]; omega
  · have hmem := Engine.first_triggered_mem t _ s ht
    have hsum : 2 * s.size + 6 +
        ((m.book.stops.erase s).map (fun s : Engine.StopOrder => 2 * s.size + 6)).sum
          = (m.book.stops.map (fun s : Engine.StopOrder => 2 * s.size + 6)).sum :=
      List.sum_map_erase (fun s : Engine.StopOrder => 2 * s.size + 6) hmem
    simp only [Engine.Machine.measure, hs, List.map_cons, List.sum_cons, Engine.Book.promote]
    omega
  · simp only [Engine.Machine.measure, hs, List.map_cons, List.sum_cons]
    omega

theorem Engine.run_steps_quiescent :
    ∀ (n : Nat) (m : Engine.Machine), m.measure ≤ n → (Engine.run_steps n m).stack = [] := by
  intro n
  induction n with
  | zero =>
    intro m hm
    simp only [Engine.run_steps]
    cases hs : Engine.step m with
    | none => exact (Engine.step_none_iff m).1 hs
    | some m' =>
      have := Engine.step_measure m m' hs
      omega
  | succ n ih =>
    intro m hm
    simp only [Engine.run_steps]
    cases hs : Engine.step m with
    | none => exact (Engine.step_none_iff m).1 hs
    | some m' =>
      have := Engine.step_measure m m' hs
      exact ih m' (by omega)

/-- Every top-level run ends with no work left. -/
theorem Engine.run_quiescent (m : Engine.Machine) : (Engine.run m).stack = [] :=
  Engine.run_steps_quiescent m.measure m le_rfl

/-- A property kept by every step holds after any number of steps. -/
theorem Engine.run_steps_invariant (Inv : Engine.Machine → Prop)
    (hstep : ∀ m m', Inv m → Engine.step m = some m' → Inv m') :
    ∀ (n : Nat) (m : Engine.Machine), Inv m → Inv (Engine.run_steps n m) := by
  intro n
  induction n with
  | zero => intro m hm; exact hm
  | succ n ih =>
    intro m hm
    simp only [Engine.run_steps]
    cases hs : Engine.step m with
    | none => exact hm
    | some m' => exact ih m' (hstep m m' hm hs)

theorem Engine.run_invariant (Inv : Engine.Machine → Prop)
    (hstep : ∀ m m', Inv m → Engine.step m = some m' → Inv m')
    (m : Engine.Machine) (hm : Inv m) : Inv (Engine.run m) :=
  Engine.run_steps_invariant Inv hstep m.measure m hm

theorem Engine.uncrossed_step (m m' : Engine.Machine) (hu : Engine.uncrossed m.book.limits)
    (h : Engine.step m = some m') : Engine.uncrossed m'.book.limits := by
  rcases Engine.step_cases m m' h with
    ⟨o, rest, hd, _, _, _, _, rfl⟩ | ⟨o, rest, _, _, rfl⟩ | ⟨o, rest, _, _, hno, rfl⟩ |
    ⟨t, rest, s, _, _, rfl⟩ | ⟨t, rest, _, _, rfl⟩
  · intro x hx y hy hxb hyb
    obtain ⟨x', hx', _, hxb', hxt', _⟩ := Engine.mem_fill_resting _ _ _ x hx
    obtain ⟨y', hy', _, hyb', hyt', _⟩ := Engine.mem_fill_resting _ _ _ y hy
    have := hu x' hx' y' hy' (by rw [hxb', hxb]) (by rw [hyb', hyb])
    omega
  · exact hu
  · simp only [Engine.Book.settle]
    cases hl : o.limit with
    | none => exact hu
    | some p =>
      simp only
      intro x hx y hy hxb hyb
      rcases List.mem_append.1 hx with hx | hx
      · rcases List.mem_append.1 hy with hy | hy
        · exact hu x hx y hy hxb hyb
        · simp only [List.mem_singleton] at hy
          subst hy
          simp only at hyb
          -- the settled order is a SELL at `p`; `x` is a resting BUY
          have hbo : Engine.best_opposite o m.book.limits = Engine.best_bid m.book.limits := by
            simp [Engine.best_opposite, hyb]
          cases hbb : Engine.best_bid m.book.limits with
          | none =>
            have := Engine.best_bid_none _ hbb x hx
            rw [this] at hxb; cases hxb
          | some hd =>
            have hc := hno hd (by rw [hbo, hbb])
            have hsp := Engine.best_bid_spec _ hd hbb
            have hle := hsp.2.2 x hx hxb
            simp only [Engine.crosses, hl, hyb, Bool.false_eq_true, if_false,
              decide_eq_false_iff_not, not_le] at hc
            simp only
            omega
      · simp only [List.mem_singleton] at hx
        subst hx
        simp only at hxb
        rcases List.mem_append.1 hy with hy | hy
        · have hbo : Engine.best_opposite o m.book.limits = Engine.best_ask m.book.limits := by
            simp [Engine.best_opposite, hxb]
          cases hba : Engine.best_ask m.book.limits with
          | none =>
            have := Engine.best_ask_none _ hba y hy
            rw [this] at hyb; cases hyb
          | some hd =>
            have hc := hno hd (by rw [hbo, hba])
            have hsp := Engine.best_ask_spec _ hd hba
            have hle := hsp.2.2 y hy hyb
            simp only [Engine.crosses, hl, hxb, if_true, decide_eq_false_iff_not,
              not_le] at hc
            simp only
            omega
        · simp only [List.mem_singleton] at hy
          subst hy
          simp only at hyb
          rw [hxb] at hyb; cases hyb
  · exact hu
  · exact hu

theorem Engine.uncrossed_run (m : Engine.Machine) (hu : Engine.uncrossed m.book.limits) :
    Engine.uncrossed (Engine.run m).book.limits :=
  Engine.run_invariant (fun m => Engine.uncrossed m.book.limits)
    (fun m m' hm hs => Engine.uncrossed_step m m' hm hs) m hu

theorem Engine.uncrossed_place (b : Engine.Book) (order : Engine.NewOrder)
    (hu : Engine.uncrossed b.limits) : Engine.uncrossed (b.place order).limits := by
  cases order with
  | limit buy tick size => exact Engine.uncrossed_run _ hu
  | market buy size => exact Engine.uncrossed_run _ hu
  | stop buy stop size => exact hu
  | stop_limit buy stop limit size => exact hu

theorem Engine.uncrossed_remove (b : Engine.Book) (id : Nat)
    (hu : Engine.uncrossed b.limits) : Engine.uncrossed (b.remove id).limits := by
  intro x hx y hy
  simp only [Engine.Book.remove, List.mem_filter] at hx hy
  exact hu x hx.1 y hy.1

theorem Engine.uncrossed_apply (b : Engine.Book) (op : Engine.Op)
    (hu : Engine.uncrossed b.limits) : Engine.uncrossed (Engine.apply b op).2.limits := by
  cases op with
  | insert order =>
    simp only [Engine.apply, Engine.insert]
    split
    · exact Engine.uncrossed_place b order hu
    · exact hu
  | pull id =>
    simp only [Engine.apply, Engine.pull_order]
    split
    · exact Engine.uncrossed_remove b id hu
    · exact hu
  | replace id order =>
    simp only [Engine.apply, Engine.replace, Engine.insert]
    split
    · split
      · split
        · exact Engine.uncrossed_place _ order (Engine.uncrossed_remove b id hu)
        · exact Engine.uncrossed_remove b id hu
      · exact hu
    · exact hu

theorem Engine.uncrossed_run_ops (ops : List Engine.Op) :
    ∀ b : Engine.Book, Engine.uncrossed b.limits →
      Engine.uncrossed (Engine.run_ops b ops).limits := by
  induction ops with
  | nil => intro b hu; exact hu
  | cons op rest ih =>
    intro b hu
    simp only [Engine.run_ops, List.foldl_cons]
    exact ih _ (Engine.uncrossed_apply b op hu)

/-- C19: in the engine as the specification describes it, after any finite
sequence of insert, pull and replace operations on a fresh book (each run to
completion), an inside bid and an inside ask that both exist satisfy
inside-bid tick < inside-ask tick. -/
theorem C19_book_never_crossed (ticks : Nat) (ops : List Engine.Op) (bid ask : Nat)
    (hb : Engine.inside_bid (Engine.run_ops (Engine.fresh ticks) ops) = some bid)
    (ha : Engine.inside_ask (Engine.run_ops (Engine.fresh ticks) ops) = some ask) :
    bid < ask := by
  have hu : Engine.uncrossed (Engine.run_ops (Engine.fresh ticks) ops).limits :=
    Engine.uncrossed_run_ops ops _ (by intro x hx; cases hx)
  simp only [Engine.inside_bid, Option.map_eq_some'] at hb
  simp only [Engine.inside_ask, Option.map_eq_some'] at ha
  obtain ⟨x, hx, rfl⟩ := hb
  obtain ⟨y, hy, rfl⟩ := ha
  have h1 := Engine.best_bid_spec _ x hx
  have h2 := Engine.best_ask_spec _ y hy
  exact hu x h1.1 y h2.1 h1.2.1 h2.2.1

/-- Witness for C19: a bid at 49, an ask at 51, and a buy at 51 for part of
the ask. -/
theorem C19_book_never_crossed_witness :
    Engine.inside_bid (Engine.run_ops (Engine.fresh 100)
      [.insert (.limit true 49 5), .insert (.limit false 51 5), .insert (.limit true 51 2)])
        = some 49 ∧
    Engine.inside_ask (Engine.run_ops (Engine.fresh 100)
      [.insert (.limit true 49 5), .insert (.limit false 51 5), .insert (.limit true 51 2)])
        = some 51 ∧
    49 < 51 :=
  ⟨by decide, by decide,
    C19_book_never_crossed 100
      [.insert (.limit true 49 5), .insert (.limit false 51 5), .insert (.limit true 51 2)]
      49 51 (by decide) (by decide)⟩

/-- C18: in the engine as the specification describes it, `pull_order(id)`
hands back true exactly when an order with that identifier is in the book, and
for an unknown identifier it hands back false and leaves the book as it is.  In
both revisions of the binding, `SOB_pull_order` with a parsed `id` calls the
book's `pull_order(id)` once and hands back the boolean the book returned. -/
theorem C18_pull_order (b : Engine.Book) (id : Nat) (P : Type)
    (pull_order : Nat → NativeResult Bool) (convert : ExceptionConverter) (rval : Bool) :
    ((Engine.pull_order b id).1 = .pulled true ↔
      ((∃ o ∈ b.limits, o.id = id) ∨ (∃ s ∈ b.stops, s.id = id))) ∧
    ((Engine.pull_order b id).1 = .pulled false ↔
      ¬ ((∃ o ∈ b.limits, o.id = id) ∨ (∃ s ∈ b.stops, s.id = id))) ∧
    (¬ ((∃ o ∈ b.limits, o.id = id) ∨ (∃ s ∈ b.stops, s.id = id)) →
      Engine.pull_order b id = (.pulled false, b)) ∧
    (pull_order id = .returned rval →
      Old.SOB_pull_order P pull_order (some id) = ⟨.ok rval, [.pull_order id]⟩ ∧
      New.SOB_pull_order P pull_order convert (.ok id) = ⟨.ok rval, [.pull_order id]⟩) := by
  have hex : b.has_order id = true ↔
      ((∃ o ∈ b.limits, o.id = id) ∨ (∃ s ∈ b.stops, s.id = id)) := by
    simp [Engine.Book.has_order, List.any_eq_true]
  refine ⟨?_, ?_, ?_, ?_⟩
  · rw [← hex]
    unfold Engine.pull_order
    cases b.has_order id <;> simp
  · rw [← hex]
    unfold Engine.pull_order
    cases b.has_order id <;> simp
  · intro h
    rw [← hex] at h
    unfold Engine.pull_order
    simp [h]
  · intro h
    simp [Old.SOB_pull_order, Old.MethodArgs.extract, New.SOB_pull_order, h]

/-- Witness for C18: pulling the unknown identifier 7 from a book with one
resting order, through a book stub that answers as the engine does. -/
theorem C18_pull_order_witness :
    ¬ ((∃ o ∈ (Engine.run_ops (Engine.fresh 100) [.insert (.limit false 50 5)]).limits,
          o.id = 7) ∨
        (∃ s ∈ (Engine.run_ops (Engine.fresh 100) [.insert (.limit false 50 5)]).stops,
          s.id = 7)) ∧
    Engine.pull_order (Engine.run_ops (Engine.fresh 100) [.insert (.limit false 50 5)]) 7
      = (.pulled false, Engine.run_ops (Engine.fresh 100) [.insert (.limit false 50 5)]) ∧
    Old.SOB_pull_order Nat (fun _ => .returned false) (some 7)
      = ⟨.ok false, [.pull_order 7]⟩ :=
  ⟨by decide,
    (C18_pull_order (Engine.run_ops (Engine.fresh 100) [.insert (.limit false 50 5)]) 7 Nat
      (fun _ => .returned false) sample_convert false).2.2.1 (by decide),
    ((C18_pull_order (Engine.run_ops (Engine.fresh 100) [.insert (.limit false 50 5)]) 7 Nat
      (fun _ => .returned false) sample_convert false).2.2.2 rfl).1⟩

theorem Engine.filled_append (id : Nat) (l1 l2 : List Engine.Notification) :
    Engine.filled id (l1 ++ l2) = Engine.filled id l1 + Engine.filled id l2 := by
  simp [Engine.filled]

theorem Engine.fills_in_order_from_append (a size_a b : Nat) (l1 l2 : List Engine.Notification) :
    ∀ acc, Engine.fills_in_order_from a size_a b acc (l1 ++ l2)
      = (Engine.fills_in_order_from a size_a b acc l1 &&
          Engine.fills_in_order_from a size_a b (acc + Engine.filled a l1) l2) := by
  induction l1 with
  | nil => intro acc; simp [Engine.fills_in_order_from, Engine.filled]
  | cons n rest ih =>
    intro acc
    have hf : Engine.filled a (n :: rest)
        = (if n.msg = callback_msg.fill ∧ n.id = a then n.size else 0) + Engine.filled a rest := by
      simp [Engine.filled]
    rw [List.cons_append, Engine.fills_in_order_from, Engine.fills_in_order_from, ih, hf,
      Bool.and_assoc, Nat.add_assoc]

theorem Engine.fills_in_order_append (a size_a b : Nat) (log ext : List Engine.Notification)
    (h : Engine.fills_in_order a size_a b log)
    (hext : Engine.fills_in_order_from a size_a b (Engine.filled a log) ext = true) :
    Engine.fills_in_order a size_a b (log ++ ext) := by
  unfold Engine.fills_in_order at *
  rw [Engine.fills_in_order_from_append, h]
  simpa using hext

theorem Engine.fill_resting_ids_sublist (h : Engine.LimitOrder) (f : Nat)
    (l : List Engine.LimitOrder) :
    List.Sublist ((Engine.fill_resting h f l).map (fun o => o.id)) (l.map (fun o => o.id)) := by
  induction l with
  | nil => simp [Engine.fill_resting]
  | cons o rest ih =>
    simp only [Engine.fill_resting]
    by_cases ho : o = h
    · rw [if_pos ho]
      by_cases hf : h.size ≤ f
      · rw [if_pos hf]
        simp
      · rw [if_neg hf, ho]
        simp
    · rw [if_neg ho]
      simpa using ih.cons₂ o.id

theorem Engine.mem_fill_resting_of_ne (h : Engine.LimitOrder) (f : Nat)
    (l : List Engine.LimitOrder) (x : Engine.LimitOrder)
    (hx : x ∈ Engine.fill_resting h f l) (hne : x.id ≠ h.id) : x ∈ l := by
  induction l with
  | nil => simp [Engine.fill_resting] at hx
  | cons o rest ih =>
    simp only [Engine.fill_resting] at hx
    by_cases ho : o = h
    · rw [if_pos ho] at hx
      by_cases hf : h.size ≤ f
      · rw [if_pos hf] at hx
        exact List.mem_cons_of_mem _ hx
      · rw [if_neg hf] at hx
        rcases List.mem_cons.1 hx with e | e
        · exact absurd (by rw [e]) hne
        · exact List.mem_cons_of_mem _ e
    · rw [if_neg ho] at hx
      rcases List.mem_cons.1 hx with e | e
      · rw [e]; exact List.mem_cons_self _ _
      · exact List.mem_cons_of_mem _ (ih e)

theorem Engine.fill_resting_mem_of_ne (h : Engine.LimitOrder) (f : Nat)
    (l : List Engine.LimitOrder) (x : Engine.LimitOrder) (hx : x ∈ l) (hne : x ≠ h) :
    x ∈ Engine.fill_resting h f l := by
  induction l with
  | nil => cases hx
  | cons o rest ih =>
    simp only [Engine.fill_resting]
    by_cases ho : o = h
    · rw [if_pos ho]
      have hx' : x ∈ rest := by
        rcases List.mem_cons.1 hx with e | e
        · exact absurd (e.trans ho) hne
        · exact e
      split
      · exact hx'
      · exact List.mem_cons_of_mem _ hx'
    · rw [if_neg ho]
      rcases List.mem_cons.1 hx with e | e
      · rw [e]; exact List.mem_cons_self _ _
      · exact List.mem_cons_of_mem _ (ih e)

theorem Engine.fill_resting_partial_mem (h : Engine.LimitOrder) (f : Nat)
    (l : List Engine.LimitOrder) (hm : h ∈ l) (hf : ¬ h.size ≤ f) :
    ({ h with size := h.size - f } : Engine.LimitOrder) ∈ Engine.fill_resting h f l := by
  induction l with
  | nil => cases hm
  | cons o rest ih =>
    simp only [Engine.fill_resting]
    by_cases ho : o = h
    · rw [if_pos ho, if_neg hf]
      exact List.mem_cons_self _ _
    · rw [if_neg ho]
      have : h ∈ rest := by
        rcases List.mem_cons.1 hm with e | e
        · exact absurd e.symm ho
        · exact e
      exact List.mem_cons_of_mem _ (ih this)

theorem Engine.fill_resting_same_id (h : Engine.LimitOrder) (f : Nat)
    (l : List Engine.LimitOrder) (hnd : (l.map (fun o => o.id)).Nodup) (hm : h ∈ l)
    (x : Engine.LimitOrder) (hx : x ∈ Engine.fill_resting h f l) (hid : x.id = h.id) :
    x = { h with size := h.size - f } ∧ ¬ h.size ≤ f := by
  induction l with
  | nil => cases hm
  | cons o rest ih =>
    simp only [List.map_cons, List.nodup_cons, List.mem_map, not_exists, not_and] at hnd
    simp only [Engine.fill_resting] at hx
    by_cases ho : o = h
    · rw [if_pos ho] at hx
      by_cases hf : h.size ≤ f
      · rw [if_pos hf] at hx
        exact absurd (hid.trans (by rw [ho])) (hnd.1 x hx)
      · rw [if_neg hf] at hx
        rcases List.mem_cons.1 hx with e | e
        · exact ⟨e, hf⟩
        · exact absurd (hid.trans (by rw [ho])) (hnd.1 x e)
    · rw [if_neg ho] at hx
      have hm' : h ∈ rest := by
        rcases List.mem_cons.1 hm with e | e
        · exact absurd e.symm ho
        · exact e
      rcases List.mem_cons.1 hx with e | e
      · rw [e] at hid
        exact absurd hid.symm (hnd.1 h hm')
      · exact ih hnd.2 hm' e

theorem Engine.sublist_fill_resting (h : Engine.LimitOrder) (f : Nat)
    (l : List Engine.LimitOrder) :
    ∀ s : List Nat, List.Sublist s (l.map (fun o => o.id)) → h.id ∉ s →
      List.Sublist s ((Engine.fill_resting h f l).map (fun o => o.id)) := by
  induction l with
  | nil => intro s hs _; simpa [Engine.fill_resting] using hs
  | cons o rest ih =>
    intro s hs hns
    simp only [Engine.fill_resting]
    by_cases ho : o = h
    · rw [if_pos ho]
      have hs' : List.Sublist s (rest.map (fun o => o.id)) := by
        simp only [List.map_cons] at hs
        cases hs with
        | cons _ h1 => exact h1
        | cons₂ _ h1 =>
          rw [ho] at hns
          exact absurd (List.mem_cons_self _ _) hns
      split
      · exact hs'
      · simpa using hs'.cons h.id
    · rw [if_neg ho]
      simp only [List.map_cons] at hs ⊢
      cases hs with
      | cons _ h1 => exact (ih _ h1 hns).cons _
      | cons₂ _ h1 =>
        exact (ih _ h1 (fun hmem => hns (List.mem_cons_of_mem _ hmem))).cons₂ _

theorem Engine.stack_ids_matching (o : Engine.Incoming) (rest : List Engine.Work) :
    Engine.stack_ids (.matching o :: rest) = o.id :: Engine.stack_ids rest := by
  simp [Engine.stack_ids]

theorem Engine.stack_ids_sweep (t : Nat) (rest : List Engine.Work) :
    Engine.stack_ids (.sweep t :: rest) = Engine.stack_ids rest := by
  simp [Engine.stack_ids]

theorem Engine.mem_stack_ids (x : Nat) (stack : List Engine.Work) :
    x ∈ Engine.stack_ids stack ↔ ∃ o, Engine.Work.matching o ∈ stack ∧ o.id = x := by
  induction stack with
  | nil => simp [Engine.stack_ids]
  | cons w rest ih =>
    cases w with
    | matching o =>
      rw [Engine.stack_ids_matching, List.mem_cons, ih]
      constructor
      · rintro (h | ⟨o', h1, h2⟩)
        · exact ⟨o, List.mem_cons_self _ _, h.symm⟩
        · exact ⟨o', List.mem_cons_of_mem _ h1, h2⟩
      · rintro ⟨o', h1, h2⟩
        rcases List.mem_cons.1 h1 with e | e
        · cases e; exact Or.inl h2.symm
        · exact Or.inr ⟨o', e, h2⟩
    | sweep t =>
      rw [Engine.stack_ids_sweep, ih]
      constructor
      · rintro ⟨o', h1, h2⟩
        exact ⟨o', List.mem_cons_of_mem _ h1, h2⟩
      · rintro ⟨o', h1, h2⟩
        rcases List.mem_cons.1 h1 with e | e
        · cases e
        · exact ⟨o', e, h2⟩

theorem Engine.step_next_id (m m' : Engine.Machine) (h : Engine.step m = some m') :
    m'.book.next_id = m.book.next_id := by
  rcases Engine.step_cases m m' h with
    ⟨o, rest, hd, _, _, _, _, rfl⟩ | ⟨o, rest, _, _, rfl⟩ | ⟨o, rest, _, _, _, rfl⟩ |
    ⟨t, rest, s, _, _, rfl⟩ | ⟨t, rest, _, _, rfl⟩
  · rfl
  · rfl
  · simp only [Engine.Book.settle]
    cases o.limit <;> rfl
  · rfl
  · rfl

/-- No step brings in an identifier: each identifier is held at most as often
after a step as before. -/
theorem Engine.step_ids_count (m m' : Engine.Machine) (h : Engine.step m = some m') (a : Nat) :
    m'.ids.count a ≤ m.ids.count a := by
  rcases Engine.step_cases m m' h with
    ⟨o, rest, hd, hs, _, _, _, rfl⟩ | ⟨o, rest, hs, _, rfl⟩ | ⟨o, rest, hs, _, _, rfl⟩ |
    ⟨t, rest, s, hs, ht, rfl⟩ | ⟨t, rest, hs, _, rfl⟩
  · have := (Engine.fill_resting_ids_sublist hd (min o.size hd.size) m.book.limits).count_le a
    simp only [Engine.Machine.ids, hs, Engine.Book.trade, Engine.stack_ids_sweep,
      Engine.stack_ids_matching, List.count_append]
    omega
  · simp only [Engine.Machine.ids, hs, Engine.stack_ids_matching, List.count_append,
      List.count_cons]
    omega
  · simp only [Engine.Machine.ids, hs, Engine.Book.settle, Engine.stack_ids_matching]
    cases o.limit with
    | none =>
      simp only [List.count_append, List.count_cons]
      omega
    | some p =>
      simp only [List.map_append, List.map_cons, List.map_nil, List.count_append,
        List.count_cons, List.count_nil]
      omega
  · have hmem := Engine.first_triggered_mem t _ s ht
    have hp := ((List.perm_cons_erase hmem).map (fun s : Engine.StopOrder => s.id)).count_eq a
    simp only [List.map_cons, List.count_cons] at hp
    simp only [Engine.Machine.ids, hs, Engine.Book.promote, Engine.stack_ids_sweep,
      Engine.stack_ids_matching, List.count_append, List.count_cons]
    omega
  · simp only [Engine.Machine.ids, hs, Engine.stack_ids_sweep]
    exact le_rfl

/-- Every notification a step adds is for an order the machine held. -/
theorem Engine.step_log (m m' : Engine.Machine) (h : Engine.step m = some m') :
    ∀ n ∈ m'.book.log, n ∈ m.book.log ∨ n.id ∈ m.ids := by
  rcases Engine.step_cases m m' h with
    ⟨o, rest, hd, hs, _, hb, _, rfl⟩ | ⟨o, rest, hs, _, rfl⟩ | ⟨o, rest, hs, _, _, rfl⟩ |
    ⟨t, rest, s, hs, ht, rfl⟩ | ⟨t, rest, hs, _, rfl⟩
  · intro n hn
    have hmem := (Engine.best_opposite_mem o _ hd hb).1
    simp only [Engine.Book.trade, List.mem_append, List.mem_cons, List.mem_singleton,
      List.not_mem_nil, or_false] at hn
    rcases hn with hn | rfl | rfl
    · exact Or.inl hn
    · right
      simp only [Engine.Machine.ids, List.mem_append, List.mem_map]
      exact Or.inl (Or.inl ⟨hd, hmem, rfl⟩)
    · right
      simp [Engine.Machine.ids, hs, Engine.stack_ids_matching]
  · intro n hn; exact Or.inl hn
  · intro n hn
    simp only [Engine.Book.settle] at hn
    cases hl : o.limit with
    | some p => rw [hl] at hn; exact Or.inl hn
    | none =>
      rw [hl] at hn
      simp only [List.mem_append, List.mem_singleton] at hn
      rcases hn with hn | rfl
      · exact Or.inl hn
      · right
        simp [Engine.Machine.ids, hs, Engine.stack_ids_matching]
  · intro n hn
    have hmem := Engine.first_triggered_mem t _ s ht
    have hin : s.id ∈ m.ids := by
      simp only [Engine.Machine.ids, List.mem_append, List.mem_map]
      exact Or.inl (Or.inr ⟨s, hmem, rfl⟩)
    simp only [Engine.Book.promote] at hn
    cases hl : s.limit with
    | none => rw [hl] at hn; exact Or.inl hn
    | some p =>
      rw [hl] at hn
      simp only [List.mem_append, List.mem_singleton] at hn
      rcases hn with hn | rfl
      · exact Or.inl hn
      · exact Or.inr hin
  · intro n hn; exact Or.inl hn

theorem Engine.well_formed_step (m m' : Engine.Machine) (hw : Engine.well_formed m)
    (h : Engine.step m = some m') : Engine.well_formed m' := by
  obtain ⟨hnd, hlt, hlog, hu⟩ := hw
  have hcount := Engine.step_ids_count m m' h
  have hsub : ∀ i ∈ m'.ids, i ∈ m.ids := by
    intro i hi
    have h1 := List.count_pos_iff.2 hi
    have h2 := hcount i
    exact List.count_pos_iff.1 (by omega)
  refine ⟨?_, ?_, ?_, Engine.uncrossed_step m m' hu h⟩
  · rw [List.nodup_iff_count_le_one] at hnd ⊢
    intro a
    exact le_trans (hcount a) (hnd a)
  · intro i hi
    rw [Engine.step_next_id m m' h]
    exact hlt i (hsub i hi)
  · intro n hn
    rw [Engine.step_next_id m m' h]
    rcases Engine.step_log m m' h n hn with h1 | h1
    · exact hlog n h1
    · exact hlt _ h1

theorem Engine.well_formed_parts (m : Engine.Machine) (hw : Engine.well_formed m) :
    (m.book.limits.map (fun o => o.id)).Nodup ∧
    (Engine.stack_ids m.stack).Nodup ∧
    (∀ i ∈ m.book.limits.map (fun o => o.id), i ∉ Engine.stack_ids m.stack) ∧
    (∀ i ∈ m.book.stops.map (fun s => s.id), i ∉ Engine.stack_ids m.stack) ∧
    (∀ i ∈ m.book.limits.map (fun o => o.id), i ∉ m.book.stops.map (fun s => s.id)) := by
  have hnd := hw.1
  simp only [Engine.Machine.ids] at hnd
  rw [List.nodup_append] at hnd
  obtain ⟨h1, h2, h3⟩ := hnd
  rw [List.nodup_append] at h1
  obtain ⟨h4, _, h6⟩ := h1
  refine ⟨h4, h2, ?_, ?_, ?_⟩
  · intro i hi hk
    exact h3 (List.mem_append_left _ hi) hk
  · intro i hi hk
    exact h3 (List.mem_append_right _ hi) hk
  · intro i hi hk
    exact h6 hi hk

theorem Engine.filled_trade (x : Nat) (log : List Engine.Notification) (i j t f : Nat) :
    Engine.filled x (log ++ [⟨callback_msg.fill, i, t, f⟩, ⟨callback_msg.fill, j, t, f⟩])
      = Engine.filled x log + (if i = x then f else 0) + (if j = x then f else 0) := by
  simp [Engine.filled, Nat.add_assoc]

theorem Engine.filled_other (x : Nat) (log : List Engine.Notification)
    (n : Engine.Notification) (hn : n.msg ≠ callback_msg.fill) :
    Engine.filled x (log ++ [n]) = Engine.filled x log := by
  simp [Engine.filled, hn]

theorem Engine.filled_promote (x : Nat) (b : Engine.Book) (s : Engine.StopOrder) :
    Engine.filled x (b.promote s).log = Engine.filled x b.log := by
  simp only [Engine.Book.promote]
  cases s.limit with
  | none => rfl
  | some p => exact Engine.filled_other x _ _ (fun e => by cases e)

theorem Engine.filled_settle (x : Nat) (b : Engine.Book) (o : Engine.Incoming) :
    Engine.filled x (b.settle o).log = Engine.filled x b.log := by
  simp only [Engine.Book.settle]
  cases o.limit with
  | none => exact Engine.filled_other x _ _ (fun e => by cases e)
  | some p => rfl

/-- The life of a limit order is kept by every step of a well-formed machine. -/
theorem Engine.tracked_step (x : Nat) (sd : Bool) (T sx : Nat) (m m' : Engine.Machine)
    (hw : Engine.well_formed m) (ht : Engine.tracked x sd T sx m)
    (h : Engine.step m = some m') : Engine.tracked x sd T sx m' := by
  obtain ⟨hLnd, hKnd, hLK, hSK, hLS⟩ := Engine.well_formed_parts m hw
  obtain ⟨hlt, hns, hlim, hstk, habs⟩ := ht
  rcases Engine.step_cases m m' h with
    ⟨o, rest, hd, hs, h0, hb, hc, rfl⟩ | ⟨o, rest, hs, h0, rfl⟩ | ⟨o, rest, hs, h0, hno, rfl⟩ |
    ⟨t, rest, s, hs, hts, rfl⟩ | ⟨t, rest, hs, hts, rfl⟩
  · -- a trade between the incoming `o` and the head `hd`
    have hmem := (Engine.best_opposite_mem o _ hd hb).1
    have hoK : o.id ∈ Engine.stack_ids m.stack := by
      rw [hs, Engine.stack_ids_matching]; exact List.mem_cons_self _ _
    have hoin : Engine.Work.matching o ∈ m.stack := by rw [hs]; exact List.mem_cons_self _ _
    have hdL : hd.id ∈ m.book.limits.map (fun o => o.id) := List.mem_map.2 ⟨hd, hmem, rfl⟩
    have hdo : hd.id ≠ o.id := fun e => hLK _ hdL (e ▸ hoK)
    have hK : Engine.stack_ids m.stack = o.id :: Engine.stack_ids rest := by
      rw [hs, Engine.stack_ids_matching]
    have hfl : Engine.filled x (m.book.trade o hd).log
        = Engine.filled x m.book.log + (if hd.id = x then min o.size hd.size else 0)
            + (if o.id = x then min o.size hd.size else 0) := by
      simp only [Engine.Book.trade]
      exact Engine.filled_trade x _ _ _ _ _
    refine ⟨hlt, hns, ?_, ?_, ?_⟩
    · intro r hr hrx
      simp only [Engine.Book.trade] at hr
      by_cases hx : x = hd.id
      · obtain ⟨hre, hnf⟩ := Engine.fill_resting_same_id hd _ _ hLnd hmem r hr (hrx.trans hx)
        obtain ⟨h1, h2, h3⟩ := hlim hd hmem hx.symm
        have hox : o.id ≠ x := fun e => hdo (hx ▸ e.symm)
        rw [hfl, if_pos hx.symm, if_neg hox, hre]
        refine ⟨h1, h2, ?_⟩
        simp only
        omega
      · have hne : r.id ≠ hd.id := fun e => hx (hrx.symm.trans e)
        have hrl := Engine.mem_fill_resting_of_ne hd _ _ r hr hne
        obtain ⟨h1, h2, h3⟩ := hlim r hrl hrx
        have hox : o.id ≠ x := by
          intro e
          exact hLK _ (List.mem_map.2 ⟨r, hrl, hrx⟩) (e ▸ hoK)
        rw [hfl, if_neg (fun e => hx e.symm), if_neg hox]
        exact ⟨h1, h2, by omega⟩
    · intro fr hfr hfx
      simp only [List.mem_cons, Engine.Work.matching.injEq] at hfr
      rcases hfr with hfr | hfr | hfr
      · cases hfr
      · subst hfr
        simp only at hfx
        obtain ⟨h1, h2, h3⟩ := hstk o hoin hfx
        have hdx : hd.id ≠ x := fun e => hdo (e.trans hfx.symm)
        rw [hfl, if_neg hdx, if_pos hfx]
        refine ⟨h1, h2, ?_⟩
        simp only
        omega
      · have hfin : Engine.Work.matching fr ∈ m.stack := by
          rw [hs]; exact List.mem_cons_of_mem _ hfr
        obtain ⟨h1, h2, h3⟩ := hstk fr hfin hfx
        have hxr : x ∈ Engine.stack_ids rest :=
          (Engine.mem_stack_ids x rest).2 ⟨fr, hfr, hfx⟩
        have hdx : hd.id ≠ x := by
          intro e
          apply hLK _ hdL
          rw [hK, e]
          exact List.mem_cons_of_mem _ hxr
        have hox : o.id ≠ x := by
          intro e
          rw [hK, List.nodup_cons] at hKnd
          exact hKnd.1 (e ▸ hxr)
        rw [hfl, if_neg hdx, if_neg hox]
        exact ⟨h1, h2, by omega⟩
    · intro hxL hxK
      simp only [Engine.Book.trade] at hxL
      simp only [Engine.stack_ids_sweep, Engine.stack_ids_matching] at hxK
      have hxK' : x ∉ Engine.stack_ids m.stack := by rw [hK]; exact hxK
      have hox : o.id ≠ x := fun e => hxK (e ▸ List.mem_cons_self _ _)
      rw [hfl, if_neg hox]
      by_cases hin : x ∈ m.book.limits.map (fun o => o.id)
      · obtain ⟨r, hr, hrx⟩ := List.mem_map.1 hin
        have hrd : r = hd := by
          by_contra hne
          exact hxL (List.mem_map.2 ⟨r, Engine.fill_resting_mem_of_ne hd _ _ r hr hne, hrx⟩)
        subst hrd
        have hfull : r.size ≤ min o.size r.size := by
          by_contra hnf
          exact hxL (List.mem_map.2 ⟨_, Engine.fill_resting_partial_mem r _ _ hr hnf, hrx⟩)
        obtain ⟨_, _, h3⟩ := hlim r hr hrx
        rw [if_pos hrx]
        omega
      · have := habs hin hxK'
        have hdx : hd.id ≠ x := fun e => hin (e ▸ hdL)
        rw [if_neg hdx]
        omega
  · -- the incoming order has nothing left
    have hoin : Engine.Work.matching o ∈ m.stack := by rw [hs]; exact List.mem_cons_self _ _
    refine ⟨hlt, hns, hlim, ?_, ?_⟩
    · intro fr hfr hfx
      exact hstk fr (by rw [hs]; exact List.mem_cons_of_mem _ hfr) hfx
    · intro hxL hxK
      by_cases hox : o.id = x
      · obtain ⟨_, _, h3⟩ := hstk o hoin hox
        simp only
        omega
      · apply habs hxL
        rw [hs, Engine.stack_ids_matching, List.mem_cons, not_or]
        exact ⟨fun e => hox e.symm, hxK⟩
  · -- the incoming order settles: it rests, or its residual is cancelled
    have hoin : Engine.Work.matching o ∈ m.stack := by rw [hs]; exact List.mem_cons_self _ _
    have hfl := Engine.filled_settle x m.book o
    have hK : Engine.stack_ids m.stack = o.id :: Engine.stack_ids rest := by
      rw [hs, Engine.stack_ids_matching]
    refine ⟨?_, ?_, ?_, ?_, ?_⟩
    · simp only [Engine.Book.settle]; cases o.limit <;> exact hlt
    · simp only [Engine.Book.settle]; cases o.limit <;> exact hns
    · intro r hr hrx
      rw [hfl]
      simp only [Engine.Book.settle] at hr
      cases hl : o.limit with
      | none => rw [hl] at hr; exact hlim r hr hrx
      | some p =>
        rw [hl] at hr
        simp only [List.mem_append, List.mem_singleton] at hr
        rcases hr with hr | hr
        · exact hlim r hr hrx
        · subst hr
          simp only at hrx
          obtain ⟨h1, h2, h3⟩ := hstk o hoin hrx
          rw [hl] at h2
          simp only [Option.some.injEq] at h2
          exact ⟨h1, h2, h3⟩
    · intro fr hfr hfx
      rw [hfl]
      exact hstk fr (by rw [hs]; exact List.mem_cons_of_mem _ hfr) hfx
    · intro hxL hxK
      rw [hfl]
      by_cases hox : o.id = x
      · obtain ⟨_, h2, _⟩ := hstk o hoin hox
        exfalso
        apply hxL
        simp only [Engine.Book.settle, h2, List.map_append, List.mem_append, List.map_cons,
          List.map_nil, List.mem_singleton]
        exact Or.inr hox.symm
      · apply habs
        · intro hin
          apply hxL
          obtain ⟨r, hr, hrx⟩ := List.mem_map.1 hin
          refine List.mem_map.2 ⟨r, ?_, hrx⟩
          simp only [Engine.Book.settle]
          cases o.limit with
          | none => exact hr
          | some p => exact List.mem_append_left _ hr
        · rw [hK, List.mem_cons, not_or]
          exact ⟨fun e => hox e.symm, hxK⟩
  · -- a stop is promoted
    have hmem := Engine.first_triggered_mem t _ s hts
    have hfl := Engine.filled_promote x m.book s
    have hsx : s.id ≠ x := fun e => hns (List.mem_map.2 ⟨s, hmem, e⟩)
    refine ⟨hlt, ?_, ?_, ?_, ?_⟩
    · intro hin
      obtain ⟨r, hr, hrx⟩ := List.mem_map.1 hin
      exact hns (List.mem_map.2 ⟨r, List.mem_of_mem_erase hr, hrx⟩)
    · intro r hr hrx
      rw [hfl]
      exact hlim r hr hrx
    · intro fr hfr hfx
      rw [hfl]
      simp only [List.mem_cons, Engine.Work.matching.injEq] at hfr
      rcases hfr with hfr | hfr | hfr
      · subst hfr
        exact absurd hfx hsx
      · cases hfr
      · exact hstk fr (by rw [hs]; exact List.mem_cons_of_mem _ hfr) hfx
    · intro hxL hxK
      rw [hfl]
      apply habs hxL
      rw [hs, Engine.stack_ids_sweep]
      simp only [Engine.stack_ids_matching, Engine.stack_ids_sweep, List.mem_cons, not_or] at hxK
      exact hxK.2
  · -- the sweep ends
    refine ⟨hlt, hns, hlim, ?_, ?_⟩
    · intro fr hfr hfx
      exact hstk fr (by rw [hs]; exact List.mem_cons_of_mem _ hfr) hfx
    · intro hxL hxK
      apply habs hxL
      rw [hs, Engine.stack_ids_sweep]
      exact hxK

theorem Engine.first_min_first {α : Type} (key : α → Int) (l : List α) (h r : α)
    (hh : Engine.first_min key l = some h) (hr : r ∈ l) (hk : key r = key h) (hne : r ≠ h) :
    List.Sublist [h, r] l := by
  obtain ⟨l1, l2, hl, h1, _⟩ := Engine.first_min_split key l h hh
  rw [hl] at hr ⊢
  rcases List.mem_append.1 hr with hr | hr
  · have := h1 r hr
    omega
  · rcases List.mem_cons.1 hr with hr | hr
    · exact absurd hr hne
    · have h2 : List.Sublist [r] l2 := List.singleton_sublist.2 hr
      exact (h2.cons₂ h).trans (List.sublist_append_right l1 _)

theorem Engine.best_opposite_first (o : Engine.Incoming) (limits : List Engine.LimitOrder)
    (h r : Engine.LimitOrder) (hh : Engine.best_opposite o limits = some h) (hr : r ∈ limits)
    (hb : r.buy = h.buy) (ht : r.tick = h.tick) (hne : r ≠ h) :
    List.Sublist [h.id, r.id] (limits.map (fun o => o.id)) := by
  have hside := (Engine.best_opposite_mem o limits h hh).2
  unfold Engine.best_opposite at hh
  by_cases hob : o.buy = true
  · rw [if_pos hob] at hh
    unfold Engine.best_ask at hh
    have hrf : r ∈ limits.filter (fun o => !o.buy) := by
      simp only [List.mem_filter, Bool.not_eq_true']
      exact ⟨hr, by rw [hb, hside, hob]; rfl⟩
    have := Engine.first_min_first _ _ h r hh hrf (by simp [ht]) hne
    exact (this.trans (List.filter_sublist _)).map (fun o => o.id)
  · rw [if_neg hob] at hh
    unfold Engine.best_bid at hh
    have hob' : o.buy = false := by simpa using hob
    have hrf : r ∈ limits.filter (fun o => o.buy) := by
      simp only [List.mem_filter]
      exact ⟨hr, by rw [hb, hside, hob']; rfl⟩
    have := Engine.first_min_first _ _ h r hh hrf (by simp [ht]) hne
    exact (this.trans (List.filter_sublist _)).map (fun o => o.id)

theorem Engine.nodup_no_swap (l : List Nat) (a b : Nat) (hnd : l.Nodup)
    (h1 : List.Sublist [a, b] l) (h2 : List.Sublist [b, a] l) : False := by
  induction l with
  | nil => cases h1
  | cons x rest ih =>
    rw [List.nodup_cons] at hnd
    cases h1 with
    | cons _ h1' =>
      cases h2 with
      | cons _ h2' => exact ih hnd.2 h1' h2'
      | cons₂ _ h2' =>
        -- x = b, and b occurs again in the rest
        have : b ∈ rest := h1'.subset (by simp)
        exact hnd.1 this
    | cons₂ _ h1' =>
      -- x = a
      cases h2 with
      | cons _ h2' =>
        have : a ∈ rest := h2'.subset (by simp)
        exact hnd.1 this
      | cons₂ _ h2' =>
        have : a ∈ rest := h2'.subset (by simp)
        exact hnd.1 this

theorem Engine.fill_resting_partial_ids (h : Engine.LimitOrder) (f : Nat)
    (l : List Engine.LimitOrder) (hf : ¬ h.size ≤ f) :
    (Engine.fill_resting h f l).map (fun o => o.id) = l.map (fun o => o.id) := by
  induction l with
  | nil => rfl
  | cons o rest ih =>
    simp only [Engine.fill_resting]
    by_cases ho : o = h
    · rw [if_pos ho, if_neg hf, ho]
      rfl
    · rw [if_neg ho]
      simp only [List.map_cons, ih]

theorem Engine.tracked_filled_le (x : Nat) (sd : Bool) (T sx : Nat) (m : Engine.Machine)
    (ht : Engine.tracked x sd T sx m) : Engine.filled x m.book.log ≤ sx := by
  obtain ⟨_, _, hlim, hstk, habs⟩ := ht
  by_cases hL : x ∈ m.book.limits.map (fun o => o.id)
  · obtain ⟨r, hr, hrx⟩ := List.mem_map.1 hL
    have := (hlim r hr hrx).2.2
    omega
  · by_cases hK : x ∈ Engine.stack_ids m.stack
    · obtain ⟨o, ho, hox⟩ := (Engine.mem_stack_ids x m.stack).1 hK
      have := (hstk o ho hox).2.2
      omega
    · exact le_of_eq (habs hL hK)

theorem Engine.tracked_present (x : Nat) (sd : Bool) (T sx : Nat) (m : Engine.Machine)
    (ht : Engine.tracked x sd T sx m) (hlt : Engine.filled x m.book.log < sx) :
    x ∈ m.book.limits.map (fun o => o.id) ∨ x ∈ Engine.stack_ids m.stack := by
  by_contra hc
  rw [not_or] at hc
  have := ht.2.2.2.2 hc.1 hc.2
  omega

theorem Engine.step_filled_mono (x : Nat) (m m' : Engine.Machine)
    (h : Engine.step m = some m') :
    Engine.filled x m.book.log ≤ Engine.filled x m'.book.log := by
  rcases Engine.step_cases m m' h with
    ⟨o, rest, hd, _, _, _, _, rfl⟩ | ⟨o, rest, _, _, rfl⟩ | ⟨o, rest, _, _, _, rfl⟩ |
    ⟨t, rest, s, _, _, rfl⟩ | ⟨t, rest, _, _, rfl⟩
  · simp only [Engine.Book.trade, Engine.filled_trade]
    omega
  · exact le_rfl
  · rw [Engine.filled_settle]
  · rw [Engine.filled_promote]
  · exact le_rfl

theorem Engine.fills_in_order_other (a sa b : Nat) (log : List Engine.Notification)
    (n : Engine.Notification) (hn : n.msg ≠ callback_msg.fill)
    (h : Engine.fills_in_order a sa b log) : Engine.fills_in_order a sa b (log ++ [n]) := by
  apply Engine.fills_in_order_append a sa b log [n] h
  simp [Engine.fills_in_order_from, hn]

/-- The first-in first-out invariant is kept by every step of a well-formed
machine on which both orders are tracked. -/
theorem Engine.fifo_step (a sa b : Nat) (sd : Bool) (T sb : Nat) (m m' : Engine.Machine)
    (hab : a ≠ b) (hw : Engine.well_formed m) (hta : Engine.tracked a sd T sa m)
    (htb : Engine.tracked b sd T sb m) (hf : Engine.fifo a sa b m)
    (h : Engine.step m = some m') : Engine.fifo a sa b m' := by
  have hta' := Engine.tracked_step a sd T sa m m' hw hta h
  have hle' := Engine.tracked_filled_le a sd T sa m' hta'
  have hmono := Engine.step_filled_mono a m m' h
  obtain ⟨hLnd, hKnd, hLK, hSK, hLS⟩ := Engine.well_formed_parts m hw
  obtain ⟨hord, hstr⟩ := hf
  -- while `a` is not filled and `b` is the only order being matched, `a` rests
  have hrest : Engine.filled a m.book.log < sa → ∀ ob, m.stack = [Engine.Work.matching ob] →
      ob.id = b → ∃ ra ∈ m.book.limits, ra.id = a ∧ ra.buy = sd ∧ ra.tick = T := by
    intro hlt ob hst hob
    rcases Engine.tracked_present a sd T sa m hta hlt with hL | hK
    · obtain ⟨ra, hra, hrax⟩ := List.mem_map.1 hL
      obtain ⟨r1, r2, _⟩ := hta.2.2.1 ra hra hrax
      exact ⟨ra, hra, hrax, r1, r2⟩
    · rw [hst, Engine.stack_ids_matching] at hK
      simp only [Engine.stack_ids, List.filterMap_nil, List.mem_singleton] at hK
      exact absurd (hK.trans hob) hab
  rcases Engine.step_cases m m' h with
    ⟨o, rest, hd, hs, h0, hb, hc, rfl⟩ | ⟨o, rest, hs, h0, rfl⟩ | ⟨o, rest, hs, h0, hno, rfl⟩ |
    ⟨t, rest, s, hs, hts, rfl⟩ | ⟨t, rest, hs, hts, rfl⟩
  · -- a trade
    obtain ⟨hmem, hside⟩ := Engine.best_opposite_mem o _ hd hb
    have hkey : Engine.filled a m.book.log < sa →
        List.Sublist [a, b] (m.book.limits.map (fun o => o.id)) ∧ hd.id ≠ b ∧ o.id ≠ b := by
      intro hlt
      rcases hstr hlt with ⟨ob, hst, hobid, hobsz⟩ | hsub
      · exfalso
        obtain ⟨ra, hra, _, r1, r2⟩ := hrest hlt ob hst hobid
        have hoe : o = ob := by
          rw [hs] at hst
          simp only [List.cons.injEq, Engine.Work.matching.injEq] at hst
          exact hst.1
        subst hoe
        obtain ⟨hob1, hob2, _⟩ := htb.2.2.2.1 o (by rw [hs]; exact List.mem_cons_self _ _) hobid
        have hu := hw.2.2.2
        simp only [Engine.crosses, hob2, hob1] at hc
        rw [hob1] at hside
        cases sd with
        | true =>
          simp only [if_true, decide_eq_true_eq] at hc
          have := hu ra hra hd hmem r1 (by rw [hside]; rfl)
          omega
        | false =>
          simp only [Bool.false_eq_true, if_false, decide_eq_true_eq] at hc
          have := hu hd hmem ra hra (by rw [hside]; rfl) r1
          omega
      · have hbL : b ∈ m.book.limits.map (fun o => o.id) := hsub.subset (by simp)
        have haL : a ∈ m.book.limits.map (fun o => o.id) := hsub.subset (by simp)
        refine ⟨hsub, ?_, ?_⟩
        · intro e
          obtain ⟨ra, hra, hrax⟩ := List.mem_map.1 haL
          obtain ⟨r1, r2, _⟩ := hta.2.2.1 ra hra hrax
          obtain ⟨d1, d2, _⟩ := htb.2.2.1 hd hmem e
          have hne : ra ≠ hd := fun e' => hab (by rw [← hrax, e', e])
          have hsw := Engine.best_opposite_first o _ hd ra hb hra (r1.trans d1.symm)
            (r2.trans d2.symm) hne
          rw [e, hrax] at hsw
          exact Engine.nodup_no_swap _ a b hLnd hsub hsw
        · intro e
          apply hLK b hbL
          rw [hs, Engine.stack_ids_matching, e]
          exact List.mem_cons_self _ _
    constructor
    · simp only [Engine.Book.trade]
      apply Engine.fills_in_order_append a sa b _ _ hord
      by_cases hlt : Engine.filled a m.book.log < sa
      · obtain ⟨_, h1, h2⟩ := hkey hlt
        simp [Engine.fills_in_order_from, h1, h2]
      · have hle := Engine.tracked_filled_le a sd T sa m hta
        have heq : Engine.filled a m.book.log = sa := by omega
        have hz : hd.id = a → min o.size hd.size = 0 := by
          intro e
          have := (hta.2.2.1 hd hmem e).2.2
          omega
        by_cases hda : hd.id = a
        · simp [Engine.fills_in_order_from, heq, hda, hz hda]
        · simp [Engine.fills_in_order_from, heq, hda]
    · intro hlt'
      have hlt : Engine.filled a m.book.log < sa := by omega
      obtain ⟨hsub, h1, h2⟩ := hkey hlt
      right
      simp only [Engine.Book.trade]
      by_cases hda : hd.id = a
      · by_cases hfull : hd.size ≤ min o.size hd.size
        · exfalso
          -- `a` is gone from the book, so it is completely filled
          have haL : a ∉ (m.book.trade o hd).limits.map (fun o => o.id) := by
            intro hin
            obtain ⟨r, hr, hrx⟩ := List.mem_map.1 hin
            simp only [Engine.Book.trade] at hr
            exact (Engine.fill_resting_same_id hd _ _ hLnd hmem r hr (hrx.trans hda.symm)).2
              hfull
          have haK : a ∉ Engine.stack_ids
              (Engine.Work.sweep hd.tick ::
                Engine.Work.matching { o with size := o.size - min o.size hd.size } :: rest) := by
            rw [Engine.stack_ids_sweep, Engine.stack_ids_matching]
            intro hin
            apply hLK a (hsub.subset (by simp))
            rw [hs, Engine.stack_ids_matching]
            exact hin
          have := hta'.2.2.2.2 haL haK
          omega
        · rw [Engine.fill_resting_partial_ids hd _ _ hfull]
          exact hsub
      · apply Engine.sublist_fill_resting hd _ _ _ hsub
        simp only [List.mem_cons, List.mem_singleton, List.not_mem_nil, or_false, not_or]
        exact ⟨hda, h1⟩
  · -- the incoming order has nothing left
    refine ⟨hord, ?_⟩
    intro hlt
    rcases hstr hlt with ⟨ob, hst, _, hobsz⟩ | hsub
    · exfalso
      rw [hs] at hst
      simp only [List.cons.injEq, Engine.Work.matching.injEq] at hst
      rw [hst.1] at h0
      exact hobsz h0
    · exact Or.inr hsub
  · -- the incoming order settles
    have hfl := Engine.filled_settle a m.book o
    constructor
    · simp only [Engine.Book.settle]
      cases o.limit with
      | none => exact Engine.fills_in_order_other a sa b _ _ (fun e => by cases e) hord
      | some p => exact hord
    · intro hlt'
      rw [hfl] at hlt'
      right
      rcases hstr hlt' with ⟨ob, hst, hobid, _⟩ | hsub
      · obtain ⟨ra, hra, hrax, _, _⟩ := hrest hlt' ob hst hobid
        have hoe : o = ob := by
          rw [hs] at hst
          simp only [List.cons.injEq, Engine.Work.matching.injEq] at hst
          exact hst.1
        subst hoe
        obtain ⟨_, hob2, _⟩ := htb.2.2.2.1 o (by rw [hs]; exact List.mem_cons_self _ _) hobid
        simp only [Engine.Book.settle, hob2, List.map_append, List.map_cons, List.map_nil, hobid]
        have h1 : List.Sublist [a] (m.book.limits.map (fun o => o.id)) :=
          List.singleton_sublist.2 (List.mem_map.2 ⟨ra, hra, hrax⟩)
        exact h1.append (List.Sublist.refl [b])
      · simp only [Engine.Book.settle]
        cases o.limit with
        | none => exact hsub
        | some p =>
          simp only [List.map_append]
          exact hsub.trans (List.sublist_append_left _ _)
  · -- a stop is promoted
    have hfl := Engine.filled_promote a m.book s
    constructor
    · simp only [Engine.Book.promote]
      cases s.limit with
      | none => exact hord
      | some p => exact Engine.fills_in_order_other a sa b _ _ (fun e => by cases e) hord
    · intro hlt'
      rw [hfl] at hlt'
      right
      rcases hstr hlt' with ⟨ob, hst, _, _⟩ | hsub
      · rw [hs] at hst
        simp at hst
      · exact hsub
  · -- the sweep ends
    refine ⟨hord, ?_⟩
    intro hlt
    right
    rcases hstr hlt with ⟨ob, hst, _, _⟩ | hsub
    · rw [hs] at hst
      simp at hst
    · exact hsub

theorem Engine.run_eq (m : Engine.Machine) : Engine.run m = ⟨(Engine.run m).book, []⟩ := by
  have h := Engine.run_quiescent m
  cases hr : Engine.run m with
  | mk book stack =>
    rw [hr] at h
    simp only at h
    rw [h]

theorem Engine.well_formed_fresh (ticks : Nat) : Engine.well_formed ⟨Engine.fresh ticks, []⟩ := by
  refine ⟨by simp [Engine.Machine.ids, Engine.fresh, Engine.stack_ids], ?_, ?_, ?_⟩
  · intro i hi; simp [Engine.Machine.ids, Engine.fresh, Engine.stack_ids] at hi
  · intro n hn; simp [Engine.fresh] at hn
  · intro x hx; simp [Engine.fresh] at hx

theorem Engine.stack_ids_nil : Engine.stack_ids [] = [] := rfl

theorem Engine.stack_ids_single (o : Engine.Incoming) :
    Engine.stack_ids [.matching o] = [o.id] := rfl

theorem Engine.well_formed_start (b : Engine.Book) (buy : Bool) (lim : Option Nat) (size : Nat)
    (hw : Engine.well_formed ⟨b, []⟩) :
    Engine.well_formed
      ⟨{ b with next_id := b.next_id + 1 }, [.matching ⟨b.next_id, buy, lim, size⟩]⟩ := by
  obtain ⟨hnd, hlt, hlog, hu⟩ := hw
  simp only [Engine.Machine.ids, Engine.stack_ids_nil, List.append_nil] at hnd hlt
  refine ⟨?_, ?_, ?_, hu⟩
  · simp only [Engine.Machine.ids, Engine.stack_ids_single]
    rw [List.nodup_append]
    refine ⟨hnd, by simp, ?_⟩
    intro i hi hk
    rw [List.mem_singleton] at hk
    have := hlt i hi
    omega
  · intro i hi
    simp only [Engine.Machine.ids, Engine.stack_ids_single] at hi
    show i < b.next_id + 1
    rcases List.mem_append.1 hi with hi | hi
    · have := hlt i hi; omega
    · rw [List.mem_singleton] at hi; omega
  · intro n hn
    have := hlog n hn
    show n.id < b.next_id + 1
    simp only at this
    omega

theorem Engine.well_formed_run (m : Engine.Machine) (hw : Engine.well_formed m) :
    Engine.well_formed ⟨(Engine.run m).book, []⟩ := by
  rw [← Engine.run_eq]
  exact Engine.run_invariant Engine.well_formed
    (fun m m' hm hs => Engine.well_formed_step m m' hm hs) m hw

theorem Engine.well_formed_rest_stop (b : Engine.Book) (s : Engine.StopOrder)
    (hid : s.id = b.next_id) (hw : Engine.well_formed ⟨b, []⟩) :
    Engine.well_formed ⟨{ b with next_id := b.next_id + 1, stops := b.stops ++ [s] }, []⟩ := by
  obtain ⟨hnd, hlt, hlog, hu⟩ := hw
  simp only [Engine.Machine.ids, Engine.stack_ids_nil, List.append_nil] at hnd hlt
  have hids : Engine.Machine.ids
      ⟨{ b with next_id := b.next_id + 1, stops := b.stops ++ [s] }, []⟩
        = (b.limits.map (fun o => o.id) ++ b.stops.map (fun s => s.id)) ++ [b.next_id] := by
    simp [Engine.Machine.ids, Engine.stack_ids_nil, hid]
  refine ⟨?_, ?_, ?_, hu⟩
  · rw [hids, List.nodup_append]
    refine ⟨hnd, by simp, ?_⟩
    intro i hi hk
    rw [List.mem_singleton] at hk
    have := hlt i hi
    omega
  · intro i hi
    rw [hids] at hi
    show i < b.next_id + 1
    rcases List.mem_append.1 hi with hi | hi
    · have := hlt i hi; omega
    · rw [List.mem_singleton] at hi; omega
  · intro n hn
    have := hlog n hn
    show n.id < b.next_id + 1
    simp only at this
    omega

theorem Engine.well_formed_place (b : Engine.Book) (order : Engine.NewOrder)
    (hw : Engine.well_formed ⟨b, []⟩) : Engine.well_formed ⟨b.place order, []⟩ := by
  cases order with
  | limit buy tick size =>
    exact Engine.well_formed_run _ (Engine.well_formed_start b buy (some tick) size hw)
  | market buy size =>
    exact Engine.well_formed_run _ (Engine.well_formed_start b buy none size hw)
  | stop buy stop size => exact Engine.well_formed_rest_stop b _ rfl hw
  | stop_limit buy stop limit size => exact Engine.well_formed_rest_stop b _ rfl hw

theorem Engine.well_formed_remove (b : Engine.Book) (id : Nat)
    (hw : Engine.well_formed ⟨b, []⟩) (hin : b.has_order id = true) :
    Engine.well_formed ⟨b.remove id, []⟩ := by
  obtain ⟨hnd, hlt, hlog, hu⟩ := hw
  have hsub : List.Sublist (Engine.Machine.ids ⟨b.remove id, []⟩) (Engine.Machine.ids ⟨b, []⟩) := by
    simp only [Engine.Machine.ids, Engine.Book.remove]
    exact (((List.filter_sublist _).map _).append ((List.filter_sublist _).map _)).append
      (List.Sublist.refl _)
  have hidlt : id < b.next_id := by
    apply hlt
    simp only [Engine.Book.has_order, Bool.or_eq_true, List.any_eq_true,
      decide_eq_true_eq] at hin
    simp only [Engine.Machine.ids, Engine.stack_ids_nil, List.append_nil,
      List.mem_append, List.mem_map]
    rcases hin with ⟨o, ho, hoid⟩ | ⟨s, hs, hsid⟩
    · exact Or.inl ⟨o, ho, hoid⟩
    · exact Or.inr ⟨s, hs, hsid⟩
  refine ⟨hnd.sublist hsub, ?_, ?_, Engine.uncrossed_remove b id hu⟩
  · intro i hi
    exact hlt i (hsub.subset hi)
  · intro n hn
    simp only [Engine.Book.remove, List.mem_append, List.mem_singleton] at hn
    simp only [Engine.Book.remove]
    rcases hn with hn | rfl
    · exact hlog n hn
    · exact hidlt

theorem Engine.well_formed_apply (b : Engine.Book) (op : Engine.Op)
    (hw : Engine.well_formed ⟨b, []⟩) : Engine.well_formed ⟨(Engine.apply b op).2, []⟩ := by
  cases op with
  | insert order =>
    simp only [Engine.apply, Engine.insert]
    split
    · exact Engine.well_formed_place b order hw
    · exact hw
  | pull id =>
    simp only [Engine.apply, Engine.pull_order]
    split
    · next hin => exact Engine.well_formed_remove b id hw hin
    · exact hw
  | replace id order =>
    simp only [Engine.apply, Engine.replace, Engine.insert]
    split
    · split
      · next hin =>
        split
        · exact Engine.well_formed_place _ order (Engine.well_formed_remove b id hw hin)
        · exact Engine.well_formed_remove b id hw hin
      · exact hw
    · exact hw

theorem Engine.well_formed_run_ops (ops : List Engine.Op) :
    ∀ b : Engine.Book, Engine.well_formed ⟨b, []⟩ →
      Engine.well_formed ⟨Engine.run_ops b ops, []⟩ := by
  induction ops with
  | nil => intro b hw; exact hw
  | cons op rest ih =>
    intro b hw
    simp only [Engine.run_ops, List.foldl_cons]
    exact ih _ (Engine.well_formed_apply b op hw)

theorem Engine.tracked_start (x : Nat) (sd : Bool) (T sx : Nat) (b : Engine.Book) (buy : Bool)
    (lim : Option Nat) (size : Nat) (ht : Engine.tracked x sd T sx ⟨b, []⟩) :
    Engine.tracked x sd T sx
      ⟨{ b with next_id := b.next_id + 1 }, [.matching ⟨b.next_id, buy, lim, size⟩]⟩ := by
  obtain ⟨hlt, hns, hlim, _, habs⟩ := ht
  simp only at hlt
  refine ⟨?_, hns, hlim, ?_, ?_⟩
  · show x < b.next_id + 1
    omega
  · intro o ho hox
    rw [List.mem_singleton] at ho
    cases ho
    simp only at hox
    omega
  · intro hxL _
    exact habs hxL (by simp [Engine.stack_ids_nil])

theorem Engine.tracked_run (x : Nat) (sd : Bool) (T sx : Nat) (m : Engine.Machine)
    (hw : Engine.well_formed m) (ht : Engine.tracked x sd T sx m) :
    Engine.tracked x sd T sx ⟨(Engine.run m).book, []⟩ := by
  rw [← Engine.run_eq]
  exact (Engine.run_invariant (fun m => Engine.well_formed m ∧ Engine.tracked x sd T sx m)
    (fun m m' hm hs =>
      ⟨Engine.well_formed_step m m' hm.1 hs, Engine.tracked_step x sd T sx m m' hm.1 hm.2 hs⟩)
    m ⟨hw, ht⟩).2

theorem Engine.tracked_rest_stop (x : Nat) (sd : Bool) (T sx : Nat) (b : Engine.Book)
    (s : Engine.StopOrder) (hid : s.id = b.next_id) (ht : Engine.tracked x sd T sx ⟨b, []⟩) :
    Engine.tracked x sd T sx
      ⟨{ b with next_id := b.next_id + 1, stops := b.stops ++ [s] }, []⟩ := by
  obtain ⟨hlt, hns, hlim, hstk, habs⟩ := ht
  simp only at hlt
  refine ⟨?_, ?_, hlim, hstk, habs⟩
  · show x < b.next_id + 1
    omega
  · intro hin
    simp only [List.map_append, List.map_cons, List.map_nil, List.mem_append,
      List.mem_singleton] at hin
    rcases hin with hin | hin
    · exact hns hin
    · omega

theorem Engine.tracked_place (x : Nat) (sd : Bool) (T sx : Nat) (b : Engine.Book)
    (order : Engine.NewOrder) (hw : Engine.well_formed ⟨b, []⟩)
    (ht : Engine.tracked x sd T sx ⟨b, []⟩) :
    Engine.tracked x sd T sx ⟨b.place order, []⟩ := by
  cases order with
  | limit buy tick size =>
    exact Engine.tracked_run x sd T sx _ (Engine.well_formed_start b buy (some tick) size hw)
      (Engine.tracked_start x sd T sx b buy (some tick) size ht)
  | market buy size =>
    exact Engine.tracked_run x sd T sx _ (Engine.well_formed_start b buy none size hw)
      (Engine.tracked_start x sd T sx b buy none size ht)
  | stop buy stop size => exact Engine.tracked_rest_stop x sd T sx b _ rfl ht
  | stop_limit buy stop limit size => exact Engine.tracked_rest_stop x sd T sx b _ rfl ht

theorem Engine.filled_remove (x : Nat) (b : Engine.Book) (id : Nat) :
    Engine.filled x (b.remove id).log = Engine.filled x b.log := by
  simp only [Engine.Book.remove]
  exact Engine.filled_other x _ _ (fun e => by cases e)

theorem Engine.tracked_remove (x : Nat) (sd : Bool) (T sx : Nat) (b : Engine.Book) (id : Nat)
    (hne : id ≠ x) (ht : Engine.tracked x sd T sx ⟨b, []⟩) :
    Engine.tracked x sd T sx ⟨b.remove id, []⟩ := by
  obtain ⟨hlt, hns, hlim, hstk, habs⟩ := ht
  have hfl := Engine.filled_remove x b id
  refine ⟨hlt, ?_, ?_, ?_, ?_⟩
  · intro hin
    obtain ⟨s, hs, hsx⟩ := List.mem_map.1 hin
    simp only [Engine.Book.remove, List.mem_filter] at hs
    exact hns (List.mem_map.2 ⟨s, hs.1, hsx⟩)
  · intro r hr hrx
    rw [hfl]
    simp only [Engine.Book.remove, List.mem_filter] at hr
    exact hlim r hr.1 hrx
  · intro o ho; cases ho
  · intro hxL hxK
    rw [hfl]
    apply habs _ hxK
    intro hin
    apply hxL
    obtain ⟨r, hr, hrx⟩ := List.mem_map.1 hin
    refine List.mem_map.2 ⟨r, ?_, hrx⟩
    simp only [Engine.Book.remove, List.mem_filter, decide_eq_true_eq]
    exact ⟨hr, fun e => hne (e.symm.trans hrx)⟩

theorem Engine.tracked_apply (x : Nat) (sd : Bool) (T sx : Nat) (b : Engine.Book)
    (op : Engine.Op) (hop : op.targets x = false) (hw : Engine.well_formed ⟨b, []⟩)
    (ht : Engine.tracked x sd T sx ⟨b, []⟩) :
    Engine.tracked x sd T sx ⟨(Engine.apply b op).2, []⟩ := by
  cases op with
  | insert order =>
    simp only [Engine.apply, Engine.insert]
    split
    · exact Engine.tracked_place x sd T sx b order hw ht
    · exact ht
  | pull id =>
    have hne : id ≠ x := by simpa [Engine.Op.targets] using hop
    simp only [Engine.apply, Engine.pull_order]
    split
    · exact Engine.tracked_remove x sd T sx b id hne ht
    · exact ht
  | replace id order =>
    have hne : id ≠ x := by simpa [Engine.Op.targets] using hop
    simp only [Engine.apply, Engine.replace, Engine.insert]
    split
    · split
      · next hin =>
        split
        · exact Engine.tracked_place x sd T sx _ order (Engine.well_formed_remove b id hw hin)
            (Engine.tracked_remove x sd T sx b id hne ht)
        · exact Engine.tracked_remove x sd T sx b id hne ht
      · exact ht
    · exact ht

theorem Engine.tracked_run_ops (x : Nat) (sd : Bool) (T sx : Nat) (ops : List Engine.Op)
    (hops : ∀ op ∈ ops, op.targets x = false) :
    ∀ b : Engine.Book, Engine.well_formed ⟨b, []⟩ → Engine.tracked x sd T sx ⟨b, []⟩ →
      Engine.tracked x sd T sx ⟨Engine.run_ops b ops, []⟩ := by
  induction ops with
  | nil => intro b _ ht; exact ht
  | cons op rest ih =>
    intro b hw ht
    simp only [Engine.run_ops, List.foldl_cons]
    exact ih (fun o ho => hops o (List.mem_cons_of_mem _ ho)) _
      (Engine.well_formed_apply b op hw)
      (Engine.tracked_apply x sd T sx b op (hops op (List.mem_cons_self _ _)) hw ht)

theorem Engine.filled_eq_zero (x : Nat) (log : List Engine.Notification)
    (h : ∀ n ∈ log, n.id ≠ x) : Engine.filled x log = 0 := by
  induction log with
  | nil => rfl
  | cons n rest ih =>
    have h1 : n.id ≠ x := h n (List.mem_cons_self _ _)
    have h2 := ih (fun k hk => h k (List.mem_cons_of_mem _ hk))
    simp only [Engine.filled, List.map_cons, List.sum_cons] at h2 ⊢
    simp [h1, h2]

theorem Engine.fills_in_order_fresh (a sa b : Nat) (log : List Engine.Notification)
    (h : ∀ n ∈ log, n.id ≠ b) : ∀ acc, Engine.fills_in_order_from a sa b acc log = true := by
  induction log with
  | nil => intro acc; rfl
  | cons n rest ih =>
    intro acc
    have h1 : n.id ≠ b := h n (List.mem_cons_self _ _)
    simp only [Engine.fills_in_order_from, h1, and_false, if_false, Bool.true_and]
    exact ih (fun k hk => h k (List.mem_cons_of_mem _ hk)) _

/-- A limit order that has just been issued is tracked from the start of its
matching. -/
theorem Engine.tracked_issue (b : Engine.Book) (buy : Bool) (tick size : Nat)
    (hw : Engine.well_formed ⟨b, []⟩) :
    Engine.tracked b.next_id buy tick size
      ⟨{ b with next_id := b.next_id + 1 }, [.matching ⟨b.next_id, buy, some tick, size⟩]⟩ := by
  obtain ⟨_, hlt, hlog, _⟩ := hw
  simp only [Engine.Machine.ids, Engine.stack_ids_nil, List.append_nil] at hlt
  refine ⟨?_, ?_, ?_, ?_, ?_⟩
  · show b.next_id < b.next_id + 1
    omega
  · intro hin
    have := hlt _ (List.mem_append_right _ hin)
    omega
  · intro r hr hrx
    have := hlt _ (List.mem_append_left _ (List.mem_map.2 ⟨r, hr, hrx⟩))
    omega
  · intro o ho _
    rw [List.mem_singleton] at ho
    cases ho
    refine ⟨rfl, rfl, ?_⟩
    have : Engine.filled b.next_id b.log = 0 :=
      Engine.filled_eq_zero _ _ (fun n hn => by have := hlog n hn; simp only at this; omega)
    show Engine.filled b.next_id b.log + size = size
    omega
  · intro _ hxK
    exact absurd (by simp [Engine.stack_ids_single]) hxK

theorem Engine.tracked_new (b : Engine.Book) (buy : Bool) (tick size : Nat)
    (hw : Engine.well_formed ⟨b, []⟩) :
    Engine.tracked b.next_id buy tick size ⟨b.place (.limit buy tick size), []⟩ :=
  Engine.tracked_run _ _ _ _ _ (Engine.well_formed_start b buy (some tick) size hw)
    (Engine.tracked_issue b buy tick size hw)

theorem Engine.fifo_start (a sa b : Nat) (bk : Engine.Book) (buy : Bool) (lim : Option Nat)
    (size : Nat) (hf : Engine.fifo a sa b ⟨bk, []⟩) :
    Engine.fifo a sa b
      ⟨{ bk with next_id := bk.next_id + 1 }, [.matching ⟨bk.next_id, buy, lim, size⟩]⟩ := by
  obtain ⟨hord, hstr⟩ := hf
  refine ⟨hord, fun hlt => ?_⟩
  rcases hstr hlt with ⟨o, ho, _⟩ | hsub
  · cases ho
  · exact Or.inr hsub

theorem Engine.fifo_run (a sa b : Nat) (sd : Bool) (T sb : Nat) (m : Engine.Machine)
    (hab : a ≠ b) (hw : Engine.well_formed m) (hta : Engine.tracked a sd T sa m)
    (htb : Engine.tracked b sd T sb m) (hf : Engine.fifo a sa b m) :
    Engine.fifo a sa b ⟨(Engine.run m).book, []⟩ := by
  rw [← Engine.run_eq]
  exact (Engine.run_invariant
    (fun m => Engine.well_formed m ∧ Engine.tracked a sd T sa m ∧ Engine.tracked b sd T sb m ∧
      Engine.fifo a sa b m)
    (fun m m' hm hs =>
      ⟨Engine.well_formed_step m m' hm.1 hs, Engine.tracked_step a sd T sa m m' hm.1 hm.2.1 hs,
        Engine.tracked_step b sd T sb m m' hm.1 hm.2.2.1 hs,
        Engine.fifo_step a sa b sd T sb m m' hab hm.1 hm.2.1 hm.2.2.1 hm.2.2.2 hs⟩)
    m ⟨hw, hta, htb, hf⟩).2.2.2

theorem Engine.fifo_place (a sa b : Nat) (sd : Bool) (T sb : Nat) (bk : Engine.Book)
    (order : Engine.NewOrder) (hab : a ≠ b) (hw : Engine.well_formed ⟨bk, []⟩)
    (hta : Engine.tracked a sd T sa ⟨bk, []⟩) (htb : Engine.tracked b sd T sb ⟨bk, []⟩)
    (hf : Engine.fifo a sa b ⟨bk, []⟩) : Engine.fifo a sa b ⟨bk.place order, []⟩ := by
  cases order with
  | limit buy tick size =>
    exact Engine.fifo_run a sa b sd T sb _ hab (Engine.well_formed_start bk buy (some tick) size hw)
      (Engine.tracked_start a sd T sa bk buy (some tick) size hta)
      (Engine.tracked_start b sd T sb bk buy (some tick) size htb)
      (Engine.fifo_start a sa b bk buy (some tick) size hf)
  | market buy size =>
    exact Engine.fifo_run a sa b sd T sb _ hab (Engine.well_formed_start bk buy none size hw)
      (Engine.tracked_start a sd T sa bk buy none size hta)
      (Engine.tracked_start b sd T sb bk buy none size htb)
      (Engine.fifo_start a sa b bk buy none size hf)
  | stop buy stop size => exact hf
  | stop_limit buy stop limit size => exact hf

theorem Engine.remove_ids (bk : Engine.Book) (id : Nat) :
    (bk.remove id).limits.map (fun o => o.id) =
      (bk.limits.map (fun o => o.id)).filter (fun i => decide (i ≠ id)) := by
  simp only [Engine.Book.remove, List.filter_map]
  rfl

theorem Engine.fifo_remove (a sa b : Nat) (bk : Engine.Book) (id : Nat) (ha : id ≠ a)
    (hb : id ≠ b) (hf : Engine.fifo a sa b ⟨bk, []⟩) :
    Engine.fifo a sa b ⟨bk.remove id, []⟩ := by
  obtain ⟨hord, hstr⟩ := hf
  refine ⟨?_, fun hlt => ?_⟩
  · simp only [Engine.Book.remove]
    exact Engine.fills_in_order_other a sa b _ _ (fun e => by cases e) hord
  · simp only [Engine.filled_remove] at hlt
    rcases hstr hlt with ⟨o, ho, _⟩ | hsub
    · cases ho
    · right
      simp only [Engine.remove_ids]
      have h2 := List.Sublist.filter (fun i => decide (i ≠ id)) hsub
      have h3 : List.filter (fun i => decide (i ≠ id)) [a, b] = [a, b] := by
        simp [List.filter, Ne.symm ha, Ne.symm hb]
      rw [h3] at h2
      exact h2

theorem Engine.fifo_apply (a sa b : Nat) (sd : Bool) (T sb : Nat) (bk : Engine.Book)
    (op : Engine.Op) (hab : a ≠ b) (hopa : op.targets a = false) (hopb : op.targets b = false)
    (hw : Engine.well_formed ⟨bk, []⟩) (hta : Engine.tracked a sd T sa ⟨bk, []⟩)
    (htb : Engine.tracked b sd T sb ⟨bk, []⟩) (hf : Engine.fifo a sa b ⟨bk, []⟩) :
    Engine.fifo a sa b ⟨(Engine.apply bk op).2, []⟩ := by
  cases op with
  | insert order =>
    simp only [Engine.apply, Engine.insert]
    split
    · exact Engine.fifo_place a sa b sd T sb bk order hab hw hta htb hf
    · exact hf
  | pull id =>
    have hna : id ≠ a := by simpa [Engine.Op.targets] using hopa
    have hnb : id ≠ b := by simpa [Engine.Op.targets] using hopb
    simp only [Engine.apply, Engine.pull_order]
    split
    · exact Engine.fifo_remove a sa b bk id hna hnb hf
    · exact hf
  | replace id order =>
    have hna : id ≠ a := by simpa [Engine.Op.targets] using hopa
    have hnb : id ≠ b := by simpa [Engine.Op.targets] using hopb
    simp only [Engine.apply, Engine.replace, Engine.insert]
    split
    · split
      · next hin =>
        split
        · exact Engine.fifo_place a sa b sd T sb _ order hab
            (Engine.well_formed_remove bk id hw hin)
            (Engine.tracked_remove a sd T sa bk id hna hta)
            (Engine.tracked_remove b sd T sb bk id hnb htb)
            (Engine.fifo_remove a sa b bk id hna hnb hf)
        · exact Engine.fifo_remove a sa b bk id hna hnb hf
      · exact hf
    · exact hf

theorem Engine.fifo_run_ops (a sa b : Nat) (sd : Bool) (T sb : Nat) (ops : List Engine.Op)
    (hab : a ≠ b) (hops : ∀ op ∈ ops, op.targets a = false ∧ op.targets b = false) :
    ∀ bk : Engine.Book, Engine.well_formed ⟨bk, []⟩ → Engine.tracked a sd T sa ⟨bk, []⟩ →
      Engine.tracked b sd T sb ⟨bk, []⟩ → Engine.fifo a sa b ⟨bk, []⟩ →
      Engine.fifo a sa b ⟨Engine.run_ops bk ops, []⟩ := by
  induction ops with
  | nil => intro bk _ _ _ hf; exact hf
  | cons op rest ih =>
    intro bk hw hta htb hf
    have h1 := hops op (List.mem_cons_self _ _)
    simp only [Engine.run_ops, List.foldl_cons]
    exact ih (fun o ho => hops o (List.mem_cons_of_mem _ ho)) _
      (Engine.well_formed_apply bk op hw)
      (Engine.tracked_apply a sd T sa bk op h1.1 hw hta)
      (Engine.tracked_apply b sd T sb bk op h1.2 hw htb)
      (Engine.fifo_apply a sa b sd T sb bk op hab h1.1 h1.2 hw hta htb hf)

/-- A limit order issued behind a tracked order of the same side and tick starts
in first-in first-out order with it. -/
theorem Engine.fifo_new (a sa : Nat) (sd : Bool) (T sb : Nat) (bk : Engine.Book)
    (hsb : sb ≠ 0) (hw : Engine.well_formed ⟨bk, []⟩)
    (hta : Engine.tracked a sd T sa ⟨bk, []⟩) :
    Engine.fifo a sa bk.next_id ⟨bk.place (.limit sd T sb), []⟩ := by
  have hab : a ≠ bk.next_id := by
    have := hta.1
    simp only at this
    omega
  refine Engine.fifo_run a sa bk.next_id sd T sb _ hab
    (Engine.well_formed_start bk sd (some T) sb hw)
    (Engine.tracked_start a sd T sa bk sd (some T) sb hta)
    (Engine.tracked_issue bk sd T sb hw) ⟨?_, fun _ => Or.inl ⟨_, rfl, rfl, hsb⟩⟩
  have hlog := hw.2.2.1
  exact Engine.fills_in_order_fresh a sa bk.next_id bk.log
    (fun n hn => by have := hlog n hn; simp only at this; omega) 0

theorem Engine.run_ops_append (bk : Engine.Book) (xs ys : List Engine.Op) :
    Engine.run_ops bk (xs ++ ys) = Engine.run_ops (Engine.run_ops bk xs) ys := by
  simp only [Engine.run_ops, List.foldl_append]

theorem Engine.insert_id (bk : Engine.Book) (order : Engine.NewOrder) (n : Nat)
    (h : (Engine.apply bk (.insert order)).1 = .id n) :
    order.valid bk = true ∧ n = bk.next_id ∧ (Engine.apply bk (.insert order)).2 = bk.place order := by
  simp only [Engine.apply, Engine.insert] at h ⊢
  by_cases hv : order.valid bk = true
  · rw [if_pos hv] at h ⊢
    cases h
    exact ⟨hv, rfl, rfl⟩
  · rw [if_neg hv] at h
    cases h

/-- First-in first-out order between a limit order placed on a well-formed book
and a later limit order of the same side and tick, with explicit books. -/
theorem Engine.fifo_sequence (b1 : Engine.Book) (hw1 : Engine.well_formed ⟨b1, []⟩)
    (mid post : List Engine.Op) (buy : Bool) (tick size_a size_b : Nat) (hsb : size_b ≠ 0)
    (hmid : ∀ op ∈ mid, op.targets b1.next_id = false)
    (hpost : ∀ op ∈ post, op.targets b1.next_id = false ∧
      op.targets (Engine.run_ops (b1.place (.limit buy tick size_a)) mid).next_id = false) :
    Engine.fills_in_order b1.next_id size_a
      (Engine.run_ops (b1.place (.limit buy tick size_a)) mid).next_id
      (Engine.run_ops
        ((Engine.run_ops (b1.place (.limit buy tick size_a)) mid).place (.limit buy tick size_b))
        post).log := by
  have hw2 := Engine.well_formed_place b1 (.limit buy tick size_a) hw1
  have hta2 := Engine.tracked_new b1 buy tick size_a hw1
  have hw3 := Engine.well_formed_run_ops mid _ hw2
  have hta3 := Engine.tracked_run_ops b1.next_id buy tick size_a mid hmid _ hw2 hta2
  have hab : b1.next_id ≠ (Engine.run_ops (b1.place (.limit buy tick size_a)) mid).next_id := by
    have := hta3.1
    simp only at this
    omega
  have hw4 := Engine.well_formed_place _ (.limit buy tick size_b) hw3
  have hta4 := Engine.tracked_place b1.next_id buy tick size_a _ (.limit buy tick size_b) hw3 hta3
  have htb4 := Engine.tracked_new _ buy tick size_b hw3
  have hf4 := Engine.fifo_new b1.next_id size_a buy tick size_b _ hsb hw3 hta3
  exact (Engine.fifo_run_ops b1.next_id size_a _ buy tick size_b post hab hpost _ hw4 hta4 htb4
    hf4).1

/-- C20: in the engine as the specification describes it, take any run of
top-level operations on a fresh book in which a LIMIT order is inserted and gets
identifier `a`, later a LIMIT order on the same side at the same tick is
inserted and gets identifier `b`, and no operation after the insertion of `a`
pulls or replaces `a` or `b`.  Then in the notifications of the whole run every
MSG_FILL for `b` comes after `a` has been filled for its whole size: whatever
crosses the tick fills `a` completely before `b` receives any fill. -/
theorem C20_fifo_within_tick (ticks : Nat) (pre mid post : List Engine.Op) (buy : Bool)
    (tick size_a size_b a b : Nat)
    (ha : (Engine.apply (Engine.run_ops (Engine.fresh ticks) pre)
      (.insert (.limit buy tick size_a))).1 = .id a)
    (hb : (Engine.apply (Engine.run_ops (Engine.apply (Engine.run_ops (Engine.fresh ticks) pre)
      (.insert (.limit buy tick size_a))).2 mid) (.insert (.limit buy tick size_b))).1 = .id b)
    (hmid : ∀ op ∈ mid, op.targets a = false)
    (hpost : ∀ op ∈ post, op.targets a = false ∧ op.targets b = false) :
    Engine.fills_in_order a size_a b
      (Engine.run_ops (Engine.fresh ticks)
        (pre ++ [.insert (.limit buy tick size_a)] ++ mid ++ [.insert (.limit buy tick size_b)]
          ++ post)).log := by
  have hw1 := Engine.well_formed_run_ops pre _ (Engine.well_formed_fresh ticks)
  obtain ⟨_, ha1, hA⟩ := Engine.insert_id _ _ a ha
  rw [hA] at hb
  obtain ⟨hvb, hb1, hB⟩ := Engine.insert_id _ _ b hb
  have hsb : size_b ≠ 0 := by
    simp only [Engine.NewOrder.valid, Bool.and_eq_true, decide_eq_true_eq] at hvb
    omega
  have hrun : Engine.run_ops (Engine.fresh ticks)
      (pre ++ [.insert (.limit buy tick size_a)] ++ mid ++ [.insert (.limit buy tick size_b)]
        ++ post) =
      Engine.run_ops ((Engine.run_ops ((Engine.run_ops (Engine.fresh ticks) pre).place
        (.limit buy tick size_a)) mid).place (.limit buy tick size_b)) post := by
    rw [Engine.run_ops_append, Engine.run_ops_append, Engine.run_ops_append,
      Engine.run_ops_append]
    have h1 : ∀ (bk : Engine.Book) (op : Engine.Op),
        Engine.run_ops bk [op] = (Engine.apply bk op).2 := fun _ _ => rfl
    rw [h1, h1, hA, hB]
  rw [hrun, ha1, hb1]
  exact Engine.fifo_sequence _ hw1 mid post buy tick size_a size_b hsb
    (fun op hop => ha1 ▸ hmid op hop)
    (fun op hop => ⟨ha1 ▸ (hpost op hop).1, hb1 ▸ (hpost op hop).2⟩)

/-- Witness for C20: two asks at tick 50 (sizes 3 and 4, identifiers 1 and 2),
then a buy of 5 at tick 50, which fills the first ask for 3 and the second for
2. -/
theorem C20_fifo_within_tick_witness :
    (Engine.apply (Engine.run_ops (Engine.fresh 100) []) (.insert (.limit false 50 3))).1 = .id 1 ∧
    (Engine.apply (Engine.run_ops (Engine.apply (Engine.run_ops (Engine.fresh 100) [])
      (.insert (.limit false 50 3))).2 []) (.insert (.limit false 50 4))).1 = .id 2 ∧
    Engine.filled 2 (Engine.run_ops (Engine.fresh 100)
      ([] ++ [.insert (.limit false 50 3)] ++ [] ++ [.insert (.limit false 50 4)]
        ++ [.insert (.limit true 50 5)])).log = 2 ∧
    Engine.fills_in_order 1 3 2
      (Engine.run_ops (Engine.fresh 100)
        ([] ++ [.insert (.limit false 50 3)] ++ [] ++ [.insert (.limit false 50 4)]
          ++ [.insert (.limit true 50 5)])).log :=
  ⟨by decide, by decide, by decide,
    C20_fifo_within_tick 100 [] [] [.insert (.limit true 50 5)] false 50 3 4 1 2
      (by decide) (by decide) (fun _ h => by cases h) (by decide)⟩

theorem Engine.trades_skip (n : Engine.Notification) (hn : n.msg ≠ callback_msg.fill)
    (ext : List Engine.Notification) : Engine.trades (n :: ext) = Engine.trades ext := by
  simp [Engine.trades, Engine.trades_from, hn]

theorem Engine.trades_pair (f g : Engine.Notification) (hf : f.msg = callback_msg.fill)
    (hg : g.msg = callback_msg.fill) (ext : List Engine.Notification) :
    Engine.trades (f :: g :: ext) = (f.price, f.size) :: Engine.trades ext := by
  simp [Engine.trades, Engine.trades_from, hf, hg]

theorem Engine.fill_total_append (l1 l2 : List Engine.Notification) :
    Engine.fill_total (l1 ++ l2) = Engine.fill_total l1 + Engine.fill_total l2 := by
  simp [Engine.fill_total]

/-- A notification other than MSG_FILL leaves the bookkeeping as it is. -/
theorem Engine.accounted_other (b : Engine.Book) (n : Engine.Notification)
    (hn : n.msg ≠ callback_msg.fill) (h : Engine.accounted b) (b' : Engine.Book)
    (hlog : b'.log = b.log ++ [n]) (hj : b'.journal = b.journal) (hv : b'.volume = b.volume) :
    Engine.accounted b' := by
  obtain ⟨hp, hjr, hvol, hft⟩ := h
  have e1 : Engine.trades (b.log ++ [n]) = Engine.trades b.log := by
    rw [hp [n], Engine.trades_skip n hn]; simp [Engine.trades, Engine.trades_from]
  refine ⟨?_, ?_, ?_, ?_⟩
  · intro ext
    rw [hlog, e1, List.append_assoc, hp, List.singleton_append, Engine.trades_skip n hn]
  · rw [hj, hlog, e1, hjr]
  · rw [hv, hj, hvol]
  · rw [hlog, hv, Engine.fill_total_append, hft]
    simp [Engine.fill_total, hn]

/-- A book that differs only outside log, journal and volume keeps its
bookkeeping. -/
theorem Engine.accounted_same (b b' : Engine.Book) (h : Engine.accounted b)
    (hlog : b'.log = b.log) (hj : b'.journal = b.journal) (hv : b'.volume = b.volume) :
    Engine.accounted b' := by
  unfold Engine.accounted at *
  rw [hlog, hj, hv]
  exact h

theorem Engine.accounted_trade (b : Engine.Book) (o : Engine.Incoming) (hd : Engine.LimitOrder)
    (h : Engine.accounted b) : Engine.accounted (b.trade o hd) := by
  obtain ⟨hp, hjr, hvol, hft⟩ := h
  have e1 : ∀ ext, Engine.trades (b.log ++ ([⟨.fill, hd.id, hd.tick, min o.size hd.size⟩,
      ⟨.fill, o.id, hd.tick, min o.size hd.size⟩] ++ ext))
      = Engine.trades b.log ++ (hd.tick, min o.size hd.size) :: Engine.trades ext := by
    intro ext
    rw [hp, List.cons_append, List.cons_append, List.nil_append,
      Engine.trades_pair _ _ rfl rfl]
  have e2 := e1 []
  rw [List.append_nil] at e2
  refine ⟨?_, ?_, ?_, ?_⟩
  · intro ext
    simp only [Engine.Book.trade]
    rw [List.append_assoc, e1, e2]
    simp [Engine.trades, Engine.trades_from]
  · simp only [Engine.Book.trade]
    rw [e2, hjr]
    simp [Engine.trades, Engine.trades_from]
  · simp only [Engine.Book.trade, List.map_append, List.sum_append, List.map_cons, List.map_nil,
      List.sum_cons, List.sum_nil]
    omega
  · simp only [Engine.Book.trade]
    rw [Engine.fill_total_append, hft]
    simp [Engine.fill_total]
    omega

theorem Engine.accounted_step (m m' : Engine.Machine) (ha : Engine.accounted m.book)
    (h : Engine.step m = some m') : Engine.accounted m'.book := by
  rcases Engine.step_cases m m' h with
    ⟨o, rest, hd, _, _, _, _, rfl⟩ | ⟨o, rest, _, _, rfl⟩ | ⟨o, rest, _, _, _, rfl⟩ |
    ⟨t, rest, s, _, _, rfl⟩ | ⟨t, rest, _, _, rfl⟩
  · exact Engine.accounted_trade _ o hd ha
  · exact ha
  · show Engine.accounted (m.book.settle o)
    unfold Engine.Book.settle
    cases o.limit with
    | some p => exact Engine.accounted_same _ _ ha rfl rfl rfl
    | none => exact Engine.accounted_other _ _ (fun e => by cases e) ha _ rfl rfl rfl
  · show Engine.accounted (m.book.promote s)
    unfold Engine.Book.promote
    cases s.limit with
    | some p => exact Engine.accounted_other _ _ (fun e => by cases e) ha _ rfl rfl rfl
    | none => exact Engine.accounted_same _ _ ha rfl rfl rfl
  · exact ha

theorem Engine.accounted_run (m : Engine.Machine) (ha : Engine.accounted m.book) :
    Engine.accounted (Engine.run m).book :=
  Engine.run_invariant (fun m => Engine.accounted m.book) Engine.accounted_step m ha

theorem Engine.accounted_place (b : Engine.Book) (order : Engine.NewOrder)
    (ha : Engine.accounted b) : Engine.accounted (b.place order) := by
  cases order with
  | limit buy tick size =>
    exact Engine.accounted_run _ (Engine.accounted_same b _ ha rfl rfl rfl)
  | market buy size =>
    exact Engine.accounted_run _ (Engine.accounted_same b _ ha rfl rfl rfl)
  | stop buy stop size => exact Engine.accounted_same b _ ha rfl rfl rfl
  | stop_limit buy stop limit size => exact Engine.accounted_same b _ ha rfl rfl rfl

theorem Engine.accounted_remove (b : Engine.Book) (id : Nat) (ha : Engine.accounted b) :
    Engine.accounted (b.remove id) :=
  Engine.accounted_other b _ (fun e => by cases e) ha _ rfl rfl rfl

theorem Engine.accounted_apply (b : Engine.Book) (op : Engine.Op) (ha : Engine.accounted b) :
    Engine.accounted (Engine.apply b op).2 := by
  cases op with
  | insert order =>
    simp only [Engine.apply, Engine.insert]
    split
    · exact Engine.accounted_place b order ha
    · exact ha
  | pull id =>
    simp only [Engine.apply, Engine.pull_order]
    split
    · exact Engine.accounted_remove b id ha
    · exact ha
  | replace id order =>
    simp only [Engine.apply, Engine.replace, Engine.insert]
    split
    · split
      · split
        · exact Engine.accounted_place _ order (Engine.accounted_remove b id ha)
        · exact Engine.accounted_remove b id ha
      · exact ha
    · exact ha

theorem Engine.accounted_run_ops (ops : List Engine.Op) :
    ∀ b : Engine.Book, Engine.accounted b → Engine.accounted (Engine.run_ops b ops) := by
  induction ops with
  | nil => intro b ha; exact ha
  | cons op rest ih =>
    intro b ha
    simp only [Engine.run_ops, List.foldl_cons]
    exact ih _ (Engine.accounted_apply b op ha)

theorem Engine.accounted_fresh (ticks : Nat) : Engine.accounted (Engine.fresh ticks) := by
  refine ⟨?_, rfl, rfl, rfl⟩
  intro ext
  simp [Engine.fresh, Engine.trades, Engine.trades_from]

/-- C21: in the engine as the specification describes it, after any sequence
of operations on a fresh book the volume is the sum of the sizes of the trades
executed so far and the journal has one row per trade; the journal is in fact
the list of these trades, read off the notifications, where every trade shows
as two MSG_FILL in a row (so the MSG_FILL sizes add up to twice the volume). -/
theorem C21_volume_and_journal (ticks : Nat) (ops : List Engine.Op) :
    (Engine.run_ops (Engine.fresh ticks) ops).volume
      = ((Engine.trades (Engine.run_ops (Engine.fresh ticks) ops).log).map Prod.snd).sum ∧
    (Engine.run_ops (Engine.fresh ticks) ops).journal.length
      = (Engine.trades (Engine.run_ops (Engine.fresh ticks) ops).log).length ∧
    (Engine.run_ops (Engine.fresh ticks) ops).journal
      = Engine.trades (Engine.run_ops (Engine.fresh ticks) ops).log ∧
    Engine.fill_total (Engine.run_ops (Engine.fresh ticks) ops).log
      = 2 * (Engine.run_ops (Engine.fresh ticks) ops).volume := by
  obtain ⟨_, hj, hv, hf⟩ := Engine.accounted_run_ops ops _ (Engine.accounted_fresh ticks)
  refine ⟨?_, ?_, hj, hf⟩
  · rw [hv, hj]
  · rw [hj]

theorem Engine.has_order_remove (b : Engine.Book) (id : Nat) :
    (b.remove id).has_order id = false := by
  simp [Engine.Book.has_order, Engine.Book.remove, List.any_eq_true]

/-- C22: in the engine as the specification describes it, for every book and
every identifier a second `pull_order(id)` right after the first hands back
false and leaves the book as the first call left it; the 2017 `SOB_pull_order`,
on a book that answers so, hands back `False` for the second call. -/
theorem C22_pull_idempotent (b : Engine.Book) (id : Nat) (P : Type)
    (convert : ExceptionConverter) :
    Engine.pull_order (Engine.pull_order b id).2 id
      = (.pulled false, (Engine.pull_order b id).2) ∧
    New.SOB_pull_order P
        (fun i => .returned (decide ((Engine.pull_order (Engine.pull_order b id).2 i).1
          = .pulled true)))
        convert (.ok id)
      = ⟨.ok false, [.pull_order id]⟩ := by
  have h : Engine.pull_order (Engine.pull_order b id).2 id
      = (.pulled false, (Engine.pull_order b id).2) := by
    unfold Engine.pull_order
    by_cases hin : b.has_order id = true
    · simp [hin, Engine.has_order_remove]
    · simp [hin]
  refine ⟨h, ?_⟩
  simp [New.SOB_pull_order, h]

theorem Engine.has_order_iff (b : Engine.Book) (id : Nat) :
    b.has_order id = true ↔ id ∈ Engine.Machine.ids ⟨b, []⟩ := by
  simp only [Engine.Book.has_order, Bool.or_eq_true, List.any_eq_true, decide_eq_true_eq,
    Engine.Machine.ids, Engine.stack_ids_nil, List.append_nil, List.mem_append, List.mem_map]

theorem Engine.run_absent (a : Nat) (m : Engine.Machine) (h : a ∉ m.ids) :
    (Engine.run m).book.has_order a = false := by
  have h0 : (Engine.run m).ids.count a = 0 :=
    Engine.run_invariant (fun k => k.ids.count a = 0)
      (fun k k' hk hs => by have := Engine.step_ids_count k k' hs a; omega)
      m (List.count_eq_zero.2 h)
  rw [Engine.run_eq] at h0
  cases hc : (Engine.run m).book.has_order a with
  | false => rfl
  | true =>
    have := (Engine.has_order_iff _ a).1 hc
    exact absurd this (List.count_eq_zero.1 h0)

theorem Engine.run_next_id (m : Engine.Machine) :
    (Engine.run m).book.next_id = m.book.next_id :=
  Engine.run_invariant (fun k => k.book.next_id = m.book.next_id)
    (fun k k' hk hs => (Engine.step_next_id k k' hs).trans hk) m rfl

theorem Engine.place_next_id (b : Engine.Book) (order : Engine.NewOrder) :
    (b.place order).next_id = b.next_id + 1 := by
  cases order with
  | limit buy tick size => exact Engine.run_next_id _
  | market buy size => exact Engine.run_next_id _
  | stop buy stop size => rfl
  | stop_limit buy stop limit size => rfl

theorem Engine.place_absent (b : Engine.Book) (order : Engine.NewOrder) (a : Nat)
    (h : b.has_order a = false) (hne : a ≠ b.next_id) : (b.place order).has_order a = false := by
  have hnot : a ∉ Engine.Machine.ids ⟨b, []⟩ := by
    intro hin
    rw [← Engine.has_order_iff, h] at hin
    cases hin
  simp only [Engine.Machine.ids, Engine.stack_ids_nil, List.append_nil] at hnot
  have hstart : ∀ (buy : Bool) (lim : Option Nat) (size : Nat),
      a ∉ Engine.Machine.ids
        ⟨{ b with next_id := b.next_id + 1 }, [.matching ⟨b.next_id, buy, lim, size⟩]⟩ := by
    intro buy lim size hin
    simp only [Engine.Machine.ids, Engine.stack_ids_single, List.mem_append,
      List.mem_singleton] at hin
    rcases hin with hin | hin
    · exact hnot (List.mem_append.2 hin)
    · exact hne hin
  have hstop : ∀ s : Engine.StopOrder, s.id = b.next_id →
      Engine.Book.has_order { b with next_id := b.next_id + 1, stops := b.stops ++ [s] } a
        = false := by
    intro s hs
    cases hc : Engine.Book.has_order
        { b with next_id := b.next_id + 1, stops := b.stops ++ [s] } a with
    | false => rfl
    | true =>
      rw [Engine.has_order_iff] at hc
      simp only [Engine.Machine.ids, Engine.stack_ids_nil, List.append_nil, List.map_append,
        List.map_cons, List.map_nil, List.mem_append, List.mem_singleton] at hc
      rcases hc with hc | hc | hc
      · exact absurd (List.mem_append.2 (Or.inl hc)) hnot
      · exact absurd (List.mem_append.2 (Or.inr hc)) hnot
      · exact absurd (hc.trans hs) hne
  cases order with
  | limit buy tick size => exact Engine.run_absent a _ (hstart buy (some tick) size)
  | market buy size => exact Engine.run_absent a _ (hstart buy none size)
  | stop buy stop size => exact hstop _ rfl
  | stop_limit buy stop limit size => exact hstop _ rfl

theorem Engine.has_order_lt (b : Engine.Book) (id : Nat) (hw : Engine.well_formed ⟨b, []⟩)
    (hin : b.has_order id = true) : id < b.next_id :=
  hw.2.1 id ((Engine.has_order_iff b id).1 hin)

/-- C23: in the engine as the specification describes it, on any book reached
from a fresh one, a replace whose identifier names no order in the book fails
(not found, or invalid argument when the new order is invalid too) and leaves
the whole book, resting orders and identifier counter included, as it was.  A
replace of an existing order by a valid one is the insertion of the new order
into the book without the old one: the identifier handed back is the one the
new order was inserted under, the counter moves on by one, and the old
identifier names no order any more.  The 2017 `SOB_trade_limit` in its replace
form makes the single call `replace_with_limit_order` and hands back the new
identifier, or the converted error when the book throws. -/
theorem C23_replace_pull_then_insert (ticks : Nat) (ops : List Engine.Op) (id : Nat)
    (order : Engine.NewOrder) (P : Type) (BuyOrder : Bool) (ob : OrderInterface P)
    (convert : ExceptionConverter) (wrap_cb : Option PyObject → PyObject)
    (v : New.OrderArgs P) :
    ((Engine.run_ops (Engine.fresh ticks) ops).has_order id = false →
      (Engine.replace (Engine.run_ops (Engine.fresh ticks) ops) id order).2
        = Engine.run_ops (Engine.fresh ticks) ops ∧
      ((Engine.replace (Engine.run_ops (Engine.fresh ticks) ops) id order).1
          = .error .not_found ∨
        (Engine.replace (Engine.run_ops (Engine.fresh ticks) ops) id order).1
          = .error .invalid_argument)) ∧
    ((Engine.run_ops (Engine.fresh ticks) ops).has_order id = true →
      order.valid (Engine.run_ops (Engine.fresh ticks) ops) = true →
      Engine.replace (Engine.run_ops (Engine.fresh ticks) ops) id order
        = (.id (Engine.run_ops (Engine.fresh ticks) ops).next_id,
            ((Engine.run_ops (Engine.fresh ticks) ops).remove id).place order) ∧
      Engine.insert ((Engine.run_ops (Engine.fresh ticks) ops).remove id) order
        = (.id (Engine.run_ops (Engine.fresh ticks) ops).next_id,
            ((Engine.run_ops (Engine.fresh ticks) ops).remove id).place order) ∧
      (Engine.replace (Engine.run_ops (Engine.fresh ticks) ops) id order).2.next_id
        = (Engine.run_ops (Engine.fresh ticks) ops).next_id + 1 ∧
      (Engine.replace (Engine.run_ops (Engine.fresh ticks) ops) id order).2.has_order id
        = false) ∧
    (New.SOB_trade_limit BuyOrder true ob convert wrap_cb (.ok v)).calls
      = [.replace_with_limit_order v.id BuyOrder v.limit (to_size_t v.size) (wrap_cb v.cb)] ∧
    (∀ e, ob (.replace_with_limit_order v.id BuyOrder v.limit (to_size_t v.size) (wrap_cb v.cb))
        = .thrown e →
      (New.SOB_trade_limit BuyOrder true ob convert wrap_cb (.ok v)).result
        = .error (convert e).1 (convert e).2) ∧
    (∀ n, ob (.replace_with_limit_order v.id BuyOrder v.limit (to_size_t v.size) (wrap_cb v.cb))
        = .returned n →
      (New.SOB_trade_limit BuyOrder true ob convert wrap_cb (.ok v)).result = .ok n) := by
  have hw := Engine.well_formed_run_ops ops _ (Engine.well_formed_fresh ticks)
  generalize Engine.run_ops (Engine.fresh ticks) ops = b at hw
  refine ⟨?_, ?_, ?_, ?_, ?_⟩
  · intro hno
    unfold Engine.replace
    by_cases hv : order.valid b = true
    · simp [hv, hno]
    · simp [hv]
  · intro hin hv
    have hv' : order.valid (b.remove id) = true := by
      cases order <;> exact hv
    have hrep : Engine.replace b id order = (.id b.next_id, (b.remove id).place order) := by
      unfold Engine.replace Engine.insert
      rw [if_pos hv, if_pos hin, if_pos hv']
      rfl
    have hins : Engine.insert (b.remove id) order
        = (.id b.next_id, (b.remove id).place order) := by
      unfold Engine.insert
      rw [if_pos hv']
      rfl
    refine ⟨hrep, hins, ?_, ?_⟩
    · rw [hrep]
      exact Engine.place_next_id _ order
    · rw [hrep]
      have hlt := Engine.has_order_lt b id hw hin
      exact Engine.place_absent _ order id (Engine.has_order_remove b id)
        (by show id ≠ b.next_id; omega)
  · simp only [New.SOB_trade_limit, if_true]
    cases ob (.replace_with_limit_order v.id BuyOrder v.limit (to_size_t v.size)
      (wrap_cb v.cb)) <;> rfl
  · intro e he
    simp only [New.SOB_trade_limit, if_true, he]
  · intro n hn
    simp only [New.SOB_trade_limit, if_true, hn]

/-- Witness for C23: a book with one resting ask (identifier 1); replacing the
unknown identifier 7 fails, replacing identifier 1 by an ask of 3 at tick 51
hands back identifier 2. -/
theorem C23_replace_pull_then_insert_witness :
    (Engine.run_ops (Engine.fresh 100) [.insert (.limit false 50 5)]).has_order 7 = false ∧
    (Engine.replace (Engine.run_ops (Engine.fresh 100) [.insert (.limit false 50 5)]) 7
        (.limit false 51 3)).2
      = Engine.run_ops (Engine.fresh 100) [.insert (.limit false 50 5)] ∧
    (Engine.run_ops (Engine.fresh 100) [.insert (.limit false 50 5)]).has_order 1 = true ∧
    (Engine.NewOrder.limit false 51 3).valid
      (Engine.run_ops (Engine.fresh 100) [.insert (.limit false 50 5)]) = true ∧
    (Engine.replace (Engine.run_ops (Engine.fresh 100) [.insert (.limit false 50 5)]) 1
        (.limit false 51 3)).2.has_order 1 = false :=
  ⟨by decide,
    ((C23_replace_pull_then_insert 100 [.insert (.limit false 50 5)] 7 (.limit false 51 3) Nat
      false sample_engine sample_convert sample_wrap_cb ⟨1, 0, 51, 3, none⟩).1 (by decide)).1,
    by decide, by decide,
    ((C23_replace_pull_then_insert 100 [.insert (.limit false 50 5)] 1 (.limit false 51 3) Nat
      false sample_engine sample_convert sample_wrap_cb ⟨1, 0, 51, 3, none⟩).2.1 (by decide)
        (by decide)).2.2.2⟩

/-- C24: in the 2015 binding, for each order kind the format string starts with
the id unit `k` and the keyword array with "id"; the array has six slots, its
non-null entries come first and are as many as the format has units in front of
`:`, and a null entry ends it.  The insert form, format and keywords advanced by
one, is the replace form without the id, with the same agreement between units
and keywords and still ended by a null entry. -/
theorem C24_format_and_keywords_agree (ot : order_type) :
    (Old.OrderMethodArgs.format_strs ot).toList.head? = some 'k' ∧
    (Old.OrderMethodArgs.keywords ot).head? = some (some "id") ∧
    (Old.OrderMethodArgs.keywords ot).length = 6 ∧
    (∀ Replace : Bool,
      format_units (Old.OrderMethodArgs.extract_frmt Replace ot)
        = keyword_count (Old.OrderMethodArgs.extract_kptr Replace ot) ∧
      ((Old.OrderMethodArgs.extract_kptr Replace ot).filter Option.isSome).length
        = keyword_count (Old.OrderMethodArgs.extract_kptr Replace ot) ∧
      none ∈ Old.OrderMethodArgs.extract_kptr Replace ot) ∧
    Old.OrderMethodArgs.extract_frmt true ot = 'k' :: Old.OrderMethodArgs.extract_frmt false ot ∧
    Old.OrderMethodArgs.extract_kptr true ot
      = some "id" :: Old.OrderMethodArgs.extract_kptr false ot := by
  cases ot <;> decide

theorem New.timesales_loop_reads_eq : ∀ (k : Nat) (eiter : Int),
    New.timesales_loop_reads k eiter = (List.range k).map (fun (i : Nat) => eiter - (i : Int)) := by
  intro k
  induction k with
  | zero => intro eiter; rfl
  | succ k ih =>
    intro eiter
    rw [New.timesales_loop_reads, ih, List.range_succ_eq_map, List.map_cons, List.map_map]
    congr 1
    · simp
    · apply List.map_congr_left
      intro i _
      simp only [Function.comp, Nat.cast_succ]
      ring

theorem New.SOB_time_and_sales_n {T P : Type} (to_string : T → String)
    (vec : List (timesale_entry_type T P)) (given : Option Int) :
    New.SOB_time_and_sales to_string vec (.ok given)
      = (New.timesales_to_list to_string vec (New.time_and_sales_n vec.length given)).map
          PyResult.ok := by
  simp only [New.SOB_time_and_sales, New.time_and_sales_n]
  cases New.timesales_to_list to_string vec
    (if given.getD (-1) ≤ 0 then vec.length
      else min vec.length (to_size_t (given.getD (-1)))) <;> rfl

/-- C25: in the 2017 binding, for every journal and every argument (given or
not), `SOB_time_and_sales` asks `timesales_to_list` for `n` rows with `n` at
most the journal length `L`; `timesales_to_list` reads exactly the positions
`L-1-i` for `i < n`, all of them inside the journal, and hands back a list; for
`n = 0` it reads nothing and the list is empty, whatever the journal. -/
theorem C25_time_and_sales_reads_in_bounds {T P : Type} (to_string : T → String)
    (vec : List (timesale_entry_type T P)) (given : Option Int) :
    New.time_and_sales_n vec.length given ≤ vec.length ∧
    New.timesales_to_list_reads vec.length (New.time_and_sales_n vec.length given)
      = (List.range (New.time_and_sales_n vec.length given)).map
          (fun (i : Nat) => (vec.length : Int) - 1 - (i : Int)) ∧
    (∀ p ∈ New.timesales_to_list_reads vec.length (New.time_and_sales_n vec.length given),
      0 ≤ p ∧ p < (vec.length : Int)) ∧
    (∃ list, New.timesales_to_list to_string vec (New.time_and_sales_n vec.length given)
        = some list ∧
      New.SOB_time_and_sales to_string vec (.ok given) = some (.ok list) ∧
      list.length = New.time_and_sales_n vec.length given) ∧
    New.timesales_to_list_reads vec.length 0 = [] ∧
    New.timesales_to_list to_string vec 0 = some [] := by
  have hn : New.time_and_sales_n vec.length given ≤ vec.length := by
    unfold New.time_and_sales_n
    split
    · exact le_rfl
    · exact Nat.min_le_left _ _
  have hreads : New.timesales_to_list_reads vec.length (New.time_and_sales_n vec.length given)
      = (List.range (New.time_and_sales_n vec.length given)).map
          (fun (i : Nat) => (vec.length : Int) - 1 - (i : Int)) := by
    unfold New.timesales_to_list_reads
    split
    · next h0 => rw [h0]; rfl
    · exact New.timesales_loop_reads_eq _ _
  refine ⟨hn, hreads, ?_, ?_, rfl, rfl⟩
  · intro p hp
    rw [hreads] at hp
    obtain ⟨i, hi, rfl⟩ := List.mem_map.1 hp
    rw [List.mem_range] at hi
    constructor <;> omega
  · refine ⟨_, New.timesales_to_list_eq to_string vec _ hn, ?_, ?_⟩
    · rw [New.SOB_time_and_sales_n, New.timesales_to_list_eq to_string vec _ hn]
      rfl
    · simp only [List.length_map, List.length_reverse, List.length_drop]
      omega

theorem Old.market_depth_writes_fold {P : Type} (md : List (P × Nat)) :
    ∀ (acc : List Nat) (n : Nat),
      md.foldl (fun st _ => (st.1 ++ [st.2 - 1], st.2 - 1)) (acc, n)
        = (acc ++ (List.range md.length).map (fun (i : Nat) => n - 1 - i), n - md.length) := by
  induction md with
  | nil => intro acc n; simp
  | cons e rest ih =>
    intro acc n
    rw [List.foldl_cons, ih, List.length_cons, List.range_succ_eq_map, List.map_cons,
      List.map_map, List.append_assoc]
    congr 1
    · congr 1
      rw [List.singleton_append]
      congr 1
      apply List.map_congr_left
      intro i _
      simp only [Function.comp]
      omega
    · omega

theorem Old.market_depth_writes_eq {P : Type} (md : List (P × Nat)) :
    Old.market_depth_writes md md.length
      = (List.range md.length).map (fun (i : Nat) => md.length - 1 - i) := by
  unfold Old.market_depth_writes
  rw [Old.market_depth_writes_fold]
  rfl

theorem Old.market_depth_writes_perm {P : Type} (md : List (P × Nat)) :
    (Old.market_depth_writes md md.length).Perm (List.range md.length) := by
  rw [Old.market_depth_writes_eq]
  have hnd : ((List.range md.length).map (fun (i : Nat) => md.length - 1 - i)).Nodup := by
    apply List.Nodup.map_on _ (List.nodup_range _)
    intro x hx y hy hxy
    rw [List.mem_range] at hx hy
    omega
  rw [List.perm_ext_iff_of_nodup hnd (List.nodup_range _)]
  intro a
  simp only [List.mem_map, List.mem_range]
  constructor
  · rintro ⟨i, hi, rfl⟩; omega
  · intro ha; exact ⟨md.length - 1 - a, by omega, by omega⟩

/-- The list the 2015 `SOB_market_depth` hands back for a result that passes the
size check: the levels in reverse iteration order. -/
theorem Old.SOB_market_depth_within {P : Type} (Side : side_of_market)
    (sob : Old.DepthInterface P) (depth : Int) (md : List (P × Nat)) (hpos : 0 < depth)
    (hlong : is_long depth)
    (hmd : (Old.market_depth_query Side sob depth.toNat).2 = .returned md)
    (hle : md.length ≤ (if Side = side_of_market.both then 2 * depth.toNat else depth.toNat)) :
    (Old.SOB_market_depth Side sob (some depth)).result = .ok (md.reverse.map some) := by
  have hsz : to_size_t depth = depth.toNat := to_size_t_of_pos depth hlong hpos
  have hnot : ¬ depth ≤ 0 := by omega
  have h2 : (depth.toNat * 2) % 2 ^ 64 = 2 * depth.toNat := by
    obtain ⟨_, hlt⟩ := hlong
    rw [Nat.mod_eq_of_lt (by omega)]; omega
  have herr : Old.market_depth_size_error Side md.length depth
      = decide (md.length > (if Side = side_of_market.both then 2 * depth.toNat
          else depth.toNat)) := by
    cases Side
    · simp [Old.market_depth_size_error, hsz]
    · simp [Old.market_depth_size_error, hsz]
    · simp only [Old.market_depth_size_error, hsz, h2]
      simp
  have hq : Old.market_depth_query Side sob depth.toNat
      = ((Old.market_depth_query Side sob depth.toNat).1, .returned md) := by
    rw [← hmd]
  have hng : ¬ md.length > (if Side = side_of_market.both then 2 * depth.toNat
      else depth.toNat) := by omega
  simp only [Old.SOB_market_depth, Old.MethodArgs.extract, if_neg hnot, hsz]
  rw [hq]
  simp only [herr, hng, decide_False, Old.market_depth_fills_all]
  rfl

/-- C26: in the 2015 binding, when the book's result `md` (a `std::map`, so
its `k` levels come in strictly ascending price) passes the size check, the
loop of `SOB_market_depth` writes the slots `k-1, k-2, ..., 0`, each slot of
`0..k-1` exactly once, and the list handed back holds the levels in strictly
descending price, the highest price in slot 0. -/
theorem C26_depth_list_descending {P : Type} [LT P] (Side : side_of_market)
    (sob : Old.DepthInterface P) (depth : Int) (md : List (P × Nat)) (hpos : 0 < depth)
    (hlong : is_long depth)
    (hmd : (Old.market_depth_query Side sob depth.toNat).2 = .returned md)
    (hle : md.length ≤ (if Side = side_of_market.both then 2 * depth.toNat else depth.toNat))
    (hasc : md.Pairwise (fun a b => a.1 < b.1)) :
    Old.market_depth_writes md md.length
      = (List.range md.length).map (fun (i : Nat) => md.length - 1 - i) ∧
    (Old.market_depth_writes md md.length).Perm (List.range md.length) ∧
    ∃ levels : List (P × Nat),
      (Old.SOB_market_depth Side sob (some depth)).result = .ok (levels.map some) ∧
      levels.length = md.length ∧
      levels.Perm md ∧
      levels.Pairwise (fun a b => b.1 < a.1) ∧
      (∀ top ∈ levels.head?, ∀ e ∈ md, e = top ∨ e.1 < top.1) := by
  refine ⟨Old.market_depth_writes_eq md, Old.market_depth_writes_perm md, md.reverse,
    Old.SOB_market_depth_within Side sob depth md hpos hlong hmd hle, by simp,
    List.reverse_perm md, List.pairwise_reverse.2 hasc, ?_⟩
  intro top htop e he
  have hdesc : md.reverse.Pairwise (fun a b => b.1 < a.1) := List.pairwise_reverse.2 hasc
  rw [← List.mem_reverse] at he
  cases hr : md.reverse with
  | nil => rw [hr] at he; cases he
  | cons x rest =>
    rw [hr] at he hdesc htop
    simp only [List.head?_cons, Option.mem_def, Option.some.injEq] at htop
    subst htop
    rcases List.mem_cons.1 he with h | h
    · exact Or.inl h
    · exact Or.inr ((List.pairwise_cons.1 hdesc).1 e h)

/-- Witness for C26: `bid_depth(2)` on a book with bids at 98 and 99. -/
theorem C26_depth_list_descending_witness :
    0 < (2 : Int) ∧ is_long 2 ∧
    (Old.market_depth_query side_of_market.bid sample_old_depth_book (2 : Int).toNat).2
      = .returned [(98, 5), (99, 7)] ∧
    [(98, 5), (99, 7)].Pairwise (fun (a b : Nat × Nat) => a.1 < b.1) ∧
    Old.market_depth_writes [((98 : Nat), 5), (99, 7)] 2 = [1, 0] ∧
    (Old.SOB_market_depth side_of_market.bid sample_old_depth_book (some 2)).result
      = .ok [some (99, 7), some (98, 5)] :=
  ⟨by decide, by decide, rfl, by decide,
    (C26_depth_list_descending side_of_market.bid sample_old_depth_book 2 [(98, 5), (99, 7)]
      (by decide) (by decide) rfl (by decide) (by decide)).1,
    by decide⟩

/-- C27: in both revisions `SOB_market_depth` asks the book only for a depth of
at least 1.  A parsed depth `<= 0` ends in `ValueError("depth must be > 0")`
with no call on the book; for a parsed depth `> 0` the one call made carries the
`size_t` value of the cast, which is the parsed value itself. -/
theorem C27_depth_is_positive {P : Type} [DecidableEq P] (Side : side_of_market)
    (sob : Old.DepthInterface P) (ob : DepthInterface P) (convert : ExceptionConverter)
    (depth : Int) (hlong : is_long depth) :
    (depth ≤ 0 →
      (Old.SOB_market_depth Side sob (some depth)).result
        = .error PyExc.ValueError "depth must be > 0" ∧
      (Old.SOB_market_depth Side sob (some depth)).calls = [] ∧
      (New.SOB_market_depth Side ob convert (.ok depth)).result
        = .error PyExc.ValueError "depth must be > 0" ∧
      (New.SOB_market_depth Side ob convert (.ok depth)).calls = []) ∧
    (0 < depth →
      ((to_size_t depth : Nat) : Int) = depth ∧ 1 ≤ to_size_t depth ∧
      (Old.SOB_market_depth Side sob (some depth)).calls
        = [match Side with
           | .bid => DepthCall.bid_depth (to_size_t depth)
           | .ask => DepthCall.ask_depth (to_size_t depth)
           | .both => DepthCall.market_depth (to_size_t depth)] ∧
      (New.SOB_market_depth Side ob convert (.ok depth)).calls
        = [match Side with
           | .bid => DepthCall.bid_depth (to_size_t depth)
           | .ask => DepthCall.ask_depth (to_size_t depth)
           | .both => DepthCall.market_depth (to_size_t depth)]) := by
  constructor
  · intro hle
    simp [Old.SOB_market_depth, Old.MethodArgs.extract, New.SOB_market_depth, hle]
  · intro hpos
    have hsz : to_size_t depth = depth.toNat := to_size_t_of_pos depth hlong hpos
    have hnot : ¬ depth ≤ 0 := by omega
    refine ⟨by rw [hsz]; omega, by rw [hsz]; omega, ?_, ?_⟩
    · simp only [Old.SOB_market_depth, Old.MethodArgs.extract, if_neg hnot]
      cases Side
      · simp only [Old.market_depth_query]
        cases sob.bid_depth (to_size_t depth) with
        | thrown e => rfl
        | returned md => dsimp only; split <;> rfl
      · simp only [Old.market_depth_query]
        cases sob.ask_depth (to_size_t depth) with
        | thrown e => rfl
        | returned md => dsimp only; split <;> rfl
      · simp only [Old.market_depth_query]
        cases sob.market_depth (to_size_t depth) with
        | thrown e => rfl
        | returned md => dsimp only; split <;> rfl
    · simp only [New.SOB_market_depth, if_neg hnot]
      cases Side
      · simp only [New.DepthHelper.get_to_dict]
        cases ob.bid_depth (to_size_t depth) <;> rfl
      · simp only [New.DepthHelper.get_to_dict]
        cases ob.ask_depth (to_size_t depth) <;> rfl
      · simp only [New.DepthHelper.get_to_dict]
        cases ob.market_depth (to_size_t depth) <;> rfl

/-- Witness for C27: `bid_depth(2)` asks both books for depth 2. -/
theorem C27_depth_is_positive_witness :
    is_long 2 ∧ 0 < (2 : Int) ∧ ((to_size_t 2 : Nat) : Int) = 2 ∧
    (Old.SOB_market_depth side_of_market.bid sample_old_depth_book (some 2)).calls
      = [DepthCall.bid_depth (to_size_t 2)] :=
  ⟨by decide, by decide,
    ((C27_depth_is_positive side_of_market.bid sample_old_depth_book sample_depth_book
      sample_convert 2 (by decide)).2 (by decide)).1,
    ((C27_depth_is_positive side_of_market.bid sample_old_depth_book sample_depth_book
      sample_convert 2 (by decide)).2 (by decide)).2.2.1⟩

/-- C28: in the 2017 binding, for arguments that pass the checks of `SOB_New`
and a `create` that returns the book `ob`: when the bundle is allocated the
book is stored in the bundle of the object handed back and `SOB_Delete` on that
object destroys it once; when `new pySOBBundle` throws, `SOB_New` hands back an
error having made no call but `create`, so the book is neither stored nor
destroyed (the pointer is held in a variable declared inside the `try` block,
and the `ob` tested on the error path is still null).  `SOB_Delete` on an
object without bundle destroys nothing. -/
theorem C28_created_book_stored_or_leaked (host : NewHost) (sobty : Int) (low high : Double)
    (name : String) (proxy : TickKind) (ob : Nat)
    (hlow : Double.eq low (.fin 0) = false) (hgt : Double.gt low high = false)
    (hty : sob_types_find New.SOB_TYPES sobty = some (name, proxy))
    (halloc : host.tp_alloc_ok = true)
    (hcreate : host.create proxy low high = .returned (some ob)) :
    (host.bundle_alloc_ok = true →
      New.SOB_New host (.ok (sobty, low, high))
        = ⟨.ok ⟨some ⟨some ob, proxy⟩⟩, [.create proxy low high]⟩ ∧
      New.SOB_Delete ⟨some ⟨some ob, proxy⟩⟩
        = [.destroy proxy (some ob), .delete_bundle ⟨some ob, proxy⟩, .tp_free]) ∧
    (host.bundle_alloc_ok = false →
      New.SOB_New host (.ok (sobty, low, high))
        = ⟨.error PyExc.Exception "std::bad_alloc", [.create proxy low high]⟩ ∧
      FactoryCall.destroy proxy ob ∉ (New.SOB_New host (.ok (sobty, low, high))).calls) ∧
    New.SOB_Delete ⟨none⟩ = [.tp_free] := by
  have hnew : New.SOB_New host (.ok (sobty, low, high))
      = New.SOB_New_construct host proxy low high := by
    simp [New.SOB_New, hlow, hgt, hty, halloc]
  refine ⟨?_, ?_, rfl⟩
  · intro hb
    refine ⟨?_, rfl⟩
    rw [hnew]
    simp [New.SOB_New_construct, hcreate, hb]
  · intro hb
    have h : New.SOB_New host (.ok (sobty, low, high))
        = ⟨.error PyExc.Exception "std::bad_alloc", [.create proxy low high]⟩ := by
      rw [hnew]
      simp [New.SOB_New_construct, hcreate, hb]
    refine ⟨h, ?_⟩
    rw [h]
    simp

/-- Witness for C28: a hundredth-tick book from 1 to 100 on a host whose
`create` hands back book 1 and whose bundle allocation fails. -/
theorem C28_created_book_stored_or_leaked_witness :
    Double.eq (.fin 1) (.fin 0) = false ∧ Double.gt (.fin 1) (.fin 100) = false ∧
    sob_types_find New.SOB_TYPES 4 = some ("SOB_HUNDREDTH_TICK", TickKind.hundredth_tick) ∧
    sample_host_no_bundle.create TickKind.hundredth_tick (.fin 1) (.fin 100)
      = .returned (some 1) ∧
    New.SOB_New sample_host_no_bundle (.ok (4, .fin 1, .fin 100))
      = ⟨.error PyExc.Exception "std::bad_alloc",
          [.create TickKind.hundredth_tick (.fin 1) (.fin 100)]⟩ :=
  ⟨by decide, by decide, by decide, rfl,
    ((C28_created_book_stored_or_leaked sample_host_no_bundle 4 (.fin 1) (.fin 100)
      "SOB_HUNDREDTH_TICK" TickKind.hundredth_tick 1 (by decide) (by decide) (by decide) rfl
      rfl).2.1 rfl).1⟩

theorem Old.time_and_sales_loop_eq {T P : Type} (to_string : T → String) (num : Nat)
    (vec : List (timesale_entry_type T P)) :
    ∀ i, Old.time_and_sales_loop to_string num i vec
      = (vec.take (num - i)).map (build_timesale to_string) := by
  induction vec with
  | nil => intro i; simp [Old.time_and_sales_loop]
  | cons e rest ih =>
    intro i
    by_cases hi : i < num
    · obtain ⟨k, hk⟩ : ∃ k, num - i = k + 1 := ⟨num - i - 1, by omega⟩
      have hk' : num - (i + 1) = k := by omega
      rw [Old.time_and_sales_loop, if_pos hi, ih, hk, hk', List.take_succ_cons, List.map_cons]
    · have h0 : num - i = 0 := by omega
      rw [Old.time_and_sales_loop, if_neg hi, h0]
      rfl

/-- C29: for every journal `J` and every integer `n` that fits a C `long`, the
`time_and_sales(n)` lists of the two revisions have the same length, and when
`n <= 0` or `n >= |J|` the 2017 list is the 2015 list reversed. -/
theorem C29_time_and_sales_revisions {T P : Type} (to_string : T → String)
    (vec : List (timesale_entry_type T P)) (n : Int) (h : is_long n) :
    ∃ new_list old_list,
      New.SOB_time_and_sales to_string vec (.ok (some n)) = some (.ok new_list) ∧
      Old.SOB_time_and_sales to_string vec (some n) = .ok old_list ∧
      new_list.length = old_list.length ∧
      ((n ≤ 0 ∨ (vec.length : Int) ≤ n) → new_list = old_list.reverse) := by
  have hnew := New.SOB_time_and_sales_eq to_string vec (some n) h
  simp only [Option.getD_some] at hnew
  have hold : Old.SOB_time_and_sales to_string vec (some n)
      = .ok ((vec.take (if n ≤ 0 then vec.length else to_size_t n)).map
          (build_timesale to_string)) := by
    simp only [Old.SOB_time_and_sales, Old.MethodArgs.extract, Old.time_and_sales_loop_eq,
      Nat.sub_zero]
  refine ⟨_, _, hnew, hold, ?_, ?_⟩
  · by_cases hle : n ≤ 0
    · simp [hle]
    · rw [if_neg hle, if_neg hle, to_size_t_of_pos n h (by omega)]
      simp only [List.length_map, List.length_reverse, List.length_drop, List.length_take]
      omega
  · intro hcase
    by_cases hle : n ≤ 0
    · simp [hle]
    · have hge : vec.length ≤ n.toNat := by omega
      rw [if_neg hle, if_neg hle, to_size_t_of_pos n h (by omega), Nat.min_eq_left hge,
        Nat.sub_self, List.drop_zero, List.take_of_length_le hge, List.map_reverse]

/-- Witness for C29 on the three-row sample journal with `n = 5`. -/
theorem C29_time_and_sales_revisions_witness :
    is_long 5 ∧
    ∃ new_list old_list,
      New.SOB_time_and_sales sample_to_string sample_journal (.ok (some 5))
        = some (.ok new_list) ∧
      Old.SOB_time_and_sales sample_to_string sample_journal (some 5) = .ok old_list ∧
      new_list.length = old_list.length ∧
      (((5 : Int) ≤ 0 ∨ (sample_journal.length : Int) ≤ 5) → new_list = old_list.reverse) :=
  ⟨by decide, C29_time_and_sales_revisions sample_to_string sample_journal 5 (by decide)⟩

theorem Py_XINCREF_apply (refcnt : PyObject → Int) (o : Option PyObject) (p : PyObject) :
    Py_XINCREF refcnt o p = refcnt p + (if o = some p then 1 else 0) := by
  cases o with
  | none => simp [Py_XINCREF]
  | some q =>
    simp only [Py_XINCREF, Function.update_apply, Option.some.injEq]
    by_cases h : p = q
    · subst h; simp
    · rw [if_neg h, if_neg (fun e => h e.symm)]; simp

theorem Py_XDECREF_apply (refcnt : PyObject → Int) (o : Option PyObject) (p : PyObject) :
    Py_XDECREF refcnt o p = refcnt p - (if o = some p then 1 else 0) := by
  cases o with
  | none => simp [Py_XDECREF]
  | some q =>
    simp only [Py_XDECREF, Function.update_apply, Option.some.injEq]
    by_cases h : p = q
    · subst h; simp
    · rw [if_neg h, if_neg (fun e => h e.symm)]; simp

theorem Old.count_eraseIdx {α β : Type} [BEq β] (f : α → β) (a : β) :
    ∀ (l : List α) (i : Nat) (w : α), l[i]? = some w →
      (l.map f).count a = ((l.eraseIdx i).map f).count a + (if f w == a then 1 else 0) := by
  intro l
  induction l with
  | nil => intro i w h; simp at h
  | cons x rest ih =>
    intro i w h
    cases i with
    | zero =>
      simp only [List.getElem?_cons_zero, Option.some.injEq] at h
      subst h
      simp only [List.eraseIdx_cons_zero, List.map_cons, List.count_cons]
    | succ j =>
      simp only [List.getElem?_cons_succ] at h
      have := ih j w h
      simp only [List.eraseIdx_cons_succ, List.map_cons, List.count_cons]
      omega

/-- Every event keeps the reference count of an object equal to its count
before any wrapper existed plus the number of live wrappers holding it. -/
theorem Old.wrap_step_holders (base : PyObject → Int) (st st' : Old.WrapState)
    (e : Old.WrapEvent) (p : PyObject)
    (h : st.refcnt p = base p + (st.holders p : Int)) (hs : st.step e = some st') :
    st'.refcnt p = base p + (st'.holders p : Int) := by
  cases e with
  | construct callback =>
    simp only [Old.WrapState.step, Option.some.injEq] at hs
    subst hs
    simp only [Old.PyFuncWrap.construct, Old.WrapState.holders, Py_XINCREF_apply, h,
      List.map_append, List.map_cons, List.map_nil, List.count_append, List.count_singleton,
      beq_iff_eq]
    split
    · simp [Old.WrapState.holders]; omega
    · simp [Old.WrapState.holders]
  | copy i =>
    simp only [Old.WrapState.step] at hs
    cases hl : st.live[i]? with
    | none => rw [hl] at hs; cases hs
    | some obj =>
      rw [hl] at hs
      simp only [Option.some.injEq] at hs
      subst hs
      simp only [Old.PyFuncWrap.copy, Old.WrapState.holders, Py_XINCREF_apply, h,
        List.map_append, List.map_cons, List.map_nil, List.count_append, List.count_singleton,
        beq_iff_eq]
      split
      · simp [Old.WrapState.holders]; omega
      · simp [Old.WrapState.holders]
  | destroy i =>
    simp only [Old.WrapState.step] at hs
    cases hl : st.live[i]? with
    | none => rw [hl] at hs; cases hs
    | some w =>
      rw [hl] at hs
      simp only [Option.some.injEq] at hs
      subst hs
      have hc := Old.count_eraseIdx (fun w : Old.PyFuncWrap => w.cb) (some p) st.live i w hl
      simp only [Old.PyFuncWrap.destroy, Old.WrapState.holders, Py_XDECREF_apply, h]
      rw [hc]
      by_cases hw : w.cb = some p
      · simp only [hw, beq_self_eq_true, if_true, Nat.cast_add, Nat.cast_one]
        omega
      · simp [hw]

theorem Old.wrap_run_holders (base : PyObject → Int) (p : PyObject)
    (events : List Old.WrapEvent) :
    ∀ st st' : Old.WrapState, st.refcnt p = base p + (st.holders p : Int) →
      st.run events = some st' → st'.refcnt p = base p + (st'.holders p : Int) := by
  induction events with
  | nil =>
    intro st st' h hr
    simp only [Old.WrapState.run, Option.some.injEq] at hr
    subst hr
    exact h
  | cons e rest ih =>
    intro st st' h hr
    simp only [Old.WrapState.run] at hr
    cases hs : st.step e with
    | none => rw [hs] at hr; cases hr
    | some mid =>
      rw [hs] at hr
      exact ih mid st' (Old.wrap_step_holders base st mid e p h hs) hr

theorem Old.map_eraseIdx {α β : Type} (f : α → β) :
    ∀ (l : List α) (i : Nat), (l.eraseIdx i).map f = (l.map f).eraseIdx i := by
  intro l
  induction l with
  | nil => intro i; rfl
  | cons x rest ih =>
    intro i
    cases i with
    | zero => rfl
    | succ j => simp only [List.eraseIdx_cons_succ, List.map_cons, ih]

/-- The callbacks the live wrappers hold follow the events: a run of the
wrapper code ends with the wrappers holding exactly the expected callbacks. -/
theorem Old.wrap_run_expected (events : List Old.WrapEvent) :
    ∀ st st' : Old.WrapState, st.run events = some st' →
      Old.expected_holders (st.live.map (fun w => w.cb)) events
        = some (st'.live.map (fun w => w.cb)) := by
  induction events with
  | nil =>
    intro st st' hr
    simp only [Old.WrapState.run, Option.some.injEq] at hr
    subst hr
    rfl
  | cons e rest ih =>
    intro st st' hr
    simp only [Old.WrapState.run] at hr
    cases hs : st.step e with
    | none => rw [hs] at hr; cases hr
    | some mid =>
      rw [hs] at hr
      have hrest := ih mid st' hr
      cases e with
      | construct callback =>
        simp only [Old.WrapState.step, Option.some.injEq] at hs
        subst hs
        simp only [Old.PyFuncWrap.construct, List.map_append, List.map_cons, List.map_nil]
          at hrest
        simp only [Old.expected_holders]
        exact hrest
      | copy i =>
        simp only [Old.WrapState.step] at hs
        cases hl : st.live[i]? with
        | none => rw [hl] at hs; cases hs
        | some obj =>
          rw [hl] at hs
          simp only [Option.some.injEq] at hs
          subst hs
          simp only [Old.PyFuncWrap.copy, List.map_append, List.map_cons, List.map_nil]
            at hrest
          simp only [Old.expected_holders, List.getElem?_map, hl, Option.map_some']
          exact hrest
      | destroy i =>
        simp only [Old.WrapState.step] at hs
        cases hl : st.live[i]? with
        | none => rw [hl] at hs; cases hs
        | some w =>
          rw [hl] at hs
          simp only [Option.some.injEq] at hs
          subst hs
          simp only [Old.map_eraseIdx] at hrest
          simp only [Old.expected_holders, List.getElem?_map, hl, Option.map_some']
          exact hrest

theorem Old.wrap_run_append (xs ys : List Old.WrapEvent) :
    ∀ st : Old.WrapState, st.run (xs ++ ys) = (st.run xs).bind (fun mid => mid.run ys) := by
  induction xs with
  | nil => intro st; rfl
  | cons e rest ih =>
    intro st
    simp only [List.cons_append, Old.WrapState.run]
    cases st.step e with
    | none => rfl
    | some mid => exact ih mid

/-- Every point of a run that ends well is itself the end of a run. -/
theorem Old.wrap_run_prefix (events : List Old.WrapEvent) (st st' : Old.WrapState)
    (hr : st.run events = some st') (k : Nat) : ∃ mid, st.run (events.take k) = some mid := by
  have h := Old.wrap_run_append (events.take k) (events.drop k) st
  rw [List.take_append_drop, hr] at h
  cases hm : st.run (events.take k) with
  | none => rw [hm] at h; cases h
  | some mid => exact ⟨mid, rfl⟩

/-- The state reached from no wrapper at all: the wrappers hold the expected
callbacks and every reference count is its start value plus the number of
wrappers expected to hold the object. -/
theorem Old.wrap_run_counts (refcnt : PyObject → Int) (events : List Old.WrapEvent)
    (st : Old.WrapState) (hrun : Old.WrapState.run ⟨refcnt, []⟩ events = some st) :
    Old.expected_holders [] events = some (st.live.map (fun w => w.cb)) ∧
    ∀ p, st.refcnt p = refcnt p + (((st.live.map (fun w => w.cb)).count (some p) : Nat) : Int) := by
  refine ⟨Old.wrap_run_expected events ⟨refcnt, []⟩ st hrun, fun p => ?_⟩
  exact Old.wrap_run_holders refcnt p events ⟨refcnt, []⟩ st
    (by simp [Old.WrapState.holders]) hrun

/-- C30: in the 2015 binding, the constructor of `PyFuncWrap` for a callback
`p` yields a wrapper that holds `p` and adds one to the reference count of `p`
alone, the copy constructor yields a wrapper holding the same callback and adds
one to its count alone, and the destructor takes one from the count of the
callback held, alone.  So, in any sequence of constructions, copies of live
wrappers and destructions of live wrappers (no wrapper is destroyed twice),
started with no wrapper alive, at every point: the live wrappers hold exactly
the callbacks they were constructed or copied for, and the reference count of
every object is its count at the start plus the number of live wrappers made for
it.  Hence an object whose count was not negative has a positive count while a
wrapper made for it is alive, and once no wrapper is alive every count is back
at its start value. -/
theorem C30_wrappers_hold_one_reference_each (refcnt : PyObject → Int)
    (events : List Old.WrapEvent) (st : Old.WrapState)
    (hrun : Old.WrapState.run ⟨refcnt, []⟩ events = some st) :
    (∀ (r : PyObject → Int) (p : PyObject),
      (Old.PyFuncWrap.construct r (some p)).1.cb = some p ∧
      (Old.PyFuncWrap.construct r (some p)).2 = Function.update r p (r p + 1) ∧
      (Old.PyFuncWrap.copy r ⟨some p⟩).1.cb = some p ∧
      (Old.PyFuncWrap.copy r ⟨some p⟩).2 = Function.update r p (r p + 1) ∧
      Old.PyFuncWrap.destroy r ⟨some p⟩ = Function.update r p (r p - 1)) ∧
    (∀ k : Nat, ∃ (mid : Old.WrapState) (held : List (Option PyObject)),
      Old.WrapState.run ⟨refcnt, []⟩ (events.take k) = some mid ∧
      Old.expected_holders [] (events.take k) = some held ∧
      mid.live.map (fun w => w.cb) = held ∧
      (∀ p, mid.refcnt p = refcnt p + ((held.count (some p) : Nat) : Int)) ∧
      (∀ p, 0 ≤ refcnt p → some p ∈ held → 0 < mid.refcnt p) ∧
      (held = [] → mid.refcnt = refcnt)) ∧
    (∃ held : List (Option PyObject),
      Old.expected_holders [] events = some held ∧
      st.live.map (fun w => w.cb) = held ∧
      (∀ p, st.refcnt p = refcnt p + ((held.count (some p) : Nat) : Int)) ∧
      (held = [] → st.refcnt = refcnt)) := by
  have facts : ∀ (ev : List Old.WrapEvent) (s : Old.WrapState),
      Old.WrapState.run ⟨refcnt, []⟩ ev = some s →
      Old.expected_holders [] ev = some (s.live.map (fun w => w.cb)) ∧
      (∀ p, s.refcnt p = refcnt p +
        (((s.live.map (fun w => w.cb)).count (some p) : Nat) : Int)) ∧
      (∀ p, 0 ≤ refcnt p → some p ∈ s.live.map (fun w => w.cb) → 0 < s.refcnt p) ∧
      (s.live.map (fun w => w.cb) = [] → s.refcnt = refcnt) := by
    intro ev s hs
    obtain ⟨h1, h2⟩ := Old.wrap_run_counts refcnt ev s hs
    refine ⟨h1, h2, ?_, ?_⟩
    · intro p hp hmem
      have hpos : 0 < (s.live.map (fun w => w.cb)).count (some p) :=
        List.count_pos_iff.2 hmem
      rw [h2 p]
      omega
    · intro hnil
      funext p
      rw [h2 p, hnil]
      simp
  refine ⟨fun r p => ⟨rfl, rfl, rfl, rfl, rfl⟩, ?_, ?_⟩
  · intro k
    obtain ⟨mid, hmid⟩ := Old.wrap_run_prefix events ⟨refcnt, []⟩ st hrun k
    obtain ⟨h1, h2, h3, h4⟩ := facts _ mid hmid
    exact ⟨mid, _, hmid, h1, rfl, h2, h3, h4⟩
  · obtain ⟨h1, h2, _, h4⟩ := facts events st hrun
    exact ⟨_, h1, rfl, h2, h4⟩

/-- Witness for C30: a wrapper for callback 7 is constructed and copied, which
takes the callback's count from 1 to 3 with both wrappers holding it; then both
are destroyed and the count is back at 1. -/
theorem C30_wrappers_hold_one_reference_each_witness :
    (∃ mid, Old.WrapState.run ⟨fun _ => 1, []⟩
        ([Old.WrapEvent.construct (some ⟨7, true⟩), .copy 0, .destroy 0, .destroy 0].take 2)
          = some mid ∧
      mid.live = [⟨some ⟨7, true⟩⟩, ⟨some ⟨7, true⟩⟩] ∧ mid.refcnt ⟨7, true⟩ = 3) ∧
    Old.expected_holders [] [.construct (some ⟨7, true⟩), .copy 0, .destroy 0, .destroy 0]
      = some [] ∧
    ∃ st, Old.WrapState.run ⟨fun _ => 1, []⟩
        [.construct (some ⟨7, true⟩), .copy 0, .destroy 0, .destroy 0] = some st ∧
      st.live = [] ∧ st.refcnt = fun _ => 1 :=
  ⟨⟨_, rfl, rfl, by decide⟩, rfl, _, rfl, rfl,
    match (C30_wrappers_hold_one_reference_each (fun _ => 1)
      [.construct (some ⟨7, true⟩), .copy 0, .destroy 0, .destroy 0] _ rfl).2.2 with
    | ⟨_, h1, _, _, h4⟩ => h4 (Option.some.inj (h1.symm.trans rfl))⟩

end SimpleOrderbook
